import Mathlib

/-!
# Raspberry Pi Zero 2W starter kernel: mailbox transport and framebuffer driver

A shallow embedding of `src/drivers/mailbox.c`, of `src/drivers/framebuffer.c`,
of the queries and the model-name decoding of `src/kernel/sysinfo.c`, and of
`utoa`, `itoa` and `format_hex32` of `src/lib/string.c`.

* 32-bit words are natural numbers; a truncation is written `% 2 ^ 32` where
  the C code narrows a value or a `uint32_t` computation can wrap.
* The memory-mapped mailbox is an explicit device state: how many status reads
  still report FULL, and the replies the coprocessor is going to post, each
  with the number of status reads that still report EMPTY before it arrives
  and with the writes the coprocessor made to the shared buffer beforehand.
* The busy-wait loops and the loops of `fb_fill_rect` take a fuel argument
  that bounds the number of iterations; `none` stands for a loop that is still
  running. The theorems give the fuel that suffices.
* The drawing functions are embedded twice. On `Screen` the descriptor
  `fb_info` is a value next to the byte-addressed memory that
  `fb_info.buffer` points into, and a pixel store goes to address
  `fb_info.buffer + index`; this describes the pixels a call writes. On `Ram`
  the static `fb_info` is stored in the memory the pixel stores go to, at the
  address `&fb_info`, every use of a field loads it from there, and the
  addresses stored to are recorded; the statements on whether a drawing
  function can change the descriptor, or write outside the buffer, are about
  `Ram`. As long as no pixel store lands on the descriptor the two agree
  (`put_pixel_on_screen` and the lemmas after it).
* `font8x8.h` is not among the sources: the glyph table is a parameter of the
  text functions, and the glyph size is 8 x 8.
* A C string is the list of characters written, the terminator included.
-/

namespace RPi

/-! ## Constants of `include/mailbox.h` -/

def MAILBOX_FULL : Nat := 0x80000000
def MAILBOX_EMPTY : Nat := 0x40000000

def MAILBOX_CH_PROP : Nat := 8

def TAG_END : Nat := 0x00000000

def TAG_FB_ALLOC : Nat := 0x00040001
def TAG_FB_SET_PHYS_WH : Nat := 0x00048003
def TAG_FB_SET_VIRT_WH : Nat := 0x00048004
def TAG_FB_SET_DEPTH : Nat := 0x00048005
def TAG_FB_GET_PITCH : Nat := 0x00040008
def TAG_FB_SET_VIRT_OFF : Nat := 0x00048009

/-! ## State -/

/-- Contents of `mailbox_buffer[256]`: word index to 32-bit value. -/
abbrev Buffer := Nat → Nat

/-- The assignment `mailbox_buffer[i] = v`. -/
def Buffer.store (b : Buffer) (i v : Nat) : Buffer :=
  fun j => if j = i then v else b j

/-- One word the coprocessor posts to the read FIFO. `idle` is the number of
status reads that still see EMPTY before the word is available, `word` the
32-bit value, and `dma` what the coprocessor has done to the shared buffer by
the time the word is available. -/
structure Reply where
  idle : Nat
  word : Nat
  dma : Buffer → Buffer

/-- The record `framebuffer_t` of `include/framebuffer.h`. -/
structure framebuffer_t where
  width : Nat
  height : Nat
  pitch : Nat
  depth : Nat
  buffer : Nat
  size : Nat
deriving DecidableEq, Repr

/-- Device and global variables: the mailbox registers, the shared
`mailbox_buffer` with its link address, and the static `fb_info`. -/
structure Machine where
  /-- Number of coming status reads that report FULL. -/
  full : Nat
  /-- Replies not yet read, oldest first. -/
  replies : List Reply
  /-- Words stored to `MAILBOX_WRITE`, oldest first. -/
  written : List Nat
  mailbox_buffer : Buffer
  /-- The value of `&mailbox_buffer`. -/
  buffer_addr : Nat
  fb_info : framebuffer_t

/-- The value a load of `*MAILBOX_STATUS` yields: bit 31 while the write FIFO
is full, bit 30 while no reply is available. -/
def status_word (m : Machine) : Nat :=
  (if 0 < m.full then MAILBOX_FULL else 0) |||
    (match m.replies with
     | [] => MAILBOX_EMPTY
     | r :: _ => if 0 < r.idle then MAILBOX_EMPTY else 0)

/-- Time passing over one status read. -/
def tick (m : Machine) : Machine :=
  { m with
    full := m.full - 1
    replies :=
      match m.replies with
      | [] => []
      | r :: rs => { r with idle := r.idle - 1 } :: rs }

/-- A load of `*MAILBOX_STATUS`. -/
def read_status (m : Machine) : Nat × Machine :=
  (status_word m, tick m)

/-- A load of `*MAILBOX_READ`: pops the oldest reply once it is available. -/
def read_data (m : Machine) : Nat × Machine :=
  match m.replies with
  | [] => (0, m)
  | r :: rs =>
    if 0 < r.idle then (0, m)
    else (r.word, { m with replies := rs, mailbox_buffer := r.dma m.mailbox_buffer })

/-- A store `*MAILBOX_WRITE = v`. -/
def write_data (v : Nat) (m : Machine) : Machine :=
  { m with written := m.written ++ [v] }

/-- The loop `while (*MAILBOX_STATUS & flag) { nop }`. -/
def spin_while (flag : Nat) : Nat → Machine → Option Machine
  | 0, _ => none
  | fuel + 1, m =>
    let (s, m1) := read_status m
    if s &&& flag ≠ 0 then spin_while flag fuel m1 else some m1

/-! ## `src/drivers/mailbox.c` -/

/-- Embeds `mailbox_write(channel, data)`. -/
def mailbox_write (channel data : Nat) (fuel : Nat) (m : Machine) : Option Machine :=
  match spin_while MAILBOX_FULL fuel m with
  | none => none
  | some m1 => some (write_data ((data &&& 0xFFFFFFF0) ||| (channel &&& 0xF)) m1)

/-- Embeds `mailbox_read(channel)`: the returned word and the state after. -/
def mailbox_read (channel : Nat) : Nat → Machine → Option (Nat × Machine)
  | 0, _ => none
  | fuel + 1, m =>
    match spin_while MAILBOX_EMPTY fuel m with
    | none => none
    | some m1 =>
      let (data, m2) := read_data m1
      if data &&& 0xF = channel then some (data &&& 0xFFFFFFF0, m2)
      else mailbox_read channel fuel m2

/-- The `while (1)` loop inside `mailbox_call`. -/
def mailbox_call_loop (channel : Nat) : Nat → Machine → Option (Bool × Machine)
  | 0, _ => none
  | fuel + 1, m =>
    match spin_while MAILBOX_EMPTY fuel m with
    | none => none
    | some m1 =>
      let (data, m2) := read_data m1
      if data &&& 0xF = channel then
        some (decide (m2.mailbox_buffer 1 = 0x80000000), m2)
      else mailbox_call_loop channel fuel m2

/-- Embeds `mailbox_call(channel)`. -/
def mailbox_call (channel : Nat) (fuel : Nat) (m : Machine) : Option (Bool × Machine) :=
  let addr := m.buffer_addr % 2 ^ 32
  match mailbox_write channel addr fuel m with
  | none => none
  | some m1 => mailbox_call_loop channel fuel m1

/-! ## `fb_init` of `src/drivers/framebuffer.c` -/

/-- The statement `mailbox_buffer[i++] = v` on the pair (buffer, `i`). -/
def put (s : Buffer × Nat) (v : Nat) : Buffer × Nat :=
  (s.1.store s.2 v, (s.2 + 1) % 2 ^ 32)

/-- The message-building part of `fb_init` (lines 24 to 73): the buffer after
it and the final value of the cursor `i`. -/
def fb_init_request (width height depth : Nat) (buf : Buffer) : Buffer × Nat :=
  let s : Buffer × Nat := (buf, 0)
  let s := put s 0
  let s := put s 0
  let s := put s TAG_FB_SET_PHYS_WH
  let s := put s 8
  let s := put s 0
  let s := put s width
  let s := put s height
  let s := put s TAG_FB_SET_VIRT_WH
  let s := put s 8
  let s := put s 0
  let s := put s width
  let s := put s height
  let s := put s TAG_FB_SET_VIRT_OFF
  let s := put s 8
  let s := put s 0
  let s := put s 0
  let s := put s 0
  let s := put s TAG_FB_SET_DEPTH
  let s := put s 4
  let s := put s 0
  let s := put s depth
  let s := put s TAG_FB_ALLOC
  let s := put s 8
  let s := put s 0
  let s := put s 16
  let s := put s 0
  let s := put s TAG_FB_GET_PITCH
  let s := put s 4
  let s := put s 0
  let s := put s 0
  let s := put s TAG_END
  (s.1.store 0 (s.2 * 4 % 2 ^ 32), s.2)

/-- The machine on which `fb_init` issues its call: the request is in the
shared buffer. -/
def fb_request_machine (width height depth : Nat) (m : Machine) : Machine :=
  { m with mailbox_buffer := (fb_init_request width height depth m.mailbox_buffer).1 }

/-- Embeds `fb_init(width, height, depth)`. -/
def fb_init (width height depth : Nat) (fuel : Nat) (m : Machine) : Option (Bool × Machine) :=
  match mailbox_call MAILBOX_CH_PROP fuel (fb_request_machine width height depth m) with
  | none => none
  | some (false, m1) => some (false, m1)
  | some (true, m1) =>
    if m1.mailbox_buffer 24 = 0 then some (false, m1)
    else
      some (true,
        { m1 with
          fb_info :=
            { width := width
              height := height
              depth := depth
              buffer := m1.mailbox_buffer 24 &&& 0x3FFFFFFF
              size := m1.mailbox_buffer 25
              pitch := m1.mailbox_buffer 29 } })

/-! ## The message format of the specification -/

/-- A tag block `{tag_id, value_buffer_size_bytes, code, value_words}`. -/
structure TagBlock where
  tag_id : Nat
  value_buffer_size : Nat
  code : Nat
  value_words : List Nat
deriving DecidableEq, Repr

/-- Number of words a tag block occupies: three header words and
`ceil(value_buffer_size / 4)` value words. -/
def TagBlock.words (t : TagBlock) : Nat :=
  3 + (t.value_buffer_size + 3) / 4

/-- Reads a message as the data model describes it: starting at word `pos`, a
sequence of tag blocks, each with `ceil(size / 4)` value words, up to the END
tag. Returns the blocks and the index of the END word. -/
def decode_tags (buf : Buffer) : Nat → Nat → Option (List TagBlock × Nat)
  | 0, _ => none
  | fuel + 1, pos =>
    if buf pos = TAG_END then some ([], pos)
    else
      let size := buf (pos + 1)
      let n := (size + 3) / 4
      match decode_tags buf fuel (pos + 3 + n) with
      | none => none
      | some (tags, stop) =>
        some ({ tag_id := buf pos
                value_buffer_size := size
                code := buf (pos + 2)
                value_words := (List.range n).map (fun k => buf (pos + 3 + k)) } :: tags, stop)

/-- The tag blocks of the message in `buf`: they start after the two header
words; the buffer holds 256 words. -/
def message_tags (buf : Buffer) : Option (List TagBlock × Nat) :=
  decode_tags buf 256 2

/-! ## Auxiliary notions used in the statements -/

/-- The head reply `k` status reads later. -/
def settle (k : Nat) : List Reply → List Reply
  | [] => []
  | r :: rs => { r with idle := r.idle - k } :: rs

/-- The machine `k` status reads later. -/
def elapse (k : Nat) (m : Machine) : Machine :=
  { m with full := m.full - k, replies := settle k m.replies }

/-- Number of status reads a reader makes to receive all of `rs`. -/
def polls : List Reply → Nat
  | [] => 0
  | r :: rs => r.idle + 1 + polls rs

/-- The shared buffer after the coprocessor writes that come with `rs`. -/
def seen (rs : List Reply) (b : Buffer) : Buffer :=
  rs.foldl (fun acc x => x.dma acc) b

/-- The state `mailbox_read` leaves after it has read all of `pre` and then `r`. -/
def after_read (m : Machine) (pre : List Reply) (r : Reply) (post : List Reply) : Machine :=
  { m with
    full := m.full - polls (pre ++ [r])
    replies := post
    mailbox_buffer := r.dma (seen pre m.mailbox_buffer) }

/-- The state `mailbox_call` leaves after it has read all of `pre` and then `r`. -/
def after_call (channel : Nat) (m : Machine) (pre : List Reply) (r : Reply)
    (post : List Reply) : Machine :=
  { m with
    full := 0
    replies := post
    written := m.written ++ [((m.buffer_addr % 2 ^ 32) &&& 0xFFFFFFF0) ||| (channel &&& 0xF)]
    mailbox_buffer := r.dma (seen pre m.mailbox_buffer) }

/-- The 32-bit complement of `0xF`, the mask `~0xF` of the specification. -/
def NOT_0xF : Nat := 0xFFFFFFFF ^^^ 0xF

/-- A machine for examples: the write FIFO is full for one more status read;
the coprocessor first posts a word on channel 1, and later answers on the
property channel after storing `code` into the response-code word. -/
def example_machine (code : Nat) : Machine :=
  { full := 1
    replies :=
      [{ idle := 1, word := 0x00000011, dma := fun b => b },
       { idle := 2, word := 0x00003008, dma := fun b => b.store 1 code }]
    written := []
    mailbox_buffer := fun _ => 0
    buffer_addr := 0x3000
    fb_info := { width := 0, height := 0, pitch := 0, depth := 0, buffer := 0, size := 0 } }

/-- A machine for examples of `fb_init`: the coprocessor answers on the
property channel after storing `code` into the response-code word, `addr` and
`size` into the value words of the allocate tag and `pitch` into the value
word of the get-pitch tag. -/
def example_gpu (code addr size pitch : Nat) : Machine :=
  { full := 1
    replies :=
      [{ idle := 3
         word := 0x00003008
         dma := fun b =>
           (((b.store 1 code).store 24 addr).store 25 size).store 29 pitch }]
    written := []
    mailbox_buffer := fun _ => 0
    buffer_addr := 0x3000
    fb_info := { width := 0, height := 0, pitch := 0, depth := 0, buffer := 0, size := 0 } }

/-! ## Drawing primitives of `src/drivers/framebuffer.c` -/

/-- The record `color_t` of `include/framebuffer.h`; each field is a byte. -/
structure color_t where
  r : Nat
  g : Nat
  b : Nat
  a : Nat
deriving DecidableEq, Repr

/-- Byte-addressed memory: address to byte. -/
abbrev Memory := Nat → Nat

/-- A one-byte store `*(uint8_t *)addr = v`. -/
def Memory.store (mem : Memory) (addr v : Nat) : Memory :=
  fun a => if a = addr then v else mem a

/-- What the drawing functions work on, with the descriptor taken as a value:
the content of the static `fb_info` and the memory that `fb_info.buffer`
points into. A store to `memory` does not reach `fb_info` here; `Ram` below
is the state in which it does. -/
structure Screen where
  fb_info : framebuffer_t
  memory : Memory

/-- Modelled from the spec: `FONT_WIDTH` of `font8x8.h`, a header that is not
among the sources; a glyph is 8 columns wide. -/
def FONT_WIDTH : Nat := 8

/-- Modelled from the spec: `FONT_HEIGHT` of `font8x8.h`, a header that is not
among the sources; a glyph is 8 rows high. -/
def FONT_HEIGHT : Nat := 8

/-- Embeds `fb_put_pixel(x, y, color)` on `Screen`. The offset and the four
indices `offset + k` are `uint32_t` values. -/
def fb_put_pixel (x y : Nat) (color : color_t) (s : Screen) : Screen :=
  if x ≥ s.fb_info.width ∨ y ≥ s.fb_info.height then s
  else
    let offset := (y * s.fb_info.pitch % 2 ^ 32 + x * (s.fb_info.depth / 8) % 2 ^ 32) % 2 ^ 32
    let mem := s.memory.store (s.fb_info.buffer + (offset + 0) % 2 ^ 32) color.b
    let mem := mem.store (s.fb_info.buffer + (offset + 1) % 2 ^ 32) color.g
    let mem := mem.store (s.fb_info.buffer + (offset + 2) % 2 ^ 32) color.r
    let mem := mem.store (s.fb_info.buffer + (offset + 3) % 2 ^ 32) color.a
    { s with memory := mem }

/-- The inner loop of `fb_fill_rect`:
`for (px = ...; px < x + w && px < fb_info.width; px++) fb_put_pixel(px, py, color)`,
entered with the current value of `px`; `none` when the fuel runs out. -/
def fb_fill_rect_cols (x w py : Nat) (color : color_t) : Nat → Nat → Screen → Option Screen
  | 0, _, _ => none
  | fuel + 1, px, s =>
    if px < (x + w) % 2 ^ 32 ∧ px < s.fb_info.width then
      fb_fill_rect_cols x w py color fuel ((px + 1) % 2 ^ 32) (fb_put_pixel px py color s)
    else some s

/-- The outer loop of `fb_fill_rect`:
`for (py = ...; py < y + h && py < fb_info.height; py++) { inner loop }`. -/
def fb_fill_rect_rows (x y w h : Nat) (color : color_t) : Nat → Nat → Screen → Option Screen
  | 0, _, _ => none
  | fuel + 1, py, s =>
    if py < (y + h) % 2 ^ 32 ∧ py < s.fb_info.height then
      match fb_fill_rect_cols x w py color fuel x s with
      | none => none
      | some s1 => fb_fill_rect_rows x y w h color fuel ((py + 1) % 2 ^ 32) s1
    else some s

/-- Embeds `fb_fill_rect(x, y, w, h, color)`. -/
def fb_fill_rect (x y w h : Nat) (color : color_t) (fuel : Nat) (s : Screen) : Option Screen :=
  fb_fill_rect_rows x y w h color fuel y s

/-- Embeds `fb_clear(color)`. -/
def fb_clear (color : color_t) (fuel : Nat) (s : Screen) : Option Screen :=
  fb_fill_rect 0 0 s.fb_info.width s.fb_info.height color fuel s

/-- The first statement of `fb_draw_char`: `if (c < 32 || c > 126) c = '?';`. -/
def printable (c : Int) : Int :=
  if c < 32 ∨ c > 126 then 63 else c

/-- The index `c - 32` with which `fb_draw_char` selects the glyph. -/
def glyph_index (c : Int) : Int :=
  printable c - 32

/-- Embeds `fb_draw_char(x, y, c, fg, bg)`. The table `font8x8` of `font8x8.h`
is not among the sources and is a parameter: glyph index and row to the byte
of that row. -/
def fb_draw_char (font8x8 : Nat → Nat → Nat) (x y : Nat) (c : Int) (fg bg : color_t)
    (s : Screen) : Screen :=
  let glyph := font8x8 (glyph_index c).toNat
  (List.range FONT_HEIGHT).foldl
    (fun s row =>
      let bits := glyph row
      (List.range FONT_WIDTH).foldl
        (fun s col =>
          if bits &&& (0x80 >>> col) ≠ 0 then
            fb_put_pixel ((x + col) % 2 ^ 32) ((y + row) % 2 ^ 32) fg s
          else
            fb_put_pixel ((x + col) % 2 ^ 32) ((y + row) % 2 ^ 32) bg s)
        s)
    s

/-- The loop of `fb_draw_string` over the characters at `str`; the character
0 ends the string. -/
def fb_draw_string_loop (font8x8 : Nat → Nat → Nat) (orig_x : Nat) (fg bg : color_t) :
    Nat → Nat → List Int → Screen → Screen
  | _, _, [], s => s
  | x, y, c :: str, s =>
    if c = 0 then s
    else if c = 10 then
      fb_draw_string_loop font8x8 orig_x fg bg orig_x ((y + (FONT_HEIGHT + 2)) % 2 ^ 32) str s
    else
      fb_draw_string_loop font8x8 orig_x fg bg ((x + FONT_WIDTH) % 2 ^ 32) y str
        (fb_draw_char font8x8 x y c fg bg s)

/-- Embeds `fb_draw_string(x, y, str, fg, bg)`. -/
def fb_draw_string (font8x8 : Nat → Nat → Nat) (x y : Nat) (str : List Int) (fg bg : color_t)
    (s : Screen) : Screen :=
  fb_draw_string_loop font8x8 x fg bg x y str s

/-! ## Notions used in the statements on drawing -/

/-- A descriptor of the one supported format: 32 bits per pixel, rows that do
not overlap, and a buffer whose byte offsets fit in 32 bits. -/
def well_formed (fb : framebuffer_t) : Prop :=
  fb.depth = 32 ∧ 4 * fb.width ≤ fb.pitch ∧ fb.pitch * fb.height < 2 ^ 32

instance (fb : framebuffer_t) : Decidable (well_formed fb) := by
  unfold well_formed
  infer_instance

/-- Address of the first byte of pixel `(x, y)`. -/
def pixel_addr (fb : framebuffer_t) (x y : Nat) : Nat :=
  fb.buffer + (y * fb.pitch + x * 4)

/-- Pixel `(x, y)` holds the bytes `(b, g, r, a)` of `c`. -/
def shows (s : Screen) (x y : Nat) (c : color_t) : Prop :=
  s.memory (pixel_addr s.fb_info x y) = c.b ∧
  s.memory (pixel_addr s.fb_info x y + 1) = c.g ∧
  s.memory (pixel_addr s.fb_info x y + 2) = c.r ∧
  s.memory (pixel_addr s.fb_info x y + 3) = c.a

/-- The byte at address `a` is one of the four bytes of pixel `(x, y)`. -/
def in_pixel (fb : framebuffer_t) (x y a : Nat) : Prop :=
  pixel_addr fb x y ≤ a ∧ a < pixel_addr fb x y + 4

/-- A sequence of `fb_put_pixel` calls, first element first. -/
def paint (ops : List (Nat × Nat × color_t)) (s : Screen) : Screen :=
  ops.foldl (fun acc p => fb_put_pixel p.1 p.2.1 p.2.2 acc) s

/-- The pixel writes of one row of a rectangle: `n` pixels from column `px`
on row `py`. -/
def row_ops (px n py : Nat) (color : color_t) : List (Nat × Nat × color_t) :=
  (List.range' px n).map (fun q => (q, py, color))

/-- The pixel writes of a rectangle, row by row: `nrows` rows from row `py`,
each of `ncols` pixels from column `x`. -/
def rect_ops (x ncols py nrows : Nat) (color : color_t) : List (Nat × Nat × color_t) :=
  (List.range' py nrows).flatMap (fun r => row_ops x ncols r color)

/-- The 32-bit offset `y * pitch + x * 4` that `fb_put_pixel` computes at
depth 32. -/
def pixel_offset (fb : framebuffer_t) (x y : Nat) : Nat :=
  (y * fb.pitch + x * 4) % 2 ^ 32

/-- The color `COLOR_WHITE` of `include/framebuffer.h`. -/
def COLOR_WHITE : color_t := { r := 0xFF, g := 0xFF, b := 0xFF, a := 0xFF }

/-- The color `COLOR_BLACK` of `include/framebuffer.h`. -/
def COLOR_BLACK : color_t := { r := 0x00, g := 0x00, b := 0x00, a := 0xFF }

/-- A descriptor for examples: 4 x 4 pixels of 32 bits, 16 bytes per row. -/
def example_fb : framebuffer_t :=
  { width := 4, height := 4, pitch := 16, depth := 32, buffer := 0x1000, size := 64 }

/-- A screen for examples: `example_fb` over memory that is all zero. -/
def example_screen : Screen :=
  { fb_info := example_fb, memory := fun _ => 0 }

/-- A font for examples: the glyph of `A` (index 33) has only its top-left
bit set in row 0 and only its rightmost bit in the other rows; every other
glyph is solid. -/
def example_font : Nat → Nat → Nat :=
  fun i row => if i = 33 then (if row = 0 then 0x80 else 0x01) else 0xFF

/-- Number of newline characters in `p`. -/
def newline_count (p : List Int) : Nat :=
  (p.filter (fun c => decide (c = 10))).length

/-- Number of characters of `p` after its last newline, or of all of `p`
when it has none. -/
def line_column (p : List Int) : Nat :=
  (p.reverse.takeWhile (fun c => decide (c ≠ 10))).length

/-- The drawing of a text as the specification describes it: in text order,
each character `text[i]` that is not a newline is drawn by `fb_draw_char` at
`(x + 8 * k_i, y + 10 * n_i)` modulo `2 ^ 32`, where `n_i` is the number of
newlines before index `i` and `k_i` the number of characters between the last
newline before `i` (or the start) and `i`; a newline draws nothing. -/
def draw_text_steps (font8x8 : Nat → Nat → Nat) (x y : Nat) (text : List Int)
    (fg bg : color_t) (s : Screen) : Screen :=
  (List.range text.length).foldl
    (fun acc i =>
      if text.getD i 0 = 10 then acc
      else
        fb_draw_char font8x8
          ((x + 8 * line_column (text.take i)) % 2 ^ 32)
          ((y + 10 * newline_count (text.take i)) % 2 ^ 32)
          (text.getD i 0) fg bg acc)
    s

/-! ## Requests of `src/kernel/sysinfo.c` -/

def TAG_GET_FIRMWARE : Nat := 0x00000001
def TAG_GET_BOARD_MODEL : Nat := 0x00010001
def TAG_GET_BOARD_REV : Nat := 0x00010002
def TAG_GET_MAC_ADDR : Nat := 0x00010003
def TAG_GET_BOARD_SERIAL : Nat := 0x00010004
def TAG_GET_ARM_MEMORY : Nat := 0x00010005
def TAG_GET_VC_MEMORY : Nat := 0x00010006
def TAG_GET_CLOCK_RATE : Nat := 0x00030002

/-- The loop `for (j = 0; j < resp_count; j++) mailbox_buffer[i++] = 0;`. -/
def clear_response (resp_count : Nat) (s : Buffer × Nat) : Buffer × Nat :=
  (List.range resp_count).foldl (fun acc _ => put acc 0) s

/-- The message-building part of `query_property` (up to the call): the
buffer after it and the final value of the cursor `i`. -/
def query_property_request (tag req_size resp_count : Nat) (buf : Buffer) : Buffer × Nat :=
  let s : Buffer × Nat := (buf, 0)
  let s := put s 0
  let s := put s 0
  let s := put s tag
  let s := put s req_size
  let s := put s 0
  let s := clear_response resp_count s
  let s := put s TAG_END
  (s.1.store 0 (s.2 * 4 % 2 ^ 32), s.2)

/-- The message-building part of `query_clock_rate` (up to the call). -/
def query_clock_rate_request (clock_id : Nat) (buf : Buffer) : Buffer × Nat :=
  let s : Buffer × Nat := (buf, 0)
  let s := put s 0
  let s := put s 0
  let s := put s TAG_GET_CLOCK_RATE
  let s := put s 8
  let s := put s 0
  let s := put s clock_id
  let s := put s 0
  let s := put s TAG_END
  (s.1.store 0 (s.2 * 4 % 2 ^ 32), s.2)

/-- The arguments `(tag, req_size, resp_count)` of the seven calls of
`query_property` in `sysinfo_init`, in order. -/
def sysinfo_queries : List (Nat × Nat × Nat) :=
  [(TAG_GET_FIRMWARE, 4, 1), (TAG_GET_BOARD_MODEL, 4, 1), (TAG_GET_BOARD_REV, 4, 1),
   (TAG_GET_BOARD_SERIAL, 8, 2), (TAG_GET_ARM_MEMORY, 8, 2), (TAG_GET_VC_MEMORY, 8, 2),
   (TAG_GET_MAC_ADDR, 6, 2)]

/-! ## Notions used in the statements on message layout -/

/-- For each tag block of a message whose first block starts at word `pos`:
the tag id, the index of its first value word and the number of its value
words; a block occupies `3 + ceil(value_buffer_size / 4)` words. -/
def value_areas (pos : Nat) : List TagBlock → List (Nat × Nat × Nat)
  | [] => []
  | t :: ts => (t.tag_id, pos + 3, (t.value_buffer_size + 3) / 4) :: value_areas (pos + t.words) ts

/-- The ids of the tags whose value area holds word `i`. -/
def value_owners (areas : List (Nat × Nat × Nat)) (i : Nat) : List Nat :=
  (areas.filter (fun a => decide (a.2.1 ≤ i ∧ i < a.2.1 + a.2.2))).map (fun a => a.1)

/-- A request whose single tag block is `t` is well formed: word 0 is 4 times
the number `req.2` of words encoded, word 1 is 0, the words encoded are the
two header words, the block `t` with its `ceil(value_buffer_size / 4)` value
words and the END word, and END comes right after the block. -/
def request_well_formed (req : Buffer × Nat) (t : TagBlock) : Prop :=
  ∃ stop,
    message_tags req.1 = some ([t], stop) ∧
    req.1 0 = 4 * req.2 ∧
    req.1 1 = 0 ∧
    req.2 = 2 + t.words + 1 ∧
    stop = 2 + t.words ∧
    req.1 stop = TAG_END

/-- Word `i` of a message whose only tag block is `t` lies in the value area
of `t`. -/
def in_value_area (t : TagBlock) (i : Nat) : Prop :=
  value_owners (value_areas 2 [t]) i = [t.tag_id]

/-! ## Number formatting of `src/lib/string.c` -/

/-- The characters of the array `hex_chars`. -/
def hex_chars : List Char := "0123456789ABCDEF".toList

/-- The character `\0` that ends a C string. -/
def NUL : Char := Char.ofNat 0

/-- The load `hex_chars[i]`; index 16 holds the terminator of the literal. -/
def hex_char (i : Nat) : Char := hex_chars.getD i NUL

/-- The conversion `(uint32_t)v`. -/
def to_uint32 (v : Int) : Nat := (v % 2 ^ 32).toNat

/-- An `int32_t` result taken modulo `2 ^ 32`. -/
def to_int32 (v : Int) : Int := (v + 2 ^ 31) % 2 ^ 32 - 2 ^ 31

/-- The first loop of `utoa`:
`while (value) { *p++ = hex_chars[value % base]; value /= base; }`.
The array `tmp` is kept as a stack, the character written last first. -/
def utoa_push (base : Nat) : Nat → Nat → List Char → Option (List Char)
  | 0, _, _ => none
  | fuel + 1, value, tmp =>
    if value ≠ 0 then utoa_push base fuel (value / base) (hex_char (value % base) :: tmp)
    else some tmp

/-- The second loop of `utoa`: `while (p > tmp) { *buffer++ = *--p; }`, with
the characters written to `buffer` so far in `out`. -/
def utoa_pop : List Char → List Char → List Char
  | [], out => out
  | c :: tmp, out => utoa_pop tmp (out ++ [c])

/-- Embeds `utoa(value, buffer, base)`: the characters written to `buffer`,
the terminator included. In `value % base` the `int` base is converted to
`uint32_t`. -/
def utoa (value : Nat) (base : Int) (fuel : Nat) : Option (List Char) :=
  if value = 0 then some ['0', NUL]
  else
    match utoa_push (to_uint32 base) fuel value [] with
    | none => none
    | some tmp => some (utoa_pop tmp [] ++ [NUL])

/-- Embeds `itoa(value, buffer, base)`: the characters written to `buffer`.
The negation `-value` is taken modulo `2 ^ 32`. -/
def itoa (value : Int) (base : Int) (fuel : Nat) : Option (List Char) :=
  if value < 0 ∧ base = 10 then
    (utoa (to_uint32 (to_int32 (-value))) base fuel).map (fun s => '-' :: s)
  else utoa (to_uint32 value) base fuel

/-- A character buffer: index to character. -/
abbrev CharBuffer := Nat → Char

/-- The assignment `buffer[i] = c`. -/
def CharBuffer.store (b : CharBuffer) (i : Nat) (c : Char) : CharBuffer :=
  fun j => if j = i then c else b j

/-- Embeds `format_hex32(value, buffer)`. Indices count from the `buffer`
passed in, so the loop, which runs after two `buffer++`, writes at `2 + i`. -/
def format_hex32 (value : Nat) (buffer : CharBuffer) : CharBuffer :=
  let out := buffer.store 0 '0'
  let out := out.store 1 'x'
  let st : CharBuffer × Nat :=
    (List.range 8).reverse.foldl
      (fun st i => (st.1.store (2 + i) (hex_char (st.2 &&& 0xF)), st.2 >>> 4))
      (out, value)
  st.1.store (2 + 8) NUL

/-- The value of a digit character: its position in `hex_chars`. -/
def digit_value (c : Char) : Nat := hex_chars.indexOf c

/-- The number a digit string denotes in base `base`, read most significant
digit first. -/
def parse_digits (base : Nat) (s : List Char) : Nat :=
  s.foldl (fun acc c => acc * base + digit_value c) 0

/-! ## Queries of `src/kernel/sysinfo.c` -/

def CLOCK_ID_ARM : Nat := 3
def CLOCK_ID_CORE : Nat := 4
def CLOCK_ID_SDRAM : Nat := 8

/-- The record `sysinfo_t` of `include/sysinfo.h`; `mac_address` holds the six
bytes of the array. -/
structure sysinfo_t where
  board_model : Nat
  board_revision : Nat
  serial_number : Nat
  firmware_version : Nat
  arm_mem_base : Nat
  arm_mem_size : Nat
  vc_mem_base : Nat
  vc_mem_size : Nat
  arm_clock : Nat
  core_clock : Nat
  sdram_clock : Nat
  mac_address : List Nat
deriving DecidableEq, Repr

/-- The machine on which a query issues its call: the request built by `req`
is in the shared buffer. -/
def with_request (req : Buffer → Buffer × Nat) (m : Machine) : Machine :=
  { m with mailbox_buffer := (req m.mailbox_buffer).1 }

/-- The loop `for (j = 0; j < resp_count; j++) response[j] = mailbox_buffer[5 + j];`. -/
def copy_response (resp_count : Nat) (buf : Buffer) (response : Nat → Nat) : Nat → Nat :=
  (List.range resp_count).foldl
    (fun acc j => fun k => if k = j then buf (5 + j) else acc k) response

/-- Embeds `query_property(tag, req_size, response, resp_count)`: the result
and the array `response` after the call. -/
def query_property (tag req_size : Nat) (response : Nat → Nat) (resp_count : Nat)
    (fuel : Nat) (m : Machine) : Option (Bool × (Nat → Nat) × Machine) :=
  match mailbox_call MAILBOX_CH_PROP fuel
      (with_request (query_property_request tag req_size resp_count) m) with
  | none => none
  | some (false, m1) => some (false, response, m1)
  | some (true, m1) => some (true, copy_response resp_count m1.mailbox_buffer response, m1)

/-- Embeds `query_clock_rate(clock_id)`. -/
def query_clock_rate (clock_id : Nat) (fuel : Nat) (m : Machine) : Option (Nat × Machine) :=
  match mailbox_call MAILBOX_CH_PROP fuel
      (with_request (query_clock_rate_request clock_id) m) with
  | none => none
  | some (false, m1) => some (0, m1)
  | some (true, m1) => some (m1.mailbox_buffer 6, m1)

/-- The loop at the start of `sysinfo_init` that stores 0 to every byte of
the structure. -/
def clear_info (_info : sysinfo_t) : sysinfo_t :=
  { board_model := 0, board_revision := 0, serial_number := 0, firmware_version := 0,
    arm_mem_base := 0, arm_mem_size := 0, vc_mem_base := 0, vc_mem_size := 0,
    arm_clock := 0, core_clock := 0, sdram_clock := 0, mac_address := [0, 0, 0, 0, 0, 0] }

/-- Embeds `sysinfo_init(info)`. `resp` is the content of the local array
`resp` at entry, which the function does not initialise. -/
def sysinfo_init (info : sysinfo_t) (resp : Nat → Nat) (fuel : Nat) (m : Machine) :
    Option (Bool × sysinfo_t × Machine) := do
  let info := clear_info info
  let (ok, resp, m) ← query_property TAG_GET_FIRMWARE 4 resp 1 fuel m
  let info := if ok then { info with firmware_version := resp 0 } else info
  let (ok, resp, m) ← query_property TAG_GET_BOARD_MODEL 4 resp 1 fuel m
  let info := if ok then { info with board_model := resp 0 } else info
  let (ok, resp, m) ← query_property TAG_GET_BOARD_REV 4 resp 1 fuel m
  let info := if ok then { info with board_revision := resp 0 } else info
  let (ok, resp, m) ← query_property TAG_GET_BOARD_SERIAL 8 resp 2 fuel m
  let info :=
    if ok then { info with serial_number := ((resp 1 <<< 32) ||| resp 0) % 2 ^ 64 } else info
  let (ok, resp, m) ← query_property TAG_GET_ARM_MEMORY 8 resp 2 fuel m
  let info := if ok then { info with arm_mem_base := resp 0, arm_mem_size := resp 1 } else info
  let (ok, resp, m) ← query_property TAG_GET_VC_MEMORY 8 resp 2 fuel m
  let info := if ok then { info with vc_mem_base := resp 0, vc_mem_size := resp 1 } else info
  let (ok, resp, m) ← query_property TAG_GET_MAC_ADDR 6 resp 2 fuel m
  let info :=
    if ok then
      { info with
        mac_address :=
          [(resp 0 >>> 0) &&& 0xFF, (resp 0 >>> 8) &&& 0xFF, (resp 0 >>> 16) &&& 0xFF,
           (resp 0 >>> 24) &&& 0xFF, (resp 1 >>> 0) &&& 0xFF, (resp 1 >>> 8) &&& 0xFF] }
    else info
  let (rate, m) ← query_clock_rate CLOCK_ID_ARM fuel m
  let info := { info with arm_clock := rate }
  let (rate, m) ← query_clock_rate CLOCK_ID_CORE fuel m
  let info := { info with core_clock := rate }
  let (rate, m) ← query_clock_rate CLOCK_ID_SDRAM fuel m
  let info := { info with sdram_clock := rate }
  pure (true, info, m)

/-- The clock ids of the three calls of `query_clock_rate` in `sysinfo_init`,
in order. -/
def sysinfo_clocks : List Nat := [CLOCK_ID_ARM, CLOCK_ID_CORE, CLOCK_ID_SDRAM]

/-- The requests of the ten mailbox calls of `sysinfo_init`, in order: the
seven property queries, then the three clock queries. -/
def sysinfo_requests : List (Buffer → Buffer × Nat) :=
  sysinfo_queries.map (fun q => query_property_request q.1 q.2.1 q.2.2) ++
    sysinfo_clocks.map query_clock_rate_request

/-- The mailbox calls for the requests `reqs`, made one after the other from
machine `m`, all return, with whatever result, and leave machine `m'`. -/
def calls_return (fuel : Nat) : List (Buffer → Buffer × Nat) → Machine → Machine → Prop
  | [], m, m' => m' = m
  | req :: reqs, m, m' =>
    ∃ ok m1, mailbox_call MAILBOX_CH_PROP fuel (with_request req m) = some (ok, m1) ∧
      calls_return fuel reqs m1 m'

/-- Embeds `decode_board_type(revision)`. -/
def decode_board_type (revision : Nat) : Nat :=
  if revision &&& 0x800000 ≠ 0 then (revision >>> 4) &&& 0xFF else 0xFF

/-- The `switch (type)` of `sysinfo_get_model_name`. -/
def model_name_switch (type : Nat) : String :=
  match type with
  | 0x00 => "Raspberry Pi Model A"
  | 0x01 => "Raspberry Pi Model B"
  | 0x02 => "Raspberry Pi Model A+"
  | 0x03 => "Raspberry Pi Model B+"
  | 0x04 => "Raspberry Pi 2 Model B"
  | 0x06 => "Raspberry Pi Compute Module 1"
  | 0x08 => "Raspberry Pi 3 Model B"
  | 0x09 => "Raspberry Pi Zero"
  | 0x0A => "Raspberry Pi Compute Module 3"
  | 0x0C => "Raspberry Pi Zero W"
  | 0x0D => "Raspberry Pi 3 Model B+"
  | 0x0E => "Raspberry Pi 3 Model A+"
  | 0x10 => "Raspberry Pi Compute Module 3+"
  | 0x11 => "Raspberry Pi 4 Model B"
  | 0x12 => "Raspberry Pi Zero 2 W"
  | 0x13 => "Raspberry Pi 400"
  | 0x14 => "Raspberry Pi Compute Module 4"
  | 0x17 => "Raspberry Pi 5"
  | _ => "Unknown Raspberry Pi"

/-- Embeds `sysinfo_get_model_name(revision)`. -/
def sysinfo_get_model_name (revision : Nat) : String :=
  model_name_switch (decode_board_type revision)

/-- The type values that have a `case` in `sysinfo_get_model_name`. -/
def known_types : List Nat :=
  [0x00, 0x01, 0x02, 0x03, 0x04, 0x06, 0x08, 0x09, 0x0A, 0x0C, 0x0D, 0x0E, 0x10, 0x11, 0x12,
   0x13, 0x14, 0x17]

/-- A reply for examples: on the property channel, with the response code
0x80000001 of a request that could not be parsed. -/
def example_failure : Reply :=
  { idle := 0, word := 0x00003008, dma := fun b => b.store 1 0x80000001 }

/-- A machine for examples whose coprocessor answers the next `n` calls with
`example_failure`. -/
def example_dead_gpu (n : Nat) (buf : Buffer) (written : List Nat) : Machine :=
  { full := 0
    replies := List.replicate n example_failure
    written := written
    mailbox_buffer := buf
    buffer_addr := 0x3000
    fb_info := { width := 0, height := 0, pitch := 0, depth := 0, buffer := 0, size := 0 } }

/-- A machine for examples whose coprocessor answers the next call on the
property channel with success, after storing `w5` and `w6` into words 5 and 6
of the shared buffer. -/
def example_live_gpu (w5 w6 : Nat) : Machine :=
  { full := 0
    replies :=
      [{ idle := 0
         word := 0x00003008
         dma := fun b => ((b.store 1 0x80000000).store 5 w5).store 6 w6 }]
    written := []
    mailbox_buffer := fun _ => 0
    buffer_addr := 0x3000
    fb_info := { width := 0, height := 0, pitch := 0, depth := 0, buffer := 0, size := 0 } }

/-- A descriptor as the claim on bounds takes it: 32 bits per pixel, rows
that do not overlap, and `height` rows inside the `size` bytes allocated. -/
def allocated (fb : framebuffer_t) : Prop :=
  fb.depth = 32 ∧ 4 * fb.width ≤ fb.pitch ∧ fb.pitch * fb.height ≤ fb.size

instance (fb : framebuffer_t) : Decidable (allocated fb) := by
  unfold allocated
  infer_instance

/-! ## The drawing functions with `fb_info` in memory

`fb_info` is a static of `framebuffer.c`, and `fb_info.buffer[offset + k] = ...`
is a byte store to the address `fb_info.buffer + offset + k`, wherever that
is. Here the descriptor is read from the bytes at `&fb_info` each time the C
code names one of its fields, so a pixel store that lands there changes it.
The layout of `framebuffer_t` is the one of the 64-bit little-endian target
(`types.h` takes `unsigned long` for `uint64_t`): `width`, `height`, `pitch`
and `depth` at offsets 0, 4, 8 and 12, the pointer `buffer` at 16, `size` at
24, and 32 bytes in all. Parameters, local variables, the glyph table and the
text are values, as on `Screen`. -/

/-- A load of a `uint32_t` from the four bytes at address `a`. -/
def load32 (mem : Memory) (a : Nat) : Nat :=
  mem a % 256 + 256 * (mem (a + 1) % 256) + 65536 * (mem (a + 2) % 256) +
    16777216 * (mem (a + 3) % 256)

/-- A load of a pointer from the eight bytes at address `a`. -/
def load64 (mem : Memory) (a : Nat) : Nat :=
  load32 mem a + 4294967296 * load32 mem (a + 4)

/-- A store of the `uint32_t` value `v` to the four bytes at address `a`. -/
def store32 (mem : Memory) (a v : Nat) : Memory :=
  (((mem.store a (v % 256)).store (a + 1) (v / 256 % 256)).store (a + 2) (v / 65536 % 256)).store
    (a + 3) (v / 16777216 % 256)

/-- A store of the pointer `v` to the eight bytes at address `a`. -/
def store64 (mem : Memory) (a v : Nat) : Memory :=
  store32 (store32 mem a (v % 4294967296)) (a + 4) (v / 4294967296 % 4294967296)

/-- The memory the driver runs in. -/
structure Ram where
  /-- The value of `&fb_info`. -/
  fb_info_addr : Nat
  /-- The byte at each address. -/
  bytes : Memory
  /-- The addresses of the byte stores made so far, oldest first. -/
  log : List Nat

/-- The value of the static `fb_info`: its fields loaded from memory. -/
def Ram.fb_info (r : Ram) : framebuffer_t :=
  { width := load32 r.bytes r.fb_info_addr
    height := load32 r.bytes (r.fb_info_addr + 4)
    pitch := load32 r.bytes (r.fb_info_addr + 8)
    depth := load32 r.bytes (r.fb_info_addr + 12)
    buffer := load64 r.bytes (r.fb_info_addr + 16)
    size := load32 r.bytes (r.fb_info_addr + 24) }

/-- A one-byte store `*(uint8_t *)addr = v`. -/
def Ram.store (r : Ram) (addr v : Nat) : Ram :=
  { r with bytes := r.bytes.store addr v, log := r.log ++ [addr] }

/-- Embeds `fb_put_pixel(x, y, color)` on `Ram`. `offset` is a local
variable, computed once; `fb_info.buffer` is loaded for each of the four
stores. -/
def Ram.fb_put_pixel (x y : Nat) (color : color_t) (r : Ram) : Ram :=
  if x ≥ r.fb_info.width ∨ y ≥ r.fb_info.height then r
  else
    let offset := (y * r.fb_info.pitch % 2 ^ 32 + x * (r.fb_info.depth / 8) % 2 ^ 32) % 2 ^ 32
    let r := r.store (r.fb_info.buffer + (offset + 0) % 2 ^ 32) color.b
    let r := r.store (r.fb_info.buffer + (offset + 1) % 2 ^ 32) color.g
    let r := r.store (r.fb_info.buffer + (offset + 2) % 2 ^ 32) color.r
    r.store (r.fb_info.buffer + (offset + 3) % 2 ^ 32) color.a

/-- The inner loop of `fb_fill_rect` on `Ram`; `fb_info.width` is loaded for
each test of the loop condition. -/
def Ram.fb_fill_rect_cols (x w py : Nat) (color : color_t) : Nat → Nat → Ram → Option Ram
  | 0, _, _ => none
  | fuel + 1, px, r =>
    if px < (x + w) % 2 ^ 32 ∧ px < r.fb_info.width then
      Ram.fb_fill_rect_cols x w py color fuel ((px + 1) % 2 ^ 32) (Ram.fb_put_pixel px py color r)
    else some r

/-- The outer loop of `fb_fill_rect` on `Ram`; `fb_info.height` is loaded for
each test of the loop condition. -/
def Ram.fb_fill_rect_rows (x y w h : Nat) (color : color_t) : Nat → Nat → Ram → Option Ram
  | 0, _, _ => none
  | fuel + 1, py, r =>
    if py < (y + h) % 2 ^ 32 ∧ py < r.fb_info.height then
      match Ram.fb_fill_rect_cols x w py color fuel x r with
      | none => none
      | some r1 => Ram.fb_fill_rect_rows x y w h color fuel ((py + 1) % 2 ^ 32) r1
    else some r

/-- Embeds `fb_fill_rect(x, y, w, h, color)` on `Ram`. -/
def Ram.fb_fill_rect (x y w h : Nat) (color : color_t) (fuel : Nat) (r : Ram) : Option Ram :=
  Ram.fb_fill_rect_rows x y w h color fuel y r

/-- Embeds `fb_clear(color)` on `Ram`: the arguments `fb_info.width` and
`fb_info.height` are loaded at the call. -/
def Ram.fb_clear (color : color_t) (fuel : Nat) (r : Ram) : Option Ram :=
  Ram.fb_fill_rect 0 0 r.fb_info.width r.fb_info.height color fuel r

/-- Embeds `fb_draw_char(x, y, c, fg, bg)` on `Ram`, with the glyph table as a
parameter. -/
def Ram.fb_draw_char (font8x8 : Nat → Nat → Nat) (x y : Nat) (c : Int) (fg bg : color_t)
    (r : Ram) : Ram :=
  let glyph := font8x8 (glyph_index c).toNat
  (List.range FONT_HEIGHT).foldl
    (fun r row =>
      let bits := glyph row
      (List.range FONT_WIDTH).foldl
        (fun r col =>
          if bits &&& (0x80 >>> col) ≠ 0 then
            Ram.fb_put_pixel ((x + col) % 2 ^ 32) ((y + row) % 2 ^ 32) fg r
          else
            Ram.fb_put_pixel ((x + col) % 2 ^ 32) ((y + row) % 2 ^ 32) bg r)
        r)
    r

/-- The loop of `fb_draw_string` on `Ram`. -/
def Ram.fb_draw_string_loop (font8x8 : Nat → Nat → Nat) (orig_x : Nat) (fg bg : color_t) :
    Nat → Nat → List Int → Ram → Ram
  | _, _, [], r => r
  | x, y, c :: str, r =>
    if c = 0 then r
    else if c = 10 then
      Ram.fb_draw_string_loop font8x8 orig_x fg bg orig_x ((y + (FONT_HEIGHT + 2)) % 2 ^ 32) str r
    else
      Ram.fb_draw_string_loop font8x8 orig_x fg bg ((x + FONT_WIDTH) % 2 ^ 32) y str
        (Ram.fb_draw_char font8x8 x y c fg bg r)

/-- Embeds `fb_draw_string(x, y, str, fg, bg)` on `Ram`. -/
def Ram.fb_draw_string (font8x8 : Nat → Nat → Nat) (x y : Nat) (str : List Int) (fg bg : color_t)
    (r : Ram) : Ram :=
  Ram.fb_draw_string_loop font8x8 x fg bg x y str r

/-! ## Notions used in the statements on `Ram` -/

/-- The address of byte `k` of pixel `(x, y)` as `fb_put_pixel` computes it:
`fb_info.buffer + (offset + k)` with the 32-bit `offset` and index. -/
def pixel_byte (fb : framebuffer_t) (x y k : Nat) : Nat :=
  fb.buffer + ((y * fb.pitch % 2 ^ 32 + x * (fb.depth / 8) % 2 ^ 32) % 2 ^ 32 + k) % 2 ^ 32

/-- No pixel store lands on the descriptor: of the pixels inside the bounds,
none has one of its four bytes among the 32 bytes of `fb_info`. -/
def Ram.out_of_reach (r : Ram) : Prop :=
  ∀ x y k, x < r.fb_info.width → y < r.fb_info.height → k < 4 →
    pixel_byte r.fb_info x y k < r.fb_info_addr ∨
    r.fb_info_addr + 32 ≤ pixel_byte r.fb_info x y k

/-- The `n` bytes at `fb_info.buffer` and the 32 bytes of `fb_info` itself do
not overlap. -/
def Ram.apart (r : Ram) (n : Nat) : Prop :=
  r.fb_info_addr + 32 ≤ r.fb_info.buffer ∨ r.fb_info.buffer + n ≤ r.fb_info_addr

instance (r : Ram) (n : Nat) : Decidable (r.apart n) := by
  unfold Ram.apart
  infer_instance

/-- Two cases in which no pixel store lands on the descriptor: no pixel is
inside the bounds (`width` or `height` is 0, as before `fb_init`), or the
descriptor is well formed and the `pitch * height` bytes of its rows do not
overlap the bytes of `fb_info`. -/
def Ram.steady (r : Ram) : Prop :=
  r.fb_info.width = 0 ∨ r.fb_info.height = 0 ∨
    (well_formed r.fb_info ∧ r.apart (r.fb_info.pitch * r.fb_info.height))

instance (r : Ram) : Decidable r.steady := by
  unfold Ram.steady
  infer_instance

/-- Going from `r` to `t` left `fb_info` where and as it was, every byte store
made on the way went to a byte of a pixel inside the bounds, and no other byte
changed. -/
def Ram.draws (r t : Ram) : Prop :=
  t.fb_info_addr = r.fb_info_addr ∧ t.fb_info = r.fb_info ∧
  ∃ new, t.log = r.log ++ new ∧
    (∀ a ∈ new, ∃ x y k, x < r.fb_info.width ∧ y < r.fb_info.height ∧ k < 4 ∧
      a = pixel_byte r.fb_info x y k) ∧
    ∀ addr, addr ∉ new → t.bytes addr = r.bytes addr

/-- Going from `r` to `t` left `fb_info` where and as it was, every byte store
made on the way went to one of the `n` bytes at `fb_info.buffer`, and no other
byte changed. -/
def Ram.writes_inside (n : Nat) (r t : Ram) : Prop :=
  t.fb_info_addr = r.fb_info_addr ∧ t.fb_info = r.fb_info ∧
  ∃ new, t.log = r.log ++ new ∧
    (∀ a ∈ new, r.fb_info.buffer ≤ a ∧ a < r.fb_info.buffer + n) ∧
    ∀ addr, addr ∉ new → t.bytes addr = r.bytes addr

/-- The state of `Ram` seen as a `Screen`: the descriptor value and the
bytes. -/
def Ram.screen (r : Ram) : Screen :=
  { fb_info := r.fb_info, memory := r.bytes }

/-- From the state `r`, each drawing function on `Ram` does to the descriptor
value and to the bytes what the function on `Screen` does. -/
def agrees_with_screen (r : Ram) : Prop :=
  (∀ x y color, (Ram.fb_put_pixel x y color r).screen = fb_put_pixel x y color r.screen) ∧
  (∀ x y w h color fuel,
    (Ram.fb_fill_rect x y w h color fuel r).map Ram.screen =
      fb_fill_rect x y w h color fuel r.screen) ∧
  (∀ color fuel, (Ram.fb_clear color fuel r).map Ram.screen = fb_clear color fuel r.screen) ∧
  (∀ font8x8 x y c fg bg,
    (Ram.fb_draw_char font8x8 x y c fg bg r).screen =
      fb_draw_char font8x8 x y c fg bg r.screen) ∧
  (∀ font8x8 x y str fg bg,
    (Ram.fb_draw_string font8x8 x y str fg bg r).screen =
      fb_draw_string font8x8 x y str fg bg r.screen)

/-- The bytes of the descriptor value `fb` put at address `a`. -/
def store_fb_info (fb : framebuffer_t) (a : Nat) (mem : Memory) : Memory :=
  let mem := store32 mem a fb.width
  let mem := store32 mem (a + 4) fb.height
  let mem := store32 mem (a + 8) fb.pitch
  let mem := store32 mem (a + 12) fb.depth
  let mem := store64 mem (a + 16) fb.buffer
  store32 mem (a + 24) fb.size

/-- A state for examples: `example_fb` stored at 0x2000, away from its 64
bytes of frame buffer at 0x1000; every other byte is 0. -/
def example_ram : Ram :=
  { fb_info_addr := 0x2000
    bytes := store_fb_info example_fb 0x2000 (fun _ => 0)
    log := [] }

/-- A state for examples in which the frame buffer lies on the descriptor:
`fb_info` is stored at 0x1000 and `fb_info.buffer` is 0x1000 as well; the
descriptor has 4 x 2 pixels of 32 bits, 16 bytes per row and 32 bytes in
all. -/
def aliased_ram : Ram :=
  { fb_info_addr := 0x1000
    bytes := store_fb_info
      { width := 4, height := 2, pitch := 16, depth := 32, buffer := 0x1000, size := 32 }
      0x1000 (fun _ => 0)
    log := [] }

/-- A color for examples whose four bytes differ. -/
def example_color : color_t := { r := 1, g := 2, b := 3, a := 4 }

/-- A machine for examples of a failing `fb_init` on a driver that is ready:
`fb_info` holds `example_fb`, and the coprocessor answers the call with
success and the address 0. -/
def example_ready_gpu : Machine :=
  { example_gpu 0x80000000 0 0 0 with fb_info := example_fb }

/-! ## Lemmas on the device model -/

theorem land_low4 (w : Nat) : w &&& 0xF = w % 16 :=
  Nat.and_pow_two_sub_one_eq_mod w 4

theorem land_high28 (w : Nat) (h : w < 2 ^ 32) : w &&& 0xFFFFFFF0 = w / 16 * 16 := by
  apply Nat.eq_of_testBit_eq
  intro i
  have e1 : (0xFFFFFFF0 : Nat) = 2 ^ 4 * (2 ^ 28 - 1) := by norm_num
  have e2 : w / 16 * 16 = 2 ^ 4 * (w >>> 4) := by
    rw [Nat.shiftRight_eq_div_pow]; norm_num [Nat.mul_comm]
  rw [Nat.testBit_and, e1, e2, Nat.testBit_mul_pow_two, Nat.testBit_mul_pow_two,
    Nat.testBit_two_pow_sub_one, Nat.testBit_shiftRight]
  by_cases h4 : 4 ≤ i
  · have e3 : 4 + (i - 4) = i := by omega
    rw [e3]
    by_cases h32 : i < 32
    · have : i - 4 < 28 := by omega
      simp [h4, this]
    · have hlt : w < 2 ^ i :=
        lt_of_lt_of_le h (Nat.pow_le_pow_right (by norm_num) (by omega))
      simp [Nat.testBit_lt_two_pow hlt]
  · simp [h4]

theorem flags_disjoint : (0x40000000 : Nat) &&& 0x80000000 = 0 ∧
    (0x80000000 : Nat) &&& 0x40000000 = 0 := by decide

theorem status_full (m : Machine) : status_word m &&& MAILBOX_FULL ≠ 0 ↔ 0 < m.full := by
  unfold status_word MAILBOX_FULL MAILBOX_EMPTY
  by_cases hf : 0 < m.full
  · rcases hm : m.replies with _ | ⟨r, rs⟩
    · simp [hf]
    · by_cases hi : 0 < r.idle <;> simp [hf, hi]
  · rcases hm : m.replies with _ | ⟨r, rs⟩
    · simp [hf, flags_disjoint.1]
    · by_cases hi : 0 < r.idle <;> simp [hf, hi, flags_disjoint.1]

theorem status_empty_nil (m : Machine) (h : m.replies = []) :
    status_word m &&& MAILBOX_EMPTY ≠ 0 := by
  unfold status_word MAILBOX_FULL MAILBOX_EMPTY
  by_cases hf : 0 < m.full <;> simp [hf, h]

theorem status_empty_cons (m : Machine) (r : Reply) (rs : List Reply)
    (h : m.replies = r :: rs) : status_word m &&& MAILBOX_EMPTY ≠ 0 ↔ 0 < r.idle := by
  unfold status_word MAILBOX_FULL MAILBOX_EMPTY
  by_cases hf : 0 < m.full <;> by_cases hi : 0 < r.idle <;>
    simp [hf, hi, h, flags_disjoint.2]

theorem tick_eq_elapse (m : Machine) : tick m = elapse 1 m := by
  unfold tick elapse
  rcases hm : m.replies with _ | ⟨r, rs⟩ <;> simp [settle]

theorem settle_settle (a b : Nat) (rs : List Reply) :
    settle a (settle b rs) = settle (b + a) rs := by
  cases rs with
  | nil => rfl
  | cons r rs => simp [settle, Nat.sub_sub]

theorem elapse_elapse (a b : Nat) (m : Machine) :
    elapse a (elapse b m) = elapse (b + a) m := by
  simp [elapse, settle_settle, Nat.sub_sub]

theorem spin_full (fuel : Nat) : ∀ m : Machine, m.full < fuel →
    spin_while MAILBOX_FULL fuel m = some (elapse (m.full + 1) m) := by
  induction fuel with
  | zero => intro m h; omega
  | succ n ih =>
    intro m h
    simp only [spin_while, read_status]
    by_cases hf : 0 < m.full
    · rw [if_pos ((status_full m).2 hf), ih (tick m) (by simp [tick]; omega),
        tick_eq_elapse, elapse_elapse]
      have : 1 + ((elapse 1 m).full + 1) = m.full + 1 := by simp [elapse]; omega
      rw [this]
    · rw [if_neg (fun hc => hf ((status_full m).1 hc)), tick_eq_elapse]
      have : m.full + 1 = 1 := by omega
      rw [this]

theorem spin_empty (fuel : Nat) : ∀ (m : Machine) (r : Reply) (rs : List Reply),
    m.replies = r :: rs → r.idle < fuel →
    spin_while MAILBOX_EMPTY fuel m = some (elapse (r.idle + 1) m) := by
  induction fuel with
  | zero => intro m r rs _ h; omega
  | succ n ih =>
    intro m r rs hm h
    simp only [spin_while, read_status]
    by_cases hi : 0 < r.idle
    · have ht : (tick m).replies = { r with idle := r.idle - 1 } :: rs := by
        simp [tick, hm]
      rw [if_pos ((status_empty_cons m r rs hm).2 hi),
        ih (tick m) _ rs ht (by simp; omega), tick_eq_elapse, elapse_elapse]
      have : 1 + (r.idle - 1 + 1) = r.idle + 1 := by omega
      simp only [this]
    · rw [if_neg (fun hc => hi ((status_empty_cons m r rs hm).1 hc)), tick_eq_elapse]
      have : r.idle + 1 = 1 := by omega
      rw [this]

theorem spin_empty_nil (fuel : Nat) : ∀ m : Machine, m.replies = [] →
    spin_while MAILBOX_EMPTY fuel m = none := by
  induction fuel with
  | zero => intro m _; rfl
  | succ n ih =>
    intro m hm
    simp only [spin_while, read_status]
    rw [if_pos (status_empty_nil m hm)]
    exact ih (tick m) (by simp [tick, hm])

theorem polls_cons (x : Reply) (l : List Reply) : polls (x :: l) = x.idle + 1 + polls l := rfl

theorem read_data_available (m : Machine) (r : Reply) (rs : List Reply)
    (hm : m.replies = r :: rs) :
    read_data (elapse (r.idle + 1) m) =
      (r.word,
        { m with
          full := m.full - (r.idle + 1)
          replies := rs
          mailbox_buffer := r.dma m.mailbox_buffer }) := by
  simp [read_data, elapse, hm, settle]

theorem mailbox_read_run (channel : Nat) (pre : List Reply) :
    ∀ (m : Machine) (r : Reply) (post : List Reply) (fuel : Nat),
      m.replies = pre ++ r :: post →
      (∀ x ∈ pre, x.word % 16 ≠ channel) → r.word % 16 = channel →
      polls (pre ++ [r]) < fuel →
      mailbox_read channel fuel m = some (r.word &&& 0xFFFFFFF0, after_read m pre r post) := by
  induction pre with
  | nil =>
    intro m r post fuel hm _ hr hf
    obtain ⟨n, rfl⟩ : ∃ n, fuel = n + 1 := ⟨fuel - 1, by omega⟩
    rw [List.nil_append] at hm
    rw [List.nil_append, polls_cons] at hf
    rw [mailbox_read, spin_empty n m r post hm (by omega)]
    simp only [read_data_available m r post hm]
    simp [land_low4, hr, after_read, polls, seen]
  | cons x pre ih =>
    intro m r post fuel hm hpre hr hf
    obtain ⟨n, rfl⟩ : ∃ n, fuel = n + 1 := ⟨fuel - 1, by omega⟩
    rw [List.cons_append] at hm
    rw [List.cons_append, polls_cons] at hf
    have hx : x.word % 16 ≠ channel := hpre x (List.mem_cons_self _ _)
    rw [mailbox_read, spin_empty n m x (pre ++ r :: post) hm (by omega)]
    simp only [read_data_available m x (pre ++ r :: post) hm]
    simp only [land_low4, hx, if_false]
    rw [ih _ r post n rfl (fun y hy => hpre y (List.mem_cons_of_mem _ hy)) hr (by omega)]
    simp [after_read, polls_cons, seen, Nat.sub_sub]

theorem mailbox_call_loop_eq (channel : Nat) (fuel : Nat) : ∀ m : Machine,
    mailbox_call_loop channel fuel m =
      (mailbox_read channel fuel m).map
        (fun p => (decide (p.2.mailbox_buffer 1 = 0x80000000), p.2)) := by
  induction fuel with
  | zero => intro m; rfl
  | succ n ih =>
    intro m
    simp only [mailbox_call_loop, mailbox_read]
    cases spin_while MAILBOX_EMPTY n m with
    | none => rfl
    | some m1 =>
      simp only
      by_cases hc : (read_data m1).1 &&& 0xF = channel
      · simp [hc]
      · simp [hc, ih]

theorem mailbox_write_run (channel data fuel : Nat) (m : Machine) (hf : m.full < fuel) :
    mailbox_write channel data fuel m =
      some { m with
             full := 0
             replies := settle (m.full + 1) m.replies
             written := m.written ++ [(data &&& 0xFFFFFFF0) ||| (channel &&& 0xF)] } := by
  rw [mailbox_write, spin_full fuel m hf]
  simp [write_data, elapse]

theorem mailbox_call_run (channel : Nat) (m : Machine) (pre : List Reply) (r : Reply)
    (post : List Reply) (fuel : Nat) (hm : m.replies = pre ++ r :: post)
    (hpre : ∀ x ∈ pre, x.word % 16 ≠ channel) (hr : r.word % 16 = channel)
    (hf : m.full + polls (pre ++ [r]) + 1 < fuel) :
    mailbox_call channel fuel m =
      some (decide (r.dma (seen pre m.mailbox_buffer) 1 = 0x80000000),
        after_call channel m pre r post) := by
  rw [mailbox_call, mailbox_write_run channel _ fuel m (by omega)]
  simp only
  rw [mailbox_call_loop_eq]
  cases pre with
  | nil =>
    rw [List.nil_append] at hm
    rw [List.nil_append, polls_cons] at hf
    rw [mailbox_read_run channel [] _ { r with idle := r.idle - (m.full + 1) } post fuel
      (by simp [hm, settle]) (by simp) hr (by simp [polls_cons, polls]; omega)]
    simp [after_read, after_call, seen]
  | cons x pre =>
    rw [List.cons_append] at hm
    rw [List.cons_append, polls_cons] at hf
    rw [mailbox_read_run channel ({ x with idle := x.idle - (m.full + 1) } :: pre) _ r post fuel
      (by simp [hm, settle])
      (by
        intro y hy
        rcases List.mem_cons.1 hy with rfl | hy
        · exact hpre x (List.mem_cons_self _ _)
        · exact hpre y (List.mem_cons_of_mem _ hy))
      hr (by rw [List.cons_append, polls_cons]; simp only; omega)]
    simp [after_read, after_call, seen]

theorem spin_while_succ (flag : Nat) (fuel : Nat) : ∀ (m x : Machine),
    spin_while flag fuel m = some x → spin_while flag (fuel + 1) m = some x := by
  induction fuel with
  | zero => intro m x h; simp [spin_while] at h
  | succ n ih =>
    intro m x h
    rw [spin_while] at h
    rw [spin_while]
    dsimp only at h ⊢
    by_cases hc : (read_status m).1 &&& flag ≠ 0
    · rw [if_pos hc] at h ⊢
      exact ih _ _ h
    · rw [if_neg hc] at h ⊢
      exact h

theorem mailbox_read_succ (channel : Nat) (fuel : Nat) : ∀ (m : Machine) (x : Nat × Machine),
    mailbox_read channel fuel m = some x → mailbox_read channel (fuel + 1) m = some x := by
  induction fuel with
  | zero => intro m x h; simp [mailbox_read] at h
  | succ n ih =>
    intro m x h
    rw [mailbox_read] at h
    rw [mailbox_read]
    cases hs : spin_while MAILBOX_EMPTY n m with
    | none => simp [hs] at h
    | some m1 =>
      rw [spin_while_succ _ _ _ _ hs]
      simp only [hs] at h ⊢
      by_cases hc : (read_data m1).1 &&& 0xF = channel
      · simp only [hc, if_true] at h ⊢
        exact h
      · simp only [hc, if_false] at h ⊢
        exact ih _ _ h

theorem mailbox_call_succ (channel : Nat) (fuel : Nat) (m : Machine) (x : Bool × Machine)
    (h : mailbox_call channel fuel m = some x) :
    mailbox_call channel (fuel + 1) m = some x := by
  simp only [mailbox_call, mailbox_write, mailbox_call_loop_eq] at h ⊢
  cases hs : spin_while MAILBOX_FULL fuel m with
  | none => simp [hs] at h
  | some m1 =>
    rw [spin_while_succ _ _ _ _ hs]
    simp only [hs] at h ⊢
    generalize write_data _ m1 = m2 at h ⊢
    cases hr : mailbox_read channel fuel m2 with
    | none => simp [hr] at h
    | some y =>
      rw [mailbox_read_succ _ _ _ _ hr]
      simpa [hr] using h

theorem mailbox_call_mono (channel : Nat) (m : Machine) (x : Bool × Machine) (fuel : Nat)
    (h : mailbox_call channel fuel m = some x) :
    ∀ k, mailbox_call channel (fuel + k) m = some x := by
  intro k
  induction k with
  | zero => exact h
  | succ k ih => exact mailbox_call_succ channel (fuel + k) m x ih

/-- Whatever the fuel, a call that returns has returned the result of
`mailbox_call_run`. -/
theorem mailbox_call_unique (channel : Nat) (m : Machine) (pre : List Reply) (r : Reply)
    (post : List Reply) (hm : m.replies = pre ++ r :: post)
    (hpre : ∀ x ∈ pre, x.word % 16 ≠ channel) (hr : r.word % 16 = channel)
    (fuel : Nat) (x : Bool × Machine) (h : mailbox_call channel fuel m = some x) :
    x = (decide (r.dma (seen pre m.mailbox_buffer) 1 = 0x80000000),
      after_call channel m pre r post) := by
  have h1 := mailbox_call_mono channel m x fuel h (m.full + polls (pre ++ [r]) + 2)
  have h2 := mailbox_call_run channel m pre r post
    (fuel + (m.full + polls (pre ++ [r]) + 2)) hm hpre hr (by omega)
  rw [h1] at h2
  exact Option.some.inj h2

theorem land_bit31_self : (0x80000000 : Nat) &&& 0x80000000 ≠ 0 := by decide

/-! ## Mailbox transport -/

/-- C1, as stated, fails: on a reply whose response-code word is 0x80000001
(bit 31 set together with bit 0) `mailbox_call` returns failure. -/
theorem mailbox_call_bit31_not_sufficient :
    (mailbox_call 8 9 (example_machine 0x80000001)).map
        (fun p => (p.1, p.2.mailbox_buffer 1, p.2.mailbox_buffer 1 &&& 0x80000000)) =
      some (false, 0x80000001, 0x80000000) := by
  decide

/-- C1, amended: when the reply stream holds a word on the requested channel
(`r`, after the words `pre` on other channels), `mailbox_call` returns, and it
returns success if and only if the response-code word (word 1) of the shared
buffer, as it is when that word is read, equals 0x80000000 exactly; bit 31 of
that word is then set. -/
theorem mailbox_call_success_iff (channel : Nat) (m : Machine) (pre : List Reply)
    (r : Reply) (post : List Reply) (fuel : Nat)
    (hm : m.replies = pre ++ r :: post)
    (hpre : ∀ x ∈ pre, x.word % 16 ≠ channel) (hr : r.word % 16 = channel)
    (hf : m.full + polls (pre ++ [r]) + 1 < fuel) :
    ∃ ok m',
      mailbox_call channel fuel m = some (ok, m') ∧
      m'.mailbox_buffer = r.dma (seen pre m.mailbox_buffer) ∧
      (ok = true ↔ m'.mailbox_buffer 1 = 0x80000000) ∧
      (ok = true → m'.mailbox_buffer 1 &&& 0x80000000 ≠ 0) := by
  refine ⟨_, _, mailbox_call_run channel m pre r post fuel hm hpre hr hf, rfl, ?_, ?_⟩
  · simp [after_call]
  · intro h
    have h1 : r.dma (seen pre m.mailbox_buffer) 1 = 0x80000000 := by simpa using h
    simp only [after_call, h1]
    exact land_bit31_self

theorem mailbox_call_success_iff_witness :
    ∃ ok m',
      mailbox_call 8 9 (example_machine 0x80000000) = some (ok, m') ∧
      m'.mailbox_buffer = (fun b : Buffer => b.store 1 0x80000000)
        (seen [{ idle := 1, word := 0x00000011, dma := fun b => b }] (fun _ => 0)) ∧
      (ok = true ↔ m'.mailbox_buffer 1 = 0x80000000) ∧
      (ok = true → m'.mailbox_buffer 1 &&& 0x80000000 ≠ 0) :=
  mailbox_call_success_iff 8 (example_machine 0x80000000)
    [{ idle := 1, word := 0x00000011, dma := fun b => b }]
    { idle := 2, word := 0x00003008, dma := fun b => b.store 1 0x80000000 } [] 9
    rfl (by simp) (by decide) (by decide)

/-- C2: when the reply stream holds a word on the requested channel and bit 31
of the response-code word (word 1 of the shared buffer when that word is read)
is clear, `mailbox_call` returns failure, and with no amount of fuel does it
return success. -/
theorem mailbox_call_fails_without_bit31 (channel : Nat) (m : Machine) (pre : List Reply)
    (r : Reply) (post : List Reply)
    (hm : m.replies = pre ++ r :: post)
    (hpre : ∀ x ∈ pre, x.word % 16 ≠ channel) (hr : r.word % 16 = channel)
    (hbit : r.dma (seen pre m.mailbox_buffer) 1 &&& 0x80000000 = 0) :
    (∀ fuel, m.full + polls (pre ++ [r]) + 1 < fuel →
      mailbox_call channel fuel m = some (false, after_call channel m pre r post)) ∧
    (∀ fuel m', mailbox_call channel fuel m ≠ some (true, m')) := by
  have hne : r.dma (seen pre m.mailbox_buffer) 1 ≠ 0x80000000 := by
    intro h
    rw [h] at hbit
    exact land_bit31_self hbit
  constructor
  · intro fuel hf
    rw [mailbox_call_run channel m pre r post fuel hm hpre hr hf]
    simp [hne]
  · intro fuel m' h
    have := mailbox_call_unique channel m pre r post hm hpre hr fuel _ h
    simp [hne] at this

theorem mailbox_call_fails_without_bit31_witness :
    ((∀ fuel, 1 + 5 + 1 < fuel →
        mailbox_call 8 fuel (example_machine 0x00000001) =
          some (false, after_call 8 (example_machine 0x00000001)
            [{ idle := 1, word := 0x00000011, dma := fun b => b }]
            { idle := 2, word := 0x00003008, dma := fun b => b.store 1 0x00000001 } [])) ∧
      (∀ fuel m', mailbox_call 8 fuel (example_machine 0x00000001) ≠ some (true, m'))) ∧
    ((∀ fuel, 1 + 5 + 1 < fuel →
        mailbox_call 8 fuel (example_machine 0x00000000) =
          some (false, after_call 8 (example_machine 0x00000000)
            [{ idle := 1, word := 0x00000011, dma := fun b => b }]
            { idle := 2, word := 0x00003008, dma := fun b => b.store 1 0x00000000 } [])) ∧
      (∀ fuel m', mailbox_call 8 fuel (example_machine 0x00000000) ≠ some (true, m'))) :=
  ⟨mailbox_call_fails_without_bit31 8 (example_machine 0x00000001)
      [{ idle := 1, word := 0x00000011, dma := fun b => b }]
      { idle := 2, word := 0x00003008, dma := fun b => b.store 1 0x00000001 } []
      rfl (by simp) (by decide) (by decide),
    mailbox_call_fails_without_bit31 8 (example_machine 0x00000000)
      [{ idle := 1, word := 0x00000011, dma := fun b => b }]
      { idle := 2, word := 0x00003008, dma := fun b => b.store 1 0x00000000 } []
      rfl (by simp) (by decide) (by decide)⟩

/-- C3: when the reply words start with words `pre` whose low 4 bits differ
from the channel, followed by a 32-bit word `r` whose low 4 bits equal it,
`mailbox_read` returns once the fuel covers the status reads needed; the
replies left unread are exactly those after `r`; and the value returned is
`r` with its low 4 bits cleared and its top 28 bits kept. -/
theorem mailbox_read_first_match (channel : Nat) (m : Machine) (pre : List Reply)
    (r : Reply) (post : List Reply) (fuel : Nat)
    (hm : m.replies = pre ++ r :: post)
    (hpre : ∀ x ∈ pre, x.word % 16 ≠ channel) (hr : r.word % 16 = channel)
    (hw : r.word < 2 ^ 32)
    (hf : polls (pre ++ [r]) < fuel) :
    ∃ v m',
      mailbox_read channel fuel m = some (v, m') ∧
      m'.replies = post ∧
      m'.written = m.written ∧
      v = r.word - r.word % 16 ∧ v % 16 = 0 ∧ v / 16 = r.word / 16 := by
  refine ⟨_, _, mailbox_read_run channel pre m r post fuel hm hpre hr hf, rfl, rfl, ?_⟩
  rw [land_high28 r.word hw]
  omega

theorem mailbox_read_first_match_witness :
    ∃ v m',
      mailbox_read 8 6 (example_machine 0) = some (v, m') ∧
      m'.replies = [] ∧
      m'.written = (example_machine 0).written ∧
      v = 0x00003008 - 0x00003008 % 16 ∧ v % 16 = 0 ∧ v / 16 = 0x00003008 / 16 :=
  mailbox_read_first_match 8 (example_machine 0)
    [{ idle := 1, word := 0x00000011, dma := fun b => b }]
    { idle := 2, word := 0x00003008, dma := fun b => b.store 1 0 } [] 6
    rfl (by simp) (by decide) (by decide) (by decide)

/-- C4: for a 32-bit address and a channel in 0..8, `mailbox_write` returns
once the fuel covers the status reads that report FULL, and the one word it
stores to the data register is `(address & ~0xF) | channel`: its low 4 bits
are the channel and its top 28 bits are those of the address. -/
theorem mailbox_write_word (channel address : Nat) (m : Machine) (fuel : Nat)
    (hch : channel ≤ 8) (haddr : address < 2 ^ 32) (hf : m.full < fuel) :
    ∃ w m',
      mailbox_write channel address fuel m = some m' ∧
      m'.written = m.written ++ [w] ∧
      w = (address &&& NOT_0xF) ||| channel ∧
      w % 16 = channel ∧ w / 16 = address / 16 ∧ w < 2 ^ 32 := by
  have hc : channel &&& 0xF = channel := by
    rw [land_low4]; omega
  have hn : NOT_0xF = 0xFFFFFFF0 := by decide
  have hor : (address &&& 0xFFFFFFF0) ||| channel = address / 16 * 16 + channel := by
    rw [land_high28 address haddr]
    have := Nat.mul_add_lt_is_or (i := 4) (b := channel) (by norm_num; omega) (address / 16)
    rw [Nat.mul_comm]
    exact this.symm
  refine ⟨_, _, mailbox_write_run channel address fuel m hf, rfl, ?_, ?_, ?_, ?_⟩
  · rw [hc, hn]
  · rw [hc, hor]; omega
  · rw [hc, hor]; omega
  · rw [hc, hor]; omega

theorem mailbox_write_word_witness :
    ∃ w m',
      mailbox_write 8 0x00003000 2 (example_machine 0) = some m' ∧
      m'.written = (example_machine 0).written ++ [w] ∧
      w = (0x00003000 &&& NOT_0xF) ||| 8 ∧
      w % 16 = 8 ∧ w / 16 = 0x00003000 / 16 ∧ w < 2 ^ 32 :=
  mailbox_write_word 8 0x00003000 (example_machine 0) 2 (by decide) (by decide) (by decide)

/-- C5: `mailbox_call(channel)` is `mailbox_write(channel, &mailbox_buffer)`
followed by `mailbox_read(channel)` and the test of word 1 of the shared
buffer: same word written, same state left (so the same reply words
consumed), and the result is the test `mailbox_buffer[1] == 0x80000000` on
the buffer at that point. This holds for every amount of fuel, so the call
returns exactly when the composition does. -/
theorem mailbox_call_eq_write_read (channel fuel : Nat) (m : Machine) :
    mailbox_call channel fuel m =
      (mailbox_write channel (m.buffer_addr % 2 ^ 32) fuel m).bind
        (fun m1 =>
          (mailbox_read channel fuel m1).map
            (fun p => (decide (p.2.mailbox_buffer 1 = 0x80000000), p.2))) := by
  rw [mailbox_call]
  cases mailbox_write channel (m.buffer_addr % 2 ^ 32) fuel m with
  | none => rfl
  | some m1 => simp [mailbox_call_loop_eq]

/-! ## The request `fb_init` encodes -/

theorem fb_init_request_cursor (width height depth : Nat) (buf : Buffer) :
    (fb_init_request width height depth buf).2 = 31 := by
  simp [fb_init_request, put]

theorem fb_init_request_header (width height depth : Nat) (buf : Buffer) :
    (fb_init_request width height depth buf).1 0 = 124 ∧
    (fb_init_request width height depth buf).1 1 = 0 ∧
    (fb_init_request width height depth buf).1 30 = TAG_END := by
  simp [fb_init_request, put, Buffer.store, TAG_END]

theorem fb_init_request_tags (width height depth : Nat) (buf : Buffer) :
    message_tags (fb_init_request width height depth buf).1 =
      some ([{ tag_id := TAG_FB_SET_PHYS_WH, value_buffer_size := 8, code := 0,
               value_words := [width, height] },
             { tag_id := TAG_FB_SET_VIRT_WH, value_buffer_size := 8, code := 0,
               value_words := [width, height] },
             { tag_id := TAG_FB_SET_VIRT_OFF, value_buffer_size := 8, code := 0,
               value_words := [0, 0] },
             { tag_id := TAG_FB_SET_DEPTH, value_buffer_size := 4, code := 0,
               value_words := [depth] },
             { tag_id := TAG_FB_ALLOC, value_buffer_size := 8, code := 0,
               value_words := [16, 0] },
             { tag_id := TAG_FB_GET_PITCH, value_buffer_size := 4, code := 0,
               value_words := [0] }], 30) := by
  simp [message_tags, decode_tags, fb_init_request, put, Buffer.store, TAG_END,
    TAG_FB_SET_PHYS_WH, TAG_FB_SET_VIRT_WH, TAG_FB_SET_VIRT_OFF, TAG_FB_SET_DEPTH,
    TAG_FB_ALLOC, TAG_FB_GET_PITCH, List.range_succ]

/-- C6: in the request `fb_init` encodes, word 0 is 4 times the number of
words encoded (the final cursor, which is also the two header words plus the
words of all tag blocks plus the END word); it is 124 for every width, height
and depth; word 1 is 0; and the word at index `size / 4 - 1` is the END
sentinel, which is where the tag sequence stops. -/
theorem fb_init_request_size (width height depth : Nat) (buf : Buffer) :
    ∃ tags stop,
      message_tags (fb_init_request width height depth buf).1 = some (tags, stop) ∧
      (fb_init_request width height depth buf).2 = 2 + (tags.map TagBlock.words).sum + 1 ∧
      (fb_init_request width height depth buf).1 0 =
        4 * (fb_init_request width height depth buf).2 ∧
      (fb_init_request width height depth buf).1 0 = 124 ∧
      (fb_init_request width height depth buf).1 1 = 0 ∧
      stop = (fb_init_request width height depth buf).1 0 / 4 - 1 ∧
      (fb_init_request width height depth buf).1
        ((fb_init_request width height depth buf).1 0 / 4 - 1) = TAG_END := by
  obtain ⟨h0, h1, h30⟩ := fb_init_request_header width height depth buf
  refine ⟨_, _, fb_init_request_tags width height depth buf, ?_, ?_, h0, h1, ?_, ?_⟩
  · rw [fb_init_request_cursor]; simp [TagBlock.words]
  · rw [fb_init_request_cursor, h0]
  · rw [h0]
  · rw [h0]; exact h30

/-- C7, as stated, fails: the request encoded for 1280 x 720 x 32 holds six
tag blocks between the header and the END sentinel, not five. -/
theorem fb_init_request_not_five_tags :
    (message_tags (fb_init_request 1280 720 32 (fun _ => 0)).1).map
        (fun p => (p.1.length, decide (p.1.length = 5))) = some (6, false) := by
  rw [fb_init_request_tags]
  rfl

/-- C7, amended: for every width, height and depth the request encoded by
`fb_init` contains exactly six tag blocks between the two header words and
the END sentinel at word 30 (a fixed six-tag layout). -/
theorem fb_init_request_six_tags (width height depth : Nat) (buf : Buffer) :
    ∃ tags,
      message_tags (fb_init_request width height depth buf).1 = some (tags, 30) ∧
      tags.length = 6 ∧
      (fb_init_request width height depth buf).1 30 = TAG_END :=
  ⟨_, fb_init_request_tags width height depth buf, rfl,
    (fb_init_request_header width height depth buf).2.2⟩

/-- C8: read as tag blocks from word 2 on, the request encoded by `fb_init`
is, in this order, set-physical-size (width, height), set-virtual-size
(width, height), set-virtual-offset (0, 0), set-depth (depth),
allocate-framebuffer (16, 0), get-pitch (0), then END; the code word of
every tag is 0. -/
theorem fb_init_request_layout (width height depth : Nat) (buf : Buffer) :
    message_tags (fb_init_request width height depth buf).1 =
      some ([{ tag_id := TAG_FB_SET_PHYS_WH, value_buffer_size := 8, code := 0,
               value_words := [width, height] },
             { tag_id := TAG_FB_SET_VIRT_WH, value_buffer_size := 8, code := 0,
               value_words := [width, height] },
             { tag_id := TAG_FB_SET_VIRT_OFF, value_buffer_size := 8, code := 0,
               value_words := [0, 0] },
             { tag_id := TAG_FB_SET_DEPTH, value_buffer_size := 4, code := 0,
               value_words := [depth] },
             { tag_id := TAG_FB_ALLOC, value_buffer_size := 8, code := 0,
               value_words := [16, 0] },
             { tag_id := TAG_FB_GET_PITCH, value_buffer_size := 4, code := 0,
               value_words := [0] }], 30) ∧
    (fb_init_request width height depth buf).1 30 = TAG_END :=
  ⟨fb_init_request_tags width height depth buf,
    (fb_init_request_header width height depth buf).2.2⟩

/-! ## `fb_init` after the call -/

theorem decode_tags_cons (buf : Buffer) (fuel pos : Nat) (t : TagBlock) (ts : List TagBlock)
    (stop : Nat) (h : decode_tags buf fuel pos = some (t :: ts, stop)) :
    buf pos = t.tag_id ∧ buf (pos + 1) = t.value_buffer_size ∧ buf (pos + 2) = t.code ∧
    (List.range ((t.value_buffer_size + 3) / 4)).map (fun k => buf (pos + 3 + k)) =
      t.value_words ∧
    decode_tags buf (fuel - 1) (pos + 3 + (t.value_buffer_size + 3) / 4) = some (ts, stop) := by
  cases fuel with
  | zero => simp [decode_tags] at h
  | succ n =>
    rw [decode_tags] at h
    by_cases he : buf pos = TAG_END
    · simp [he] at h
    · rw [if_neg he] at h
      dsimp only at h
      cases hrec : decode_tags buf n (pos + 3 + (buf (pos + 1) + 3) / 4) with
      | none => simp [hrec] at h
      | some p =>
        obtain ⟨tags, e⟩ := p
        simp only [hrec, Option.some.injEq, Prod.mk.injEq, List.cons.injEq] at h
        obtain ⟨⟨ht, hts⟩, hstop⟩ := h
        subst ht hts hstop
        exact ⟨rfl, rfl, rfl, rfl, hrec⟩

/-- The outcome of `fb_init` once the reply on the property channel is read. -/
theorem fb_init_run (width height depth : Nat) (m : Machine) (pre : List Reply) (r : Reply)
    (post : List Reply) (fuel : Nat) (hm : m.replies = pre ++ r :: post)
    (hpre : ∀ x ∈ pre, x.word % 16 ≠ 8) (hr : r.word % 16 = 8)
    (hf : m.full + polls (pre ++ [r]) + 1 < fuel) :
    fb_init width height depth fuel m =
      if (after_call 8 (fb_request_machine width height depth m) pre r post).mailbox_buffer 1
            = 0x80000000 ∧
          (after_call 8 (fb_request_machine width height depth m) pre r post).mailbox_buffer 24
            ≠ 0 then
        some (true,
          { after_call 8 (fb_request_machine width height depth m) pre r post with
            fb_info :=
              { width := width
                height := height
                depth := depth
                buffer :=
                  (after_call 8 (fb_request_machine width height depth m) pre r
                    post).mailbox_buffer 24 &&& 0x3FFFFFFF
                size :=
                  (after_call 8 (fb_request_machine width height depth m) pre r
                    post).mailbox_buffer 25
                pitch :=
                  (after_call 8 (fb_request_machine width height depth m) pre r
                    post).mailbox_buffer 29 } })
      else some (false, after_call 8 (fb_request_machine width height depth m) pre r post) := by
  have hcall := mailbox_call_run 8 (fb_request_machine width height depth m) pre r post fuel
    hm hpre hr hf
  unfold fb_init
  simp only [MAILBOX_CH_PROP]
  change (match mailbox_call 8 fuel (fb_request_machine width height depth m) with
    | none => none
    | some (false, m1) => some (false, m1)
    | some (true, m1) => _) = _
  rw [hcall]
  by_cases h1 : r.dma (seen pre (fb_request_machine width height depth m).mailbox_buffer) 1
      = 0x80000000
  · by_cases h24 : r.dma (seen pre (fb_request_machine width height depth m).mailbox_buffer) 24
        = 0
    · simp [h1, h24, after_call]
    · simp [h1, h24, after_call]
  · simp [h1, after_call]

/-- C9: let the reply on the property channel arrive with response code
0x80000000 and with the buffer still laid out as the request was (same tag
ids and value-buffer sizes; codes and values as the coprocessor left them),
the allocate tag holding a nonzero bus address `A` and the size `S`, the
get-pitch tag holding `P`. Then `fb_init` returns success and the descriptor
is `{width, height, depth, pitch := P, size := S, buffer := A & 0x3FFFFFFF}`,
where `A & 0x3FFFFFFF` is `A` without its bits 30 and above. -/
theorem fb_init_descriptor (width height depth : Nat) (m : Machine) (pre : List Reply)
    (r : Reply) (post : List Reply) (fuel : Nat) (A S P c1 c2 c3 c4 c5 c6 stop : Nat)
    (v1 v2 v3 v4 : List Nat)
    (hm : m.replies = pre ++ r :: post)
    (hpre : ∀ x ∈ pre, x.word % 16 ≠ 8) (hr : r.word % 16 = 8)
    (hf : m.full + polls (pre ++ [r]) + 1 < fuel)
    (hcode :
      r.dma (seen pre (fb_init_request width height depth m.mailbox_buffer).1) 1 = 0x80000000)
    (htags :
      message_tags (r.dma (seen pre (fb_init_request width height depth m.mailbox_buffer).1)) =
        some ([{ tag_id := TAG_FB_SET_PHYS_WH, value_buffer_size := 8, code := c1,
                 value_words := v1 },
               { tag_id := TAG_FB_SET_VIRT_WH, value_buffer_size := 8, code := c2,
                 value_words := v2 },
               { tag_id := TAG_FB_SET_VIRT_OFF, value_buffer_size := 8, code := c3,
                 value_words := v3 },
               { tag_id := TAG_FB_SET_DEPTH, value_buffer_size := 4, code := c4,
                 value_words := v4 },
               { tag_id := TAG_FB_ALLOC, value_buffer_size := 8, code := c5,
                 value_words := [A, S] },
               { tag_id := TAG_FB_GET_PITCH, value_buffer_size := 4, code := c6,
                 value_words := [P] }], stop))
    (hA : A ≠ 0) :
    ∃ m',
      fb_init width height depth fuel m = some (true, m') ∧
      m'.fb_info =
        { width := width, height := height, depth := depth, pitch := P, size := S,
          buffer := A &&& 0x3FFFFFFF } ∧
      A &&& 0x3FFFFFFF = A % 2 ^ 30 := by
  have s1 := decode_tags_cons _ _ _ _ _ _ htags
  have s2 := decode_tags_cons _ _ _ _ _ _ s1.2.2.2.2
  have s3 := decode_tags_cons _ _ _ _ _ _ s2.2.2.2.2
  have s4 := decode_tags_cons _ _ _ _ _ _ s3.2.2.2.2
  have s5 := decode_tags_cons _ _ _ _ _ _ s4.2.2.2.2
  have s6 := decode_tags_cons _ _ _ _ _ _ s5.2.2.2.2
  have hv5 := s5.2.2.2.1
  have hv6 := s6.2.2.2.1
  simp only [Nat.reduceAdd, Nat.reduceDiv] at hv5 hv6
  rw [show List.range 2 = [0, 1] from rfl] at hv5
  rw [show List.range 1 = [0] from rfl] at hv6
  simp only [List.map_cons, List.map_nil, Nat.add_zero, Nat.reduceAdd, List.cons.injEq,
    and_true] at hv5 hv6
  obtain ⟨h24, h25⟩ := hv5
  have hbuf : (after_call 8 (fb_request_machine width height depth m) pre r post).mailbox_buffer
      = r.dma (seen pre (fb_init_request width height depth m.mailbox_buffer).1) := rfl
  rw [fb_init_run width height depth m pre r post fuel hm hpre hr hf, hbuf, if_pos
    ⟨hcode, by rw [h24]; exact hA⟩]
  refine ⟨_, rfl, ?_, Nat.and_pow_two_sub_one_eq_mod A 30⟩
  simp only [h24, h25, hv6]

theorem fb_init_descriptor_witness :
    (∃ m',
      fb_init 1280 720 32 7 (example_gpu 0x80000000 0xC2000000 3686400 5120) = some (true, m') ∧
      m'.fb_info =
        { width := 1280, height := 720, depth := 32, pitch := 5120, size := 3686400,
          buffer := 0x02000000 } ∧
      0xC2000000 &&& 0x3FFFFFFF = 0xC2000000 % 2 ^ 30) ∧
    (∃ m',
      fb_init 640 480 32 7 (example_gpu 0x80000000 0xC1234560 1228800 2560) = some (true, m') ∧
      m'.fb_info =
        { width := 640, height := 480, depth := 32, pitch := 2560, size := 1228800,
          buffer := 0x01234560 } ∧
      0xC1234560 &&& 0x3FFFFFFF = 0xC1234560 % 2 ^ 30) :=
  ⟨fb_init_descriptor 1280 720 32 (example_gpu 0x80000000 0xC2000000 3686400 5120) []
      { idle := 3
        word := 0x00003008
        dma := fun b =>
          (((b.store 1 0x80000000).store 24 0xC2000000).store 25 3686400).store 29 5120 }
      [] 7 0xC2000000 3686400 5120 0 0 0 0 0 0 30 [1280, 720] [1280, 720] [0, 0] [32]
      rfl (by simp) (by decide) (by decide) (by decide) (by decide) (by decide),
    fb_init_descriptor 640 480 32 (example_gpu 0x80000000 0xC1234560 1228800 2560) []
      { idle := 3
        word := 0x00003008
        dma := fun b =>
          (((b.store 1 0x80000000).store 24 0xC1234560).store 25 1228800).store 29 2560 }
      [] 7 0xC1234560 1228800 2560 0 0 0 0 0 0 30 [640, 480] [640, 480] [0, 0] [32]
      rfl (by simp) (by decide) (by decide) (by decide) (by decide) (by decide)⟩

/-- C10: whenever the mailbox call of `fb_init` returns, `fb_init` returns,
and it returns failure if and only if the call failed or word 24 of the
shared buffer is zero; word 24 is where the request places the first value
word of the allocate tag, in which the coprocessor returns the address. -/
theorem fb_init_failure_iff (width height depth fuel : Nat) (m : Machine) (ok : Bool)
    (m1 : Machine)
    (hcall :
      mailbox_call MAILBOX_CH_PROP fuel (fb_request_machine width height depth m) =
        some (ok, m1)) :
    ∃ res m2,
      fb_init width height depth fuel m = some (res, m2) ∧
      (res = false ↔ (ok = false ∨ m1.mailbox_buffer 24 = 0)) ∧
      (res = true ↔ (ok = true ∧ m1.mailbox_buffer 24 ≠ 0)) := by
  unfold fb_init
  change ∃ res m2, (match mailbox_call MAILBOX_CH_PROP fuel
      (fb_request_machine width height depth m) with
    | none => none
    | some (false, m1) => some (false, m1)
    | some (true, m1) => _) = some (res, m2) ∧ _
  rw [hcall]
  cases ok with
  | false => exact ⟨false, m1, rfl, by simp, by simp⟩
  | true =>
    dsimp only
    by_cases h24 : m1.mailbox_buffer 24 = 0
    · rw [if_pos h24]
      exact ⟨false, m1, rfl, by simp [h24], by simp [h24]⟩
    · rw [if_neg h24]
      exact ⟨true, _, rfl, by simp [h24], by simp [h24]⟩

theorem fb_init_failure_iff_witness :
    ∃ res m2,
      fb_init 1280 720 32 7 (example_gpu 0x80000000 0 0 0) = some (res, m2) ∧
      (res = false ↔
        (true = false ∨
          (after_call 8 (fb_request_machine 1280 720 32 (example_gpu 0x80000000 0 0 0)) []
            { idle := 3
              word := 0x00003008
              dma := fun b => (((b.store 1 0x80000000).store 24 0).store 25 0).store 29 0 }
            []).mailbox_buffer 24 = 0)) ∧
      (res = true ↔
        (true = true ∧
          (after_call 8 (fb_request_machine 1280 720 32 (example_gpu 0x80000000 0 0 0)) []
            { idle := 3
              word := 0x00003008
              dma := fun b => (((b.store 1 0x80000000).store 24 0).store 25 0).store 29 0 }
            []).mailbox_buffer 24 ≠ 0)) :=
  fb_init_failure_iff 1280 720 32 7 (example_gpu 0x80000000 0 0 0) true
    (after_call 8 (fb_request_machine 1280 720 32 (example_gpu 0x80000000 0 0 0)) []
      { idle := 3
        word := 0x00003008
        dma := fun b => (((b.store 1 0x80000000).store 24 0).store 25 0).store 29 0 }
      [])
    (mailbox_call_run 8 (fb_request_machine 1280 720 32 (example_gpu 0x80000000 0 0 0)) []
      { idle := 3
        word := 0x00003008
        dma := fun b => (((b.store 1 0x80000000).store 24 0).store 25 0).store 29 0 }
      [] 7 rfl (by simp) (by decide) (by decide))

/-! ## Lemmas on pixels -/

theorem put_pixel_fb_info (x y : Nat) (c : color_t) (s : Screen) :
    (fb_put_pixel x y c s).fb_info = s.fb_info := by
  unfold fb_put_pixel
  split <;> rfl

theorem put_pixel_outside_bounds (x y : Nat) (c : color_t) (s : Screen)
    (h : s.fb_info.width ≤ x ∨ s.fb_info.height ≤ y) : fb_put_pixel x y c s = s := by
  unfold fb_put_pixel
  rw [if_pos h]

/-- Four byte stores at the 32-bit indices `o`, `o + 1`, `o + 2`, `o + 3`. -/
theorem store4 (mem : Memory) (base o b g r a : Nat) :
    ((((mem.store (base + (o + 0) % 2 ^ 32) b).store (base + (o + 1) % 2 ^ 32) g).store
        (base + (o + 2) % 2 ^ 32) r).store (base + (o + 3) % 2 ^ 32) a) =
      fun addr =>
        if addr = base + (o + 3) % 2 ^ 32 then a
        else if addr = base + (o + 2) % 2 ^ 32 then r
        else if addr = base + (o + 1) % 2 ^ 32 then g
        else if addr = base + (o + 0) % 2 ^ 32 then b
        else mem addr := by
  funext addr
  simp only [Memory.store]

theorem put_pixel_in_bounds (x y : Nat) (c : color_t) (s : Screen)
    (hd : s.fb_info.depth = 32) (hx : x < s.fb_info.width) (hy : y < s.fb_info.height) :
    fb_put_pixel x y c s =
      { s with
        memory := fun addr =>
          if addr = s.fb_info.buffer + ((y * s.fb_info.pitch + x * 4) % 2 ^ 32 + 3) % 2 ^ 32
            then c.a
          else if addr = s.fb_info.buffer + ((y * s.fb_info.pitch + x * 4) % 2 ^ 32 + 2) % 2 ^ 32
            then c.r
          else if addr = s.fb_info.buffer + ((y * s.fb_info.pitch + x * 4) % 2 ^ 32 + 1) % 2 ^ 32
            then c.g
          else if addr = s.fb_info.buffer + ((y * s.fb_info.pitch + x * 4) % 2 ^ 32 + 0) % 2 ^ 32
            then c.b
          else s.memory addr } := by
  unfold fb_put_pixel
  rw [if_neg (by omega)]
  have hoff : (y * s.fb_info.pitch % 2 ^ 32 + x * (s.fb_info.depth / 8) % 2 ^ 32) % 2 ^ 32 =
      (y * s.fb_info.pitch + x * 4) % 2 ^ 32 := by
    rw [hd]; omega
  simp only [hoff]
  rw [store4]

theorem pixel_bound (fb : framebuffer_t) (hw : well_formed fb) (x y : Nat)
    (hx : x < fb.width) (hy : y < fb.height) :
    y * fb.pitch + x * 4 + 4 ≤ fb.pitch * fb.height := by
  obtain ⟨_, hp, _⟩ := hw
  have h1 : (y + 1) * fb.pitch ≤ fb.height * fb.pitch := Nat.mul_le_mul_right _ hy
  have h2 : (y + 1) * fb.pitch = y * fb.pitch + fb.pitch := by ring
  have h3 : fb.height * fb.pitch = fb.pitch * fb.height := by ring
  omega

theorem put_pixel_memory (x y : Nat) (c : color_t) (s : Screen)
    (hw : well_formed s.fb_info) (hx : x < s.fb_info.width) (hy : y < s.fb_info.height) :
    (fb_put_pixel x y c s).memory = fun addr =>
      if addr = pixel_addr s.fb_info x y + 3 then c.a
      else if addr = pixel_addr s.fb_info x y + 2 then c.r
      else if addr = pixel_addr s.fb_info x y + 1 then c.g
      else if addr = pixel_addr s.fb_info x y then c.b
      else s.memory addr := by
  have hb := pixel_bound s.fb_info hw x y hx hy
  have hlt := hw.2.2
  rw [put_pixel_in_bounds x y c s hw.1 hx hy]
  have e0 : (y * s.fb_info.pitch + x * 4) % 2 ^ 32 = y * s.fb_info.pitch + x * 4 :=
    Nat.mod_eq_of_lt (by omega)
  have e3 : (y * s.fb_info.pitch + x * 4 + 3) % 2 ^ 32 = y * s.fb_info.pitch + x * 4 + 3 :=
    Nat.mod_eq_of_lt (by omega)
  have e2 : (y * s.fb_info.pitch + x * 4 + 2) % 2 ^ 32 = y * s.fb_info.pitch + x * 4 + 2 :=
    Nat.mod_eq_of_lt (by omega)
  have e1 : (y * s.fb_info.pitch + x * 4 + 1) % 2 ^ 32 = y * s.fb_info.pitch + x * 4 + 1 :=
    Nat.mod_eq_of_lt (by omega)
  simp only [e0, Nat.add_zero]
  simp only [e0, e1, e2, e3]
  simp only [pixel_addr, Nat.add_assoc]

theorem put_pixel_shows (x y : Nat) (c : color_t) (s : Screen)
    (hw : well_formed s.fb_info) (hx : x < s.fb_info.width) (hy : y < s.fb_info.height) :
    shows (fb_put_pixel x y c s) x y c := by
  unfold shows
  rw [put_pixel_fb_info, put_pixel_memory x y c s hw hx hy]
  simp

theorem put_pixel_elsewhere (x y : Nat) (c : color_t) (s : Screen)
    (hw : well_formed s.fb_info) (a : Nat)
    (h : x < s.fb_info.width → y < s.fb_info.height → ¬ in_pixel s.fb_info x y a) :
    (fb_put_pixel x y c s).memory a = s.memory a := by
  by_cases hb : x < s.fb_info.width ∧ y < s.fb_info.height
  · have hn := h hb.1 hb.2
    unfold in_pixel at hn
    rw [put_pixel_memory x y c s hw hb.1 hb.2]
    simp only
    rw [if_neg (by omega), if_neg (by omega), if_neg (by omega), if_neg (by omega)]
  · rw [put_pixel_outside_bounds x y c s (by omega)]

theorem pixel_disjoint (fb : framebuffer_t) (hw : well_formed fb) (x y x' y' : Nat)
    (hx : x < fb.width) (hx' : x' < fb.width)
    (hne : ¬ (x = x' ∧ y = y')) :
    pixel_addr fb x y + 4 ≤ pixel_addr fb x' y' ∨ pixel_addr fb x' y' + 4 ≤ pixel_addr fb x y := by
  obtain ⟨_, hp, _⟩ := hw
  unfold pixel_addr
  rcases Nat.lt_trichotomy y y' with hlt | heq | hgt
  · left
    have h1 : (y + 1) * fb.pitch ≤ y' * fb.pitch := Nat.mul_le_mul_right _ hlt
    have h2 : (y + 1) * fb.pitch = y * fb.pitch + fb.pitch := by ring
    omega
  · subst heq
    omega
  · right
    have h1 : (y' + 1) * fb.pitch ≤ y * fb.pitch := Nat.mul_le_mul_right _ hgt
    have h2 : (y' + 1) * fb.pitch = y' * fb.pitch + fb.pitch := by ring
    omega

theorem put_pixel_keeps (x y : Nat) (c : color_t) (s : Screen) (hw : well_formed s.fb_info)
    (hx : x < s.fb_info.width) (hy : y < s.fb_info.height) (hs : shows s x y c)
    (x' y' : Nat) (c' : color_t) (hc : x' = x → y' = y → c' = c) :
    shows (fb_put_pixel x' y' c' s) x y c := by
  by_cases hsame : x' = x ∧ y' = y
  · obtain ⟨rfl, rfl⟩ := hsame
    rw [hc rfl rfl]
    exact put_pixel_shows _ _ c s hw hx hy
  · unfold shows at hs ⊢
    rw [put_pixel_fb_info]
    have hfar : ∀ a, pixel_addr s.fb_info x y ≤ a → a < pixel_addr s.fb_info x y + 4 →
        (fb_put_pixel x' y' c' s).memory a = s.memory a := by
      intro a h1 h2
      apply put_pixel_elsewhere x' y' c' s hw a
      intro hx' _
      unfold in_pixel
      rcases pixel_disjoint s.fb_info hw x' y' x y hx' hx hsame with h | h <;> omega
    rw [hfar _ (by omega) (by omega), hfar _ (by omega) (by omega),
      hfar _ (by omega) (by omega), hfar _ (by omega) (by omega)]
    exact hs

theorem paint_cons (p : Nat × Nat × color_t) (ops : List (Nat × Nat × color_t)) (s : Screen) :
    paint (p :: ops) s = paint ops (fb_put_pixel p.1 p.2.1 p.2.2 s) := rfl

theorem paint_append (l1 l2 : List (Nat × Nat × color_t)) (s : Screen) :
    paint (l1 ++ l2) s = paint l2 (paint l1 s) := by
  simp [paint, List.foldl_append]

theorem paint_fb_info (ops : List (Nat × Nat × color_t)) : ∀ s : Screen,
    (paint ops s).fb_info = s.fb_info := by
  induction ops with
  | nil => intro s; rfl
  | cons p ops ih => intro s; rw [paint_cons, ih, put_pixel_fb_info]

theorem paint_elsewhere (ops : List (Nat × Nat × color_t)) : ∀ (s : Screen),
    well_formed s.fb_info → ∀ a : Nat,
    (∀ p ∈ ops, p.1 < s.fb_info.width → p.2.1 < s.fb_info.height →
      ¬ in_pixel s.fb_info p.1 p.2.1 a) →
    (paint ops s).memory a = s.memory a := by
  induction ops with
  | nil => intro s _ a _; rfl
  | cons p ops ih =>
    intro s hw a h
    rw [paint_cons, ih _ (by rw [put_pixel_fb_info]; exact hw) a
      (by
        intro q hq
        rw [put_pixel_fb_info]
        exact h q (List.mem_cons_of_mem _ hq))]
    exact put_pixel_elsewhere _ _ _ s hw a (h p (List.mem_cons_self _ _))

theorem paint_keeps (ops : List (Nat × Nat × color_t)) : ∀ (s : Screen),
    well_formed s.fb_info → ∀ (x y : Nat) (c : color_t),
    x < s.fb_info.width → y < s.fb_info.height → shows s x y c →
    (∀ p ∈ ops, p.1 = x → p.2.1 = y → p.2.2 = c) →
    shows (paint ops s) x y c := by
  induction ops with
  | nil => intro s _ x y c _ _ hs _; exact hs
  | cons p ops ih =>
    intro s hw x y c hx hy hs hc
    rw [paint_cons]
    apply ih
    · rw [put_pixel_fb_info]; exact hw
    · rw [put_pixel_fb_info]; exact hx
    · rw [put_pixel_fb_info]; exact hy
    · exact put_pixel_keeps x y c s hw hx hy hs _ _ _ (hc p (List.mem_cons_self _ _))
    · intro q hq
      exact hc q (List.mem_cons_of_mem _ hq)

theorem paint_shows (ops : List (Nat × Nat × color_t)) : ∀ (s : Screen),
    well_formed s.fb_info → ∀ q ∈ ops,
    q.1 < s.fb_info.width → q.2.1 < s.fb_info.height →
    (∀ p ∈ ops, p.1 = q.1 → p.2.1 = q.2.1 → p.2.2 = q.2.2) →
    shows (paint ops s) q.1 q.2.1 q.2.2 := by
  induction ops with
  | nil => intro s _ q hq; simp at hq
  | cons p ops ih =>
    intro s hw q hq hx hy hc
    rw [paint_cons]
    by_cases hin : q ∈ ops
    · apply ih _ (by rw [put_pixel_fb_info]; exact hw) q hin
      · rw [put_pixel_fb_info]; exact hx
      · rw [put_pixel_fb_info]; exact hy
      · intro r hr
        exact hc r (List.mem_cons_of_mem _ hr)
    · have hqp : q = p := by
        rcases List.mem_cons.1 hq with h | h
        · exact h
        · exact absurd h hin
      subst hqp
      apply paint_keeps ops _ (by rw [put_pixel_fb_info]; exact hw)
      · rw [put_pixel_fb_info]; exact hx
      · rw [put_pixel_fb_info]; exact hy
      · exact put_pixel_shows _ _ _ s hw hx hy
      · intro r hr
        exact hc r (List.mem_cons_of_mem _ hr)

/-! ## The loops of `fb_fill_rect` -/

theorem fill_cols_run (x w py : Nat) (color : color_t) (W : Nat) (n : Nat) :
    ∀ (fuel px : Nat) (s : Screen), s.fb_info.width = W →
      n = min ((x + w) % 2 ^ 32) W - px → n < fuel →
      fb_fill_rect_cols x w py color fuel px s = some (paint (row_ops px n py color) s) := by
  induction n with
  | zero =>
    intro fuel px s hW hn hf
    obtain ⟨f, rfl⟩ : ∃ f, fuel = f + 1 := ⟨fuel - 1, by omega⟩
    rw [fb_fill_rect_cols, if_neg (by rw [hW]; omega)]
    rfl
  | succ n ih =>
    intro fuel px s hW hn hf
    obtain ⟨f, rfl⟩ : ∃ f, fuel = f + 1 := ⟨fuel - 1, by omega⟩
    have hlt : (x + w) % 2 ^ 32 < 2 ^ 32 := Nat.mod_lt _ (by norm_num)
    rw [fb_fill_rect_cols, if_pos (by rw [hW]; omega)]
    have hpx : (px + 1) % 2 ^ 32 = px + 1 := Nat.mod_eq_of_lt (by omega)
    rw [hpx, ih f (px + 1) _ (by rw [put_pixel_fb_info]; exact hW) (by omega) (by omega)]
    simp [row_ops, List.range'_succ, paint_cons]

theorem fill_rows_run (x y w h : Nat) (color : color_t) (W H : Nat) (n : Nat) :
    ∀ (fuel py : Nat) (s : Screen), s.fb_info.width = W → s.fb_info.height = H →
      n = min ((y + h) % 2 ^ 32) H - py →
      n + (min ((x + w) % 2 ^ 32) W - x) < fuel →
      fb_fill_rect_rows x y w h color fuel py s =
        some (paint (rect_ops x (min ((x + w) % 2 ^ 32) W - x) py n color) s) := by
  induction n with
  | zero =>
    intro fuel py s _ hH hn hf
    obtain ⟨f, rfl⟩ : ∃ f, fuel = f + 1 := ⟨fuel - 1, by omega⟩
    rw [fb_fill_rect_rows, if_neg (by rw [hH]; omega)]
    rfl
  | succ n ih =>
    intro fuel py s hW hH hn hf
    obtain ⟨f, rfl⟩ : ∃ f, fuel = f + 1 := ⟨fuel - 1, by omega⟩
    have hlt : (y + h) % 2 ^ 32 < 2 ^ 32 := Nat.mod_lt _ (by norm_num)
    rw [fb_fill_rect_rows, if_pos (by rw [hH]; omega),
      fill_cols_run x w py color W _ f x s hW rfl (by omega)]
    have hpy : (py + 1) % 2 ^ 32 = py + 1 := Nat.mod_eq_of_lt (by omega)
    simp only
    rw [hpy, ih f (py + 1) _ (by rw [paint_fb_info]; exact hW)
      (by rw [paint_fb_info]; exact hH) (by omega) (by omega)]
    simp [rect_ops, List.range'_succ, paint_append]

theorem fill_rect_run (x y w h : Nat) (color : color_t) (fuel : Nat) (s : Screen)
    (hf : (min ((y + h) % 2 ^ 32) s.fb_info.height - y) +
      (min ((x + w) % 2 ^ 32) s.fb_info.width - x) < fuel) :
    fb_fill_rect x y w h color fuel s =
      some (paint (rect_ops x (min ((x + w) % 2 ^ 32) s.fb_info.width - x) y
        (min ((y + h) % 2 ^ 32) s.fb_info.height - y) color) s) :=
  fill_rows_run x y w h color _ _ _ fuel y s rfl rfl rfl hf

theorem mem_rect_ops (x ncols y nrows : Nat) (color : color_t) (p : Nat × Nat × color_t) :
    p ∈ rect_ops x ncols y nrows color ↔
      (y ≤ p.2.1 ∧ p.2.1 < y + nrows) ∧ (x ≤ p.1 ∧ p.1 < x + ncols) ∧ p.2.2 = color := by
  obtain ⟨px, py, c⟩ := p
  simp only [rect_ops, row_ops, List.mem_flatMap, List.mem_map, List.mem_range'_1,
    Prod.mk.injEq]
  constructor
  · rintro ⟨r, hr, q, hq, rfl, rfl, rfl⟩
    exact ⟨hr, hq, rfl⟩
  · rintro ⟨hr, hq, rfl⟩
    exact ⟨py, hr, px, hq, rfl, rfl, rfl⟩

/-! ## The descriptor is left alone -/

theorem spin_while_fb_info (flag : Nat) (fuel : Nat) : ∀ (m m' : Machine),
    spin_while flag fuel m = some m' → m'.fb_info = m.fb_info := by
  induction fuel with
  | zero => intro m m' h; simp [spin_while] at h
  | succ n ih =>
    intro m m' h
    rw [spin_while] at h
    dsimp only at h
    by_cases hc : (read_status m).1 &&& flag ≠ 0
    · rw [if_pos hc] at h
      exact ih (read_status m).2 m' h
    · rw [if_neg hc] at h
      cases h
      rfl

theorem read_data_fb_info (m : Machine) : (read_data m).2.fb_info = m.fb_info := by
  unfold read_data
  cases m.replies with
  | nil => rfl
  | cons r rs =>
    dsimp only
    split <;> rfl

theorem mailbox_call_loop_fb_info (channel : Nat) (fuel : Nat) :
    ∀ (m : Machine) (res : Bool × Machine),
      mailbox_call_loop channel fuel m = some res → res.2.fb_info = m.fb_info := by
  induction fuel with
  | zero => intro m res h; simp [mailbox_call_loop] at h
  | succ n ih =>
    intro m res h
    rw [mailbox_call_loop] at h
    cases hs : spin_while MAILBOX_EMPTY n m with
    | none => simp [hs] at h
    | some m1 =>
      have h1 := spin_while_fb_info _ _ _ _ hs
      have h2 := read_data_fb_info m1
      simp only [hs] at h
      by_cases hc : (read_data m1).1 &&& 0xF = channel
      · rw [if_pos hc] at h
        cases h
        exact h2.trans h1
      · rw [if_neg hc] at h
        exact (ih _ _ h).trans (h2.trans h1)

theorem mailbox_call_fb_info (channel fuel : Nat) (m : Machine) (res : Bool × Machine)
    (h : mailbox_call channel fuel m = some res) : res.2.fb_info = m.fb_info := by
  simp only [mailbox_call, mailbox_write] at h
  cases hs : spin_while MAILBOX_FULL fuel m with
  | none => simp [hs] at h
  | some m1 =>
    have h1 := spin_while_fb_info _ _ _ _ hs
    simp only [hs] at h
    exact (mailbox_call_loop_fb_info _ _ _ _ h).trans h1

theorem fb_init_failure_fb_info (width height depth fuel : Nat) (m m' : Machine)
    (h : fb_init width height depth fuel m = some (false, m')) : m'.fb_info = m.fb_info := by
  unfold fb_init at h
  cases hc : mailbox_call MAILBOX_CH_PROP fuel (fb_request_machine width height depth m) with
  | none => simp [hc] at h
  | some res =>
    obtain ⟨ok, m1⟩ := res
    have h1 : m1.fb_info = m.fb_info := mailbox_call_fb_info _ _ _ _ hc
    rw [hc] at h
    cases ok with
    | false =>
      simp only [Option.some.injEq, Prod.mk.injEq, true_and] at h
      rw [← h]; exact h1
    | true =>
      dsimp only at h
      by_cases h24 : m1.mailbox_buffer 24 = 0
      · rw [if_pos h24] at h
        simp only [Option.some.injEq, Prod.mk.injEq, true_and] at h
        rw [← h]; exact h1
      · rw [if_neg h24] at h
        simp at h

/-! ## Framebuffer driver -/

/-- C12: when `x >= width` or `y >= height`, `fb_put_pixel(x, y, color)`
returns the state it was given: no byte of memory changes. -/
theorem fb_put_pixel_out_of_bounds (x y : Nat) (color : color_t) (s : Screen)
    (h : x ≥ s.fb_info.width ∨ y ≥ s.fb_info.height) :
    fb_put_pixel x y color s = s ∧
    ∀ addr, (fb_put_pixel x y color s).memory addr = s.memory addr := by
  have he := put_pixel_outside_bounds x y color s h
  exact ⟨he, fun addr => by rw [he]⟩

theorem fb_put_pixel_out_of_bounds_witness :
    fb_put_pixel 4 1 COLOR_WHITE example_screen = example_screen ∧
    ∀ addr, (fb_put_pixel 4 1 COLOR_WHITE example_screen).memory addr =
      example_screen.memory addr :=
  fb_put_pixel_out_of_bounds 4 1 COLOR_WHITE example_screen (by decide)

/-- What `fb_fill_rect` does when neither `x + w` nor `y + h` overflows 32
bits: it returns once the fuel covers the loop iterations, every pixel of the
rectangle that lies inside the buffer bounds then holds `color`, and every
byte outside those pixels is unchanged. -/
theorem fill_rect_clipped (x y w h : Nat) (color : color_t) (fuel : Nat) (s : Screen)
    (hw : well_formed s.fb_info) (hxw : x + w < 2 ^ 32) (hyh : y + h < 2 ^ 32)
    (hf : h + w < fuel) :
    ∃ s',
      fb_fill_rect x y w h color fuel s = some s' ∧
      s'.fb_info = s.fb_info ∧
      (∀ px py, x ≤ px → px < x + w → y ≤ py → py < y + h →
        px < s.fb_info.width → py < s.fb_info.height → shows s' px py color) ∧
      (∀ addr,
        (∀ px py, x ≤ px → px < x + w → y ≤ py → py < y + h →
          px < s.fb_info.width → py < s.fb_info.height → ¬ in_pixel s.fb_info px py addr) →
        s'.memory addr = s.memory addr) := by
  have ex : (x + w) % 2 ^ 32 = x + w := Nat.mod_eq_of_lt hxw
  have ey : (y + h) % 2 ^ 32 = y + h := Nat.mod_eq_of_lt hyh
  refine ⟨_, fill_rect_run x y w h color fuel s (by rw [ex, ey]; omega), paint_fb_info _ _,
    ?_, ?_⟩
  · intro px py h1 h2 h3 h4 h5 h6
    exact paint_shows _ s hw (px, py, color)
      ((mem_rect_ops _ _ _ _ _ _).2 ⟨by rw [ey]; dsimp only; omega,
        by rw [ex]; dsimp only; omega, rfl⟩)
      h5 h6 (fun p hp _ _ => ((mem_rect_ops _ _ _ _ _ _).1 hp).2.2)
  · intro addr hout
    apply paint_elsewhere _ s hw addr
    intro p hp hpx hpy
    obtain ⟨hr, hc, _⟩ := (mem_rect_ops _ _ _ _ _ _).1 hp
    rw [ex] at hc
    rw [ey] at hr
    exact hout p.1 p.2.1 (by omega) (by omega) (by omega) (by omega) hpx hpy

/-- C14, the code at the failing input: on the 4 x 4 example screen,
`fb_fill_rect(0, 1, 1, 0xFFFFFFFF, COLOR_WHITE)` returns with memory
unchanged, because `y + h` wraps to 0 in 32 bits and the row loop never runs;
pixel (0, 1), which lies in the rectangle and inside the bounds, still holds
0 and not the blue byte 0xFF of the color. -/
theorem fb_fill_rect_wraps :
    (∀ fuel, fb_fill_rect 0 1 1 0xFFFFFFFF COLOR_WHITE (fuel + 1) example_screen =
      some example_screen) ∧
    well_formed example_screen.fb_info ∧
    (0 ≤ 0 ∧ 0 < 0 + 1 ∧ 1 ≤ 1 ∧ 1 < 1 + 0xFFFFFFFF ∧
      0 < example_screen.fb_info.width ∧ 1 < example_screen.fb_info.height) ∧
    example_screen.memory (pixel_addr example_screen.fb_info 0 1) = 0 ∧
    COLOR_WHITE.b = 0xFF ∧
    ¬ shows example_screen 0 1 COLOR_WHITE := by
  refine ⟨fun fuel => rfl, by decide, by decide, rfl, rfl, ?_⟩
  intro hs
  exact absurd hs.1 (by decide)

/-- C16: for a character code outside 32..126, `fb_draw_char` returns the
state that it returns for the code of `?` (63); and for every character code
the index `c - 32` into the glyph table, taken after the substitution, lies
in 0..94. -/
theorem fb_draw_char_fallback (font8x8 : Nat → Nat → Nat) (x y : Nat) (c : Int)
    (fg bg : color_t) (s : Screen) (hc : c < 32 ∨ c > 126) :
    fb_draw_char font8x8 x y c fg bg s = fb_draw_char font8x8 x y 63 fg bg s ∧
    ∀ ch : Int, 0 ≤ glyph_index ch ∧ glyph_index ch ≤ 94 := by
  constructor
  · have h1 : glyph_index c = glyph_index 63 := by
      unfold glyph_index printable
      rw [if_pos hc]
      rfl
    unfold fb_draw_char
    rw [h1]
  · intro ch
    unfold glyph_index printable
    split <;> omega

theorem fb_draw_char_fallback_witness :
    fb_draw_char example_font 0 0 200 COLOR_WHITE COLOR_BLACK example_screen =
      fb_draw_char example_font 0 0 63 COLOR_WHITE COLOR_BLACK example_screen ∧
    ∀ ch : Int, 0 ≤ glyph_index ch ∧ glyph_index ch ≤ 94 :=
  fb_draw_char_fallback example_font 0 0 200 COLOR_WHITE COLOR_BLACK example_screen
    (by decide)

theorem newline_count_snoc (p : List Int) (c : Int) :
    newline_count (p ++ [c]) = newline_count p + (if c = 10 then 1 else 0) := by
  unfold newline_count
  by_cases h : c = 10 <;> simp [List.filter_append, h]

theorem line_column_snoc (p : List Int) (c : Int) :
    line_column (p ++ [c]) = if c = 10 then 0 else line_column p + 1 := by
  unfold line_column
  by_cases h : c = 10 <;> simp [List.takeWhile_cons, h]

theorem draw_string_loop_steps (font8x8 : Nat → Nat → Nat) (x0 y0 : Nat) (fg bg : color_t)
    (hx : x0 < 2 ^ 32) (rest : List Int) :
    ∀ (p : List Int) (s : Screen), (∀ c ∈ rest, c ≠ 0) →
      fb_draw_string_loop font8x8 x0 fg bg
          ((x0 + 8 * line_column p) % 2 ^ 32) ((y0 + 10 * newline_count p) % 2 ^ 32) rest s =
        (List.range' p.length rest.length).foldl
          (fun acc i =>
            if (p ++ rest).getD i 0 = 10 then acc
            else
              fb_draw_char font8x8
                ((x0 + 8 * line_column ((p ++ rest).take i)) % 2 ^ 32)
                ((y0 + 10 * newline_count ((p ++ rest).take i)) % 2 ^ 32)
                ((p ++ rest).getD i 0) fg bg acc)
          s := by
  induction rest with
  | nil => intro p s _; rfl
  | cons c rest ih =>
    intro p s hnul
    have hc0 : c ≠ 0 := hnul c (List.mem_cons_self _ _)
    have hrest : ∀ d ∈ rest, d ≠ 0 := fun d hd => hnul d (List.mem_cons_of_mem _ hd)
    have hget : (p ++ c :: rest).getD p.length 0 = c := by
      rw [List.getD_eq_getElem?_getD, List.getElem?_append_right (le_refl _)]
      simp
    have htake : (p ++ c :: rest).take p.length = p := by simp
    have happ : p ++ c :: rest = (p ++ [c]) ++ rest := by simp
    have hlen : (p ++ [c]).length = p.length + 1 := by simp
    rw [fb_draw_string_loop, if_neg hc0, List.length_cons, List.range'_succ, List.foldl_cons,
      hget, htake]
    have ih' := ih (p ++ [c])
    rw [← happ, hlen, newline_count_snoc, line_column_snoc] at ih'
    by_cases h10 : c = 10
    · rw [if_pos h10, if_pos h10]
      have := ih' s hrest
      rw [if_pos h10, if_pos h10] at this
      rw [← this]
      congr 1
      · omega
      · simp only [FONT_HEIGHT]; omega
    · rw [if_neg h10, if_neg h10]
      have := ih' (fb_draw_char font8x8 ((x0 + 8 * line_column p) % 2 ^ 32)
        ((y0 + 10 * newline_count p) % 2 ^ 32) c fg bg s) hrest
      rw [if_neg h10, if_neg h10] at this
      rw [← this]
      congr 1
      simp only [FONT_WIDTH]; omega

/-- C18: for a text without the character 0 and an origin `(x, y)` of 32-bit
values, `fb_draw_string(x, y, text, fg, bg)` is the result of drawing, in
text order, each character `text[i]` other than a newline with `fb_draw_char`
at `(x + 8 * k_i, y + 10 * n_i)` modulo `2 ^ 32`, with `n_i` the number of
newlines before `i` and `k_i` the number of characters since the last newline
before `i` (or since the start); newlines draw nothing. -/
theorem fb_draw_string_steps (font8x8 : Nat → Nat → Nat) (x y : Nat) (text : List Int)
    (fg bg : color_t) (s : Screen)
    (hx : x < 2 ^ 32) (hy : y < 2 ^ 32) (hnul : ∀ c ∈ text, c ≠ 0) :
    fb_draw_string font8x8 x y text fg bg s = draw_text_steps font8x8 x y text fg bg s := by
  have h := draw_string_loop_steps font8x8 x y fg bg hx text [] s hnul
  have e1 : (x + 8 * line_column []) % 2 ^ 32 = x := by
    simp only [line_column, List.reverse_nil, List.takeWhile_nil, List.length_nil]
    omega
  have e2 : (y + 10 * newline_count []) % 2 ^ 32 = y := by
    simp only [newline_count, List.filter_nil, List.length_nil]
    omega
  rw [e1, e2] at h
  unfold fb_draw_string draw_text_steps
  rw [h, List.range_eq_range']
  rfl

theorem fb_draw_string_steps_witness :
    fb_draw_string example_font 0 0 [65, 10, 66] COLOR_WHITE COLOR_BLACK example_screen =
      draw_text_steps example_font 0 0 [65, 10, 66] COLOR_WHITE COLOR_BLACK example_screen ∧
    draw_text_steps example_font 0 0 [65, 10, 66] COLOR_WHITE COLOR_BLACK example_screen =
      fb_draw_char example_font 0 (FONT_HEIGHT + 2) 66 COLOR_WHITE COLOR_BLACK
        (fb_draw_char example_font 0 0 65 COLOR_WHITE COLOR_BLACK example_screen) :=
  ⟨fb_draw_string_steps example_font 0 0 [65, 10, 66] COLOR_WHITE COLOR_BLACK example_screen
      (by decide) (by decide) (by decide),
    (fb_draw_string_steps example_font 0 0 [65, 10, 66] COLOR_WHITE COLOR_BLACK example_screen
      (by decide) (by decide) (by decide)).symm.trans rfl⟩

/-! ## Message layout of the requests -/

/-- C19: walking the tag blocks of the request `fb_init` encodes, from word 2
and with `3 + ceil(value_buffer_size / 4)` words per block, the value words of
allocate-framebuffer are words 24 and 25, the value word of get-pitch is word
29 and END is word 30; words 24 and 25 belong to the value area of the
allocate tag only and word 29 to that of get-pitch only; and a successful
`fb_init` takes buffer, size and pitch from words 24, 25 and 29 of the reply. -/
theorem fb_init_reads_tag_values (width height depth : Nat) (buf : Buffer) :
    ∃ tags stop,
      message_tags (fb_init_request width height depth buf).1 = some (tags, stop) ∧
      value_areas 2 tags =
        [(TAG_FB_SET_PHYS_WH, 5, 2), (TAG_FB_SET_VIRT_WH, 10, 2), (TAG_FB_SET_VIRT_OFF, 15, 2),
         (TAG_FB_SET_DEPTH, 20, 1), (TAG_FB_ALLOC, 24, 2), (TAG_FB_GET_PITCH, 29, 1)] ∧
      stop = 30 ∧
      value_owners (value_areas 2 tags) 24 = [TAG_FB_ALLOC] ∧
      value_owners (value_areas 2 tags) 25 = [TAG_FB_ALLOC] ∧
      value_owners (value_areas 2 tags) 29 = [TAG_FB_GET_PITCH] ∧
      ∀ fuel m m', fb_init width height depth fuel m = some (true, m') →
        ∃ m1,
          mailbox_call MAILBOX_CH_PROP fuel (fb_request_machine width height depth m) =
            some (true, m1) ∧
          m'.fb_info.buffer = m1.mailbox_buffer 24 &&& 0x3FFFFFFF ∧
          m'.fb_info.size = m1.mailbox_buffer 25 ∧
          m'.fb_info.pitch = m1.mailbox_buffer 29 := by
  have hareas : value_areas 2
      [{ tag_id := TAG_FB_SET_PHYS_WH, value_buffer_size := 8, code := 0,
         value_words := [width, height] },
       { tag_id := TAG_FB_SET_VIRT_WH, value_buffer_size := 8, code := 0,
         value_words := [width, height] },
       { tag_id := TAG_FB_SET_VIRT_OFF, value_buffer_size := 8, code := 0,
         value_words := [0, 0] },
       { tag_id := TAG_FB_SET_DEPTH, value_buffer_size := 4, code := 0,
         value_words := [depth] },
       { tag_id := TAG_FB_ALLOC, value_buffer_size := 8, code := 0,
         value_words := [16, 0] },
       { tag_id := TAG_FB_GET_PITCH, value_buffer_size := 4, code := 0,
         value_words := [0] }] =
      [(TAG_FB_SET_PHYS_WH, 5, 2), (TAG_FB_SET_VIRT_WH, 10, 2), (TAG_FB_SET_VIRT_OFF, 15, 2),
       (TAG_FB_SET_DEPTH, 20, 1), (TAG_FB_ALLOC, 24, 2), (TAG_FB_GET_PITCH, 29, 1)] := by
    simp [value_areas, TagBlock.words]
  refine ⟨_, _, fb_init_request_tags width height depth buf, hareas, rfl, ?_, ?_, ?_, ?_⟩
  · rw [hareas]; decide
  · rw [hareas]; decide
  · rw [hareas]; decide
  intro fuel m m' h
  unfold fb_init at h
  cases hc : mailbox_call MAILBOX_CH_PROP fuel (fb_request_machine width height depth m) with
  | none => simp [hc] at h
  | some res =>
    obtain ⟨ok, m1⟩ := res
    rw [hc] at h
    cases ok with
    | false => simp at h
    | true =>
      dsimp only at h
      by_cases h24 : m1.mailbox_buffer 24 = 0
      · rw [if_pos h24] at h
        simp at h
      · rw [if_neg h24] at h
        simp only [Option.some.injEq, Prod.mk.injEq, true_and] at h
        subst h
        exact ⟨m1, rfl, rfl, rfl, rfl⟩

theorem clear_response_one (s : Buffer × Nat) : clear_response 1 s = put s 0 := rfl

theorem clear_response_two (s : Buffer × Nat) : clear_response 2 s = put (put s 0) 0 := rfl

theorem range_one : List.range 1 = [0] := rfl

theorem range_two : List.range 2 = [0, 1] := rfl

theorem query_property_one_word (tag : Nat) (htag : tag ≠ 0) (buf : Buffer) :
    request_well_formed (query_property_request tag 4 1 buf)
      { tag_id := tag, value_buffer_size := 4, code := 0, value_words := [0] } := by
  refine ⟨6, ?_, ?_, ?_, ?_, ?_, ?_⟩
  · simp [message_tags, decode_tags, query_property_request, clear_response_one, put,
      Buffer.store, TAG_END, htag, range_one]
  · simp [query_property_request, clear_response_one, put, Buffer.store]
  · simp [query_property_request, clear_response_one, put, Buffer.store]
  · simp [query_property_request, clear_response_one, put, TagBlock.words]
  · simp [TagBlock.words]
  · simp [query_property_request, clear_response_one, put, Buffer.store, TAG_END]

theorem query_property_two_words (tag size : Nat) (htag : tag ≠ 0)
    (hsize : (size + 3) / 4 = 2) (buf : Buffer) :
    request_well_formed (query_property_request tag size 2 buf)
      { tag_id := tag, value_buffer_size := size, code := 0, value_words := [0, 0] } := by
  refine ⟨7, ?_, ?_, ?_, ?_, ?_, ?_⟩
  · simp [message_tags, decode_tags, query_property_request, clear_response_two, put,
      Buffer.store, TAG_END, htag, hsize, range_two]
  · simp [query_property_request, clear_response_two, put, Buffer.store]
  · simp [query_property_request, clear_response_two, put, Buffer.store]
  · simp [query_property_request, clear_response_two, put, TagBlock.words, hsize]
  · simp [TagBlock.words, hsize]
  · simp [query_property_request, clear_response_two, put, Buffer.store, TAG_END]

theorem query_clock_rate_layout (clock_id : Nat) (buf : Buffer) :
    request_well_formed (query_clock_rate_request clock_id buf)
      { tag_id := TAG_GET_CLOCK_RATE, value_buffer_size := 8, code := 0,
        value_words := [clock_id, 0] } := by
  refine ⟨7, ?_, ?_, ?_, ?_, ?_, ?_⟩
  · simp [message_tags, decode_tags, query_clock_rate_request, put, Buffer.store, TAG_END,
      TAG_GET_CLOCK_RATE, range_two]
  · simp [query_clock_rate_request, put, Buffer.store]
  · simp [query_clock_rate_request, put, Buffer.store]
  · simp [query_clock_rate_request, put, TagBlock.words]
  · simp [TagBlock.words]
  · simp [query_clock_rate_request, put, Buffer.store, TAG_END]

theorem in_value_area_iff (t : TagBlock) (i : Nat) :
    in_value_area t i ↔ 5 ≤ i ∧ i < 5 + (t.value_buffer_size + 3) / 4 := by
  unfold in_value_area value_areas value_owners
  by_cases h : 5 ≤ i ∧ i < 5 + (t.value_buffer_size + 3) / 4
  · simp [value_areas, h]
  · simp [value_areas, h]

theorem copy_response_succ (n : Nat) (buf : Buffer) (response : Nat → Nat) :
    copy_response (n + 1) buf response =
      fun k => if k = n then buf (5 + n) else copy_response n buf response k := by
  unfold copy_response
  rw [List.range_succ, List.foldl_append]
  rfl

theorem copy_response_eq (buf : Buffer) (response : Nat → Nat) (n : Nat) :
    ∀ j, copy_response n buf response j = if j < n then buf (5 + j) else response j := by
  induction n with
  | zero => intro j; rfl
  | succ n ih =>
    intro j
    rw [copy_response_succ]
    dsimp only
    by_cases h : j = n
    · rw [if_pos h, if_pos (by omega), h]
    · rw [if_neg h, ih]
      by_cases h2 : j < n
      · rw [if_pos h2, if_pos (by omega)]
      · rw [if_neg h2, if_neg (by omega)]

theorem query_property_succeeds (tag req_size : Nat) (response : Nat → Nat)
    (resp_count fuel : Nat) (m m' : Machine)
    (h : mailbox_call MAILBOX_CH_PROP fuel
      (with_request (query_property_request tag req_size resp_count) m) = some (true, m')) :
    ∃ response',
      query_property tag req_size response resp_count fuel m = some (true, response', m') ∧
      ∀ j, response' j = if j < resp_count then m'.mailbox_buffer (5 + j) else response j := by
  refine ⟨copy_response resp_count m'.mailbox_buffer response, ?_, copy_response_eq _ _ _⟩
  unfold query_property
  rw [h]

theorem query_clock_rate_succeeds (clock_id fuel : Nat) (m m' : Machine)
    (h : mailbox_call MAILBOX_CH_PROP fuel
      (with_request (query_clock_rate_request clock_id) m) = some (true, m')) :
    query_clock_rate clock_id fuel m = some (m'.mailbox_buffer 6, m') := by
  unfold query_clock_rate
  rw [h]

theorem query_property_returns (tag req_size : Nat) (response : Nat → Nat)
    (resp_count fuel : Nat) (m m1 : Machine) (ok : Bool)
    (h : mailbox_call MAILBOX_CH_PROP fuel
      (with_request (query_property_request tag req_size resp_count) m) = some (ok, m1)) :
    query_property tag req_size response resp_count fuel m =
      some (ok, if ok then copy_response resp_count m1.mailbox_buffer response else response,
        m1) := by
  unfold query_property
  rw [h]
  cases ok <;> rfl

theorem query_clock_rate_returns (clock_id fuel : Nat) (m m1 : Machine) (ok : Bool)
    (h : mailbox_call MAILBOX_CH_PROP fuel
      (with_request (query_clock_rate_request clock_id) m) = some (ok, m1)) :
    query_clock_rate clock_id fuel m = some (if ok then m1.mailbox_buffer 6 else 0, m1) := by
  unfold query_clock_rate
  rw [h]
  cases ok <;> rfl

/-- The mailbox calls of `sysinfo_init` are the calls for `sysinfo_requests`:
when these return, one after the other, `sysinfo_init` returns true on the
machine the last one left. -/
theorem sysinfo_init_returns (info : sysinfo_t) (resp : Nat → Nat) (fuel : Nat)
    (m m' : Machine) (h : calls_return fuel sysinfo_requests m m') :
    ∃ info', sysinfo_init info resp fuel m = some (true, info', m') := by
  simp only [sysinfo_requests, sysinfo_queries, sysinfo_clocks, List.map_cons, List.map_nil,
    List.cons_append, List.nil_append, calls_return] at h
  obtain ⟨ok1, m1, h1, ok2, m2, h2, ok3, m3, h3, ok4, m4, h4, ok5, m5, h5, ok6, m6, h6,
    ok7, m7, h7, ok8, m8, h8, ok9, m9, h9, ok10, m10, h10, rfl⟩ := h
  unfold sysinfo_init
  simp only [query_property_returns _ _ _ _ _ _ _ _ h1, query_property_returns _ _ _ _ _ _ _ _ h2,
    query_property_returns _ _ _ _ _ _ _ _ h3, query_property_returns _ _ _ _ _ _ _ _ h4,
    query_property_returns _ _ _ _ _ _ _ _ h5, query_property_returns _ _ _ _ _ _ _ _ h6,
    query_property_returns _ _ _ _ _ _ _ _ h7, query_clock_rate_returns _ _ _ _ _ h8,
    query_clock_rate_returns _ _ _ _ _ h9, query_clock_rate_returns _ _ _ _ _ h10,
    Option.bind_eq_bind, Option.some_bind, Option.pure_def]
  exact ⟨_, rfl⟩

theorem property_query_sound (tag req_size resp_count : Nat) (buf : Buffer) (t : TagBlock)
    (ht : request_well_formed (query_property_request tag req_size resp_count buf) t)
    (hid : t.tag_id = tag) (hsize : t.value_buffer_size = req_size)
    (hcount : resp_count ≤ (req_size + 3) / 4) :
    ∃ t,
      request_well_formed (query_property_request tag req_size resp_count buf) t ∧
      t.tag_id = tag ∧ t.value_buffer_size = req_size ∧
      (∀ j, j < resp_count → in_value_area t (5 + j)) ∧
      ∀ (response : Nat → Nat) (fuel : Nat) (m m' : Machine),
        mailbox_call MAILBOX_CH_PROP fuel
          (with_request (query_property_request tag req_size resp_count) m) = some (true, m') →
        ∃ response',
          query_property tag req_size response resp_count fuel m = some (true, response', m') ∧
          ∀ j, response' j = if j < resp_count then m'.mailbox_buffer (5 + j) else response j := by
  refine ⟨t, ht, hid, hsize, ?_, ?_⟩
  · intro j hj
    rw [in_value_area_iff, hsize]
    omega
  · intro response fuel m m' h
    exact query_property_succeeds tag req_size response resp_count fuel m m' h

theorem live_gpu_call (w5 w6 : Nat) (req : Buffer → Buffer × Nat) :
    ∃ m', mailbox_call MAILBOX_CH_PROP 3 (with_request req (example_live_gpu w5 w6)) =
        some (true, m') ∧
      m'.mailbox_buffer 1 = 0x80000000 ∧ m'.mailbox_buffer 5 = w5 ∧ m'.mailbox_buffer 6 = w6 := by
  have hcode : ∀ b : Buffer, (((b.store 1 0x80000000).store 5 w5).store 6 w6) 1 = 0x80000000 := by
    intro b
    unfold Buffer.store
    rw [if_neg (by omega), if_neg (by omega), if_pos rfl]
  have h5 : ∀ b : Buffer, (((b.store 1 0x80000000).store 5 w5).store 6 w6) 5 = w5 := by
    intro b
    unfold Buffer.store
    rw [if_neg (by omega), if_pos rfl]
  have h6 : ∀ b : Buffer, (((b.store 1 0x80000000).store 5 w5).store 6 w6) 6 = w6 := by
    intro b
    unfold Buffer.store
    rw [if_pos rfl]
  refine ⟨after_call 8 (with_request req (example_live_gpu w5 w6)) []
    { idle := 0
      word := 0x00003008
      dma := fun b => ((b.store 1 0x80000000).store 5 w5).store 6 w6 } [], ?_,
    hcode (seen [] (with_request req (example_live_gpu w5 w6)).mailbox_buffer),
    h5 (seen [] (with_request req (example_live_gpu w5 w6)).mailbox_buffer),
    h6 (seen [] (with_request req (example_live_gpu w5 w6)).mailbox_buffer)⟩
  rw [MAILBOX_CH_PROP,
    mailbox_call_run 8 (with_request req (example_live_gpu w5 w6)) []
      { idle := 0
        word := 0x00003008
        dma := fun b => ((b.store 1 0x80000000).store 5 w5).store 6 w6 } [] 3 rfl (by simp)
      (by show (12296 : Nat) % 16 = 8; decide)
      (by simp [with_request, example_live_gpu, polls])]
  dsimp only
  rw [decide_eq_true (hcode (seen [] (with_request req (example_live_gpu w5 w6)).mailbox_buffer))]

/-- C20: for each `(tag, req_size, resp_count)` that `sysinfo_init` passes to
`query_property`, and for `query_clock_rate` with any clock id, the request
built before the call is well formed: word 0 is 4 times the number of words
encoded, word 1 is 0, there is one tag block, with the tag and the value size
passed and `ceil(value_buffer_size / 4)` value words, and END follows it at
once. When the call succeeds, `query_property` returns true with
`response[j]`, `j < resp_count`, taken from word `5 + j` of the reply and the
rest of `response` as it was, `query_clock_rate` returns word 6 of the reply,
and these words lie in the value area of the tag block. The mailbox calls of
`sysinfo_init` are the calls for these requests, with the three clock ids of
`sysinfo_clocks`: when they return, one after the other, `sysinfo_init`
returns. -/
theorem sysinfo_requests_well_formed (q : Nat × Nat × Nat) (hq : q ∈ sysinfo_queries)
    (clock_id : Nat) (buf : Buffer) :
    (∃ t,
      request_well_formed (query_property_request q.1 q.2.1 q.2.2 buf) t ∧
      t.tag_id = q.1 ∧ t.value_buffer_size = q.2.1 ∧
      (∀ j, j < q.2.2 → in_value_area t (5 + j)) ∧
      ∀ (response : Nat → Nat) (fuel : Nat) (m m' : Machine),
        mailbox_call MAILBOX_CH_PROP fuel
          (with_request (query_property_request q.1 q.2.1 q.2.2) m) = some (true, m') →
        ∃ response',
          query_property q.1 q.2.1 response q.2.2 fuel m = some (true, response', m') ∧
          ∀ j, response' j = if j < q.2.2 then m'.mailbox_buffer (5 + j) else response j) ∧
    (∃ t,
      request_well_formed (query_clock_rate_request clock_id buf) t ∧
      t.tag_id = TAG_GET_CLOCK_RATE ∧ t.value_buffer_size = 8 ∧
      in_value_area t 6 ∧
      ∀ (fuel : Nat) (m m' : Machine),
        mailbox_call MAILBOX_CH_PROP fuel
          (with_request (query_clock_rate_request clock_id) m) = some (true, m') →
        query_clock_rate clock_id fuel m = some (m'.mailbox_buffer 6, m')) ∧
    (∀ (info : sysinfo_t) (resp : Nat → Nat) (fuel : Nat) (m m' : Machine),
      calls_return fuel sysinfo_requests m m' →
        ∃ info', sysinfo_init info resp fuel m = some (true, info', m')) := by
  refine ⟨?_, ⟨_, query_clock_rate_layout clock_id buf, rfl, rfl,
    (in_value_area_iff _ _).2 ⟨by omega, by dsimp only; omega⟩,
    query_clock_rate_succeeds clock_id⟩, sysinfo_init_returns⟩
  simp only [sysinfo_queries, List.mem_cons, List.mem_singleton, List.not_mem_nil,
    or_false] at hq
  rcases hq with rfl | rfl | rfl | rfl | rfl | rfl | rfl
  · exact property_query_sound _ _ _ buf _ (query_property_one_word _ (by decide) buf) rfl rfl
      (by decide)
  · exact property_query_sound _ _ _ buf _ (query_property_one_word _ (by decide) buf) rfl rfl
      (by decide)
  · exact property_query_sound _ _ _ buf _ (query_property_one_word _ (by decide) buf) rfl rfl
      (by decide)
  · exact property_query_sound _ _ _ buf _
      (query_property_two_words _ _ (by decide) (by decide) buf) rfl rfl (by decide)
  · exact property_query_sound _ _ _ buf _
      (query_property_two_words _ _ (by decide) (by decide) buf) rfl rfl (by decide)
  · exact property_query_sound _ _ _ buf _
      (query_property_two_words _ _ (by decide) (by decide) buf) rfl rfl (by decide)
  · exact property_query_sound _ _ _ buf _
      (query_property_two_words _ _ (by decide) (by decide) buf) rfl rfl (by decide)

theorem sysinfo_requests_well_formed_witness :
    (∃ t,
      request_well_formed (query_property_request TAG_GET_MAC_ADDR 6 2 (fun _ => 0)) t ∧
      t.tag_id = TAG_GET_MAC_ADDR ∧ t.value_buffer_size = 6 ∧
      (∀ j, j < 2 → in_value_area t (5 + j)) ∧
      ∃ response' m',
        query_property TAG_GET_MAC_ADDR 6 (fun _ => 9) 2 3 (example_live_gpu 0x44332211 0x6655) =
          some (true, response', m') ∧
        response' 0 = 0x44332211 ∧ response' 1 = 0x6655 ∧ response' 2 = 9) ∧
    (∃ t,
      request_well_formed (query_clock_rate_request 3 (fun _ => 0)) t ∧
      t.tag_id = TAG_GET_CLOCK_RATE ∧ t.value_buffer_size = 8 ∧
      in_value_area t 6 ∧
      ∃ m', query_clock_rate 3 3 (example_live_gpu 3 600000000) = some (600000000, m')) ∧
    (∀ (info : sysinfo_t) (resp : Nat → Nat) (fuel : Nat) (m m' : Machine),
      calls_return fuel sysinfo_requests m m' →
        ∃ info', sysinfo_init info resp fuel m = some (true, info', m')) := by
  obtain ⟨⟨t, h1, h2, h3, h4, hrun⟩, ⟨u, k1, k2, k3, k4, krun⟩, hinit⟩ :=
    sysinfo_requests_well_formed (TAG_GET_MAC_ADDR, 6, 2) (by decide) 3 (fun _ => 0)
  refine ⟨⟨t, h1, h2, h3, h4, ?_⟩, ⟨u, k1, k2, k3, k4, ?_⟩, hinit⟩
  · obtain ⟨m', hcall, _, w5, w6⟩ := live_gpu_call 0x44332211 0x6655
      (query_property_request TAG_GET_MAC_ADDR 6 2)
    obtain ⟨response', hq, hresp⟩ := hrun (fun _ => 9) 3 _ m' hcall
    refine ⟨response', m', hq, ?_, ?_, ?_⟩
    · rw [hresp 0, if_pos (by decide), w5]
    · rw [hresp 1, if_pos (by decide), w6]
    · rw [hresp 2, if_neg (by decide)]
  · obtain ⟨m', hcall, _, _, w6⟩ := live_gpu_call 3 600000000 (query_clock_rate_request 3)
    exact ⟨m', by rw [krun 3 _ m' hcall, w6]⟩

/-! ## Lemmas on `utoa` -/

theorem digit_value_hex_char : ∀ d < 16, digit_value (hex_char d) = d := by decide

theorem hex_char_ne_nul : ∀ d < 16, hex_char d ≠ NUL := by decide

theorem hex_char_mem_take : ∀ b < 17, ∀ d < b, hex_char d ∈ hex_chars.take b := by decide

theorem hex_char_zero : hex_char 0 = '0' := rfl

theorem utoa_pop_eq (tmp : List Char) : ∀ out : List Char, utoa_pop tmp out = out ++ tmp := by
  induction tmp with
  | nil => intro out; simp [utoa_pop]
  | cons c tmp ih => intro out; simp [utoa_pop, ih]

theorem utoa_push_run (base : Nat) (hb : 1 < base) (fuel : Nat) :
    ∀ (value : Nat) (tmp : List Char), (Nat.digits base value).length < fuel →
      utoa_push base fuel value tmp =
        some ((Nat.digits base value).reverse.map hex_char ++ tmp) := by
  induction fuel with
  | zero => intro value tmp h; omega
  | succ n ih =>
    intro value tmp h
    rw [utoa_push]
    by_cases hv : value = 0
    · subst hv
      simp
    · rw [if_pos hv]
      have hd := Nat.digits_def' hb (Nat.pos_of_ne_zero hv)
      rw [hd] at h ⊢
      rw [ih _ _ (by simpa using h)]
      simp

theorem digits_length_le (base value : Nat) (hb : 1 < base) (hv : value < 2 ^ 32) :
    (Nat.digits base value).length ≤ 32 := by
  by_cases h0 : value = 0
  · subst h0; simp
  · have h1 := Nat.base_pow_length_digits_le base value hb h0
    have h2 : base * value < base * base ^ 32 := by
      apply Nat.mul_lt_mul_of_pos_left _ (by omega)
      calc value < 2 ^ 32 := hv
        _ ≤ base ^ 32 := Nat.pow_le_pow_left (by omega) 32
    have h3 : base ^ (Nat.digits base value).length < base ^ 33 := by
      calc base ^ (Nat.digits base value).length ≤ base * value := h1
        _ < base * base ^ 32 := h2
        _ = base ^ 33 := by ring
    have h4 := (Nat.pow_lt_pow_iff_right hb).1 h3
    omega

theorem parse_digits_snoc (base : Nat) (s : List Char) (c : Char) :
    parse_digits base (s ++ [c]) = parse_digits base s * base + digit_value c := by
  simp [parse_digits, List.foldl_append]

theorem parse_digits_of_digits (base : Nat) (l : List Nat) (hl : ∀ d ∈ l, d < 16) :
    parse_digits base (l.reverse.map hex_char) = Nat.ofDigits base l := by
  induction l with
  | nil => rfl
  | cons d l ih =>
    rw [List.reverse_cons, List.map_append, List.map_singleton, parse_digits_snoc,
      ih (fun x hx => hl x (List.mem_cons_of_mem _ hx)),
      digit_value_hex_char d (hl d (List.mem_cons_self _ _)), Nat.ofDigits_cons]
    ring

/-- What `utoa` writes for a 32-bit value in a base from 2 to 16. -/
theorem utoa_run (value : Nat) (base : Int) (fuel : Nat) (hv : value < 2 ^ 32)
    (hb : 2 ≤ base ∧ base ≤ 16) (hf : 33 ≤ fuel) :
    ∃ s,
      utoa value base fuel = some (s ++ [NUL]) ∧
      1 ≤ s.length ∧ s.length ≤ 32 ∧
      NUL ∉ s ∧
      (value = 0 → s = ['0']) ∧
      (value ≠ 0 → s.head? ≠ some '0') ∧
      (∀ c ∈ s, c ∈ hex_chars.take base.toNat) ∧
      parse_digits base.toNat s = value := by
  obtain ⟨b, rfl⟩ : ∃ b : Nat, base = (b : Int) := ⟨base.toNat, by omega⟩
  have hb2 : 2 ≤ b := by omega
  have hb16 : b ≤ 16 := by omega
  have hconv : to_uint32 (b : Int) = b := by
    unfold to_uint32
    omega
  have htn : (b : Int).toNat = b := by simp
  rw [htn]
  by_cases h0 : value = 0
  · subst h0
    have hz : digit_value '0' = 0 := by decide
    refine ⟨['0'], by simp [utoa], by simp, by simp, by decide, fun _ => rfl,
      fun h => absurd rfl h, ?_, by simp [parse_digits, hz]⟩
    intro c hc
    rw [List.mem_singleton] at hc
    subst hc
    exact hex_char_mem_take b (by omega) 0 (by omega)
  · have hlen := digits_length_le b value (by omega) hv
    have hdig : ∀ d ∈ Nat.digits b value, d < b :=
      fun d hd => Nat.digits_lt_base (by omega) hd
    have hne : Nat.digits b value ≠ [] := Nat.digits_ne_nil_iff_ne_zero.2 h0
    refine ⟨(Nat.digits b value).reverse.map hex_char, ?_, ?_, ?_, ?_, fun h => absurd h h0,
      ?_, ?_, ?_⟩
    · unfold utoa
      rw [if_neg h0, hconv, utoa_push_run b (by omega) fuel value [] (by omega)]
      simp [utoa_pop_eq]
    · have : 0 < (Nat.digits b value).length := List.length_pos.2 hne
      simpa using this
    · simpa using hlen
    · intro hmem
      obtain ⟨d, hd, hd2⟩ := List.mem_map.1 hmem
      exact hex_char_ne_nul d (by have := hdig d (List.mem_reverse.1 hd); omega) hd2
    · intro _
      rw [List.head?_map, List.head?_reverse, List.getLast?_eq_getLast _ hne]
      intro hh
      simp only [Option.map_some', Option.some.injEq] at hh
      have hl := Nat.getLast_digit_ne_zero b h0
      have hlt : (Nat.digits b value).getLast hne < 16 := by
        have := hdig _ (List.getLast_mem hne)
        omega
      have e := digit_value_hex_char _ hlt
      rw [hh] at e
      exact hl (by rw [← e]; decide)
    · intro c hc
      obtain ⟨d, hd, rfl⟩ := List.mem_map.1 hc
      exact hex_char_mem_take b (by omega) d (hdig d (List.mem_reverse.1 hd))
    · rw [parse_digits_of_digits b _ (fun d hd => by have := hdig d hd; omega),
        Nat.ofDigits_digits]

/-! ## Number formatting -/

/-- C22: for a 32-bit value and a base from 2 to 16, `utoa` returns within
33 steps of fuel and writes a string `s` followed by NUL, where `s` has
between 1 and 32 characters, none of them NUL, is `"0"` when the value is 0
and does not start with `0` otherwise, uses only the first `base` characters
of `hex_chars`, and denotes the value when read most significant digit first
in that base. -/
theorem utoa_denotes_value (value : Nat) (base : Int) (fuel : Nat) (hv : value < 2 ^ 32)
    (hb : 2 ≤ base ∧ base ≤ 16) (hf : 33 ≤ fuel) :
    ∃ s,
      utoa value base fuel = some (s ++ [NUL]) ∧
      1 ≤ s.length ∧ s.length ≤ 32 ∧
      NUL ∉ s ∧
      (value = 0 → s = ['0']) ∧
      (value ≠ 0 → s.head? ≠ some '0') ∧
      (∀ c ∈ s, c ∈ hex_chars.take base.toNat) ∧
      parse_digits base.toNat s = value :=
  utoa_run value base fuel hv hb hf

theorem utoa_denotes_value_witness :
    ∃ s,
      utoa 0xBEEF 16 33 = some (s ++ [NUL]) ∧
      1 ≤ s.length ∧ s.length ≤ 32 ∧
      NUL ∉ s ∧
      (0xBEEF = 0 → s = ['0']) ∧
      (0xBEEF ≠ 0 → s.head? ≠ some '0') ∧
      (∀ c ∈ s, c ∈ hex_chars.take (16 : Int).toNat) ∧
      parse_digits (16 : Int).toNat s = 0xBEEF :=
  utoa_denotes_value 0xBEEF 16 33 (by decide) (by decide) (by decide)

theorem negate_int32 (value : Int) (hv : -2 ^ 31 ≤ value ∧ value < 2 ^ 31) (hneg : value < 0) :
    to_uint32 (to_int32 (-value)) = value.natAbs := by
  unfold to_uint32 to_int32
  omega

theorem to_uint32_nonneg (value : Int) (hv : value < 2 ^ 31) (hpos : 0 ≤ value) :
    to_uint32 value = value.natAbs := by
  unfold to_uint32
  omega

theorem natAbs_lt (value : Int) (hv : -2 ^ 31 ≤ value ∧ value < 2 ^ 31) :
    value.natAbs < 2 ^ 32 := by
  omega

/-- C27: for a signed 32-bit value, the minimum included, `itoa(value,
buffer, 10)` returns within 33 steps of fuel and writes `-` exactly when
`value < 0`, then a digit string `d` and NUL, where `d` consists of decimal
digits, is `"0"` for 0 and has no leading `0` otherwise, and denotes
`|value|` in base 10. -/
theorem itoa_decimal (value : Int) (fuel : Nat) (hv : -2 ^ 31 ≤ value ∧ value < 2 ^ 31)
    (hf : 33 ≤ fuel) :
    ∃ d,
      itoa value 10 fuel = some ((if value < 0 then ['-'] else []) ++ d ++ [NUL]) ∧
      1 ≤ d.length ∧
      (value = 0 → d = ['0']) ∧
      (value ≠ 0 → d.head? ≠ some '0') ∧
      (∀ c ∈ d, c ∈ hex_chars.take 10) ∧
      parse_digits 10 d = value.natAbs := by
  obtain ⟨d, h1, h2, _, _, h5, h6, h7, h8⟩ :=
    utoa_run value.natAbs 10 fuel (natAbs_lt value hv) (by decide) hf
  refine ⟨d, ?_, h2, fun h => h5 (by omega), fun h => h6 (by omega), h7, h8⟩
  unfold itoa
  by_cases hneg : value < 0
  · rw [if_pos ⟨hneg, rfl⟩, if_pos hneg, negate_int32 value hv hneg, h1]
    simp
  · rw [if_neg (fun h => hneg h.1), if_neg hneg,
      to_uint32_nonneg value hv.2 (by omega), h1]
    simp

theorem itoa_decimal_witness :
    ∃ d,
      itoa (-2147483648) 10 33 =
        some ((if (-2147483648 : Int) < 0 then ['-'] else []) ++ d ++ [NUL]) ∧
      1 ≤ d.length ∧
      ((-2147483648 : Int) = 0 → d = ['0']) ∧
      ((-2147483648 : Int) ≠ 0 → d.head? ≠ some '0') ∧
      (∀ c ∈ d, c ∈ hex_chars.take 10) ∧
      parse_digits 10 d = (-2147483648 : Int).natAbs :=
  itoa_decimal (-2147483648) 33 (by decide) (by decide)

theorem itoa_minimum : itoa (-2147483648) 10 33 = some ("-2147483648".toList ++ [NUL]) := by
  decide

theorem range_eight_reverse : (List.range 8).reverse = [7, 6, 5, 4, 3, 2, 1, 0] := by decide

theorem range_eight : List.range 8 = [0, 1, 2, 3, 4, 5, 6, 7] := by decide

theorem format_hex32_eq (value : Nat) (buffer : CharBuffer) :
    format_hex32 value buffer =
      (((((((((((buffer.store 0 '0').store 1 'x').store 9 (hex_char (value % 16))).store 8
        (hex_char (value / 16 % 16))).store 7 (hex_char (value / 16 ^ 2 % 16))).store 6
        (hex_char (value / 16 ^ 3 % 16))).store 5 (hex_char (value / 16 ^ 4 % 16))).store 4
        (hex_char (value / 16 ^ 5 % 16))).store 3 (hex_char (value / 16 ^ 6 % 16))).store 2
        (hex_char (value / 16 ^ 7 % 16))).store 10 NUL) := by
  unfold format_hex32
  rw [range_eight_reverse]
  simp only [List.foldl_cons, List.foldl_nil, land_low4, Nat.shiftRight_eq_div_pow,
    Nat.div_div_eq_div_mul, Nat.reducePow, Nat.reduceMul, Nat.reduceAdd]

theorem format_hex32_chars (value : Nat) (buffer : CharBuffer) :
    (List.range 11).map (format_hex32 value buffer) =
      ['0', 'x', hex_char (value / 16 ^ 7 % 16), hex_char (value / 16 ^ 6 % 16),
        hex_char (value / 16 ^ 5 % 16), hex_char (value / 16 ^ 4 % 16),
        hex_char (value / 16 ^ 3 % 16), hex_char (value / 16 ^ 2 % 16),
        hex_char (value / 16 % 16), hex_char (value % 16), NUL] := by
  rw [format_hex32_eq, show List.range 11 = [0, 1, 2, 3, 4, 5, 6, 7, 8, 9, 10] from by decide]
  simp [CharBuffer.store]

theorem format_hex32_parse (value : Nat) (buffer : CharBuffer) (hv : value < 2 ^ 32) :
    parse_digits 16 ((List.range 8).map (fun k => format_hex32 value buffer (2 + k))) =
      value := by
  rw [format_hex32_eq, range_eight]
  simp only [List.map_cons, List.map_nil, CharBuffer.store, parse_digits, List.foldl_cons,
    List.foldl_nil, Nat.reduceAdd, Nat.reduceEqDiff, if_true, if_false,
    digit_value_hex_char _ (Nat.mod_lt _ (by norm_num : 0 < 16)), Nat.reducePow]
  omega

/-- C23: for a 32-bit value, `format_hex32` writes `0`, `x`, then the eight
characters `hex_chars[n]` for the nibbles `n` of the value, most significant
first, then NUL, and nothing beyond these eleven characters; the eight digits
denote the value in base 16, so that two values with the same output are
equal. -/
theorem format_hex32_digits (value : Nat) (buffer : CharBuffer) (hv : value < 2 ^ 32) :
    (List.range 11).map (format_hex32 value buffer) =
      ['0', 'x', hex_char (value / 16 ^ 7 % 16), hex_char (value / 16 ^ 6 % 16),
        hex_char (value / 16 ^ 5 % 16), hex_char (value / 16 ^ 4 % 16),
        hex_char (value / 16 ^ 3 % 16), hex_char (value / 16 ^ 2 % 16),
        hex_char (value / 16 % 16), hex_char (value % 16), NUL] ∧
    (∀ k, k < 8 → format_hex32 value buffer (2 + k) ∈ hex_chars) ∧
    (∀ i, 11 ≤ i → format_hex32 value buffer i = buffer i) ∧
    parse_digits 16 ((List.range 8).map (fun k => format_hex32 value buffer (2 + k))) =
      value ∧
    (∀ (other : Nat) (buffer2 : CharBuffer), other < 2 ^ 32 →
      (∀ i, i < 11 → format_hex32 value buffer i = format_hex32 other buffer2 i) →
      value = other) := by
  refine ⟨format_hex32_chars value buffer, ?_, ?_, format_hex32_parse value buffer hv, ?_⟩
  · intro k hk
    have hm : ∀ d, d < 16 → hex_char d ∈ hex_chars := by decide
    rw [format_hex32_eq]
    interval_cases k <;> simp only [CharBuffer.store, Nat.reduceAdd, Nat.reduceEqDiff,
      if_true, if_false] <;> exact hm _ (Nat.mod_lt _ (by norm_num))
  · intro i hi
    rw [format_hex32_eq]
    simp only [CharBuffer.store]
    iterate 11 rw [if_neg (Nat.ne_of_gt (by omega))]
  · intro other buffer2 ho h
    have h1 := format_hex32_parse value buffer hv
    have h2 := format_hex32_parse other buffer2 ho
    have e : (List.range 8).map (fun k => format_hex32 value buffer (2 + k)) =
        (List.range 8).map (fun k => format_hex32 other buffer2 (2 + k)) := by
      apply List.map_congr_left
      intro k hk
      exact h (2 + k) (by have := List.mem_range.1 hk; omega)
    rw [← h1, e, h2]

theorem format_hex32_digits_witness :
    (List.range 11).map (format_hex32 0x00BEEF12 (fun _ => 'z')) =
      ['0', 'x', hex_char (0x00BEEF12 / 16 ^ 7 % 16), hex_char (0x00BEEF12 / 16 ^ 6 % 16),
        hex_char (0x00BEEF12 / 16 ^ 5 % 16), hex_char (0x00BEEF12 / 16 ^ 4 % 16),
        hex_char (0x00BEEF12 / 16 ^ 3 % 16), hex_char (0x00BEEF12 / 16 ^ 2 % 16),
        hex_char (0x00BEEF12 / 16 % 16), hex_char (0x00BEEF12 % 16), NUL] ∧
    (∀ k, k < 8 → format_hex32 0x00BEEF12 (fun _ => 'z') (2 + k) ∈ hex_chars) ∧
    (∀ i, 11 ≤ i → format_hex32 0x00BEEF12 (fun _ => 'z') i = (fun _ => 'z') i) ∧
    parse_digits 16
        ((List.range 8).map (fun k => format_hex32 0x00BEEF12 (fun _ => 'z') (2 + k))) =
      0x00BEEF12 ∧
    (∀ (other : Nat) (buffer2 : CharBuffer), other < 2 ^ 32 →
      (∀ i, i < 11 → format_hex32 0x00BEEF12 (fun _ => 'z') i = format_hex32 other buffer2 i) →
      0x00BEEF12 = other) :=
  format_hex32_digits 0x00BEEF12 (fun _ => 'z') (by decide)

theorem format_hex32_example :
    (List.range 11).map (format_hex32 0x00BEEF12 (fun _ => 'z')) =
      "0x00BEEF12".toList ++ [NUL] := by
  decide

/-! ## Hardware information -/

theorem query_property_fails (tag req_size : Nat) (response : Nat → Nat) (resp_count fuel : Nat)
    (m m1 : Machine)
    (h : mailbox_call MAILBOX_CH_PROP fuel
      (with_request (query_property_request tag req_size resp_count) m) = some (false, m1)) :
    query_property tag req_size response resp_count fuel m = some (false, response, m1) := by
  unfold query_property
  rw [h]

theorem query_clock_rate_fails (clock_id fuel : Nat) (m m1 : Machine)
    (h : mailbox_call MAILBOX_CH_PROP fuel
      (with_request (query_clock_rate_request clock_id) m) = some (false, m1)) :
    query_clock_rate clock_id fuel m = some (0, m1) := by
  unfold query_clock_rate
  rw [h]

theorem dead_gpu_call (n : Nat) (buf : Buffer) (written : List Nat)
    (req : Buffer → Buffer × Nat) :
    mailbox_call MAILBOX_CH_PROP 3 (with_request req (example_dead_gpu (n + 1) buf written)) =
      some (false,
        example_dead_gpu n ((req buf).1.store 1 0x80000001) (written ++ [0x00003008])) := by
  rw [MAILBOX_CH_PROP,
    mailbox_call_run 8 (with_request req (example_dead_gpu (n + 1) buf written)) []
      example_failure (List.replicate n example_failure) 3 rfl (by simp) (by decide)
      (by simp [with_request, example_dead_gpu, polls, example_failure])]
  have hw : (12288 &&& 4294967280 ||| 8 &&& 15) = 12296 := by decide
  simp [after_call, example_dead_gpu, with_request, seen, example_failure, Buffer.store, hw]

/-- C21: when its mailbox call fails, `query_clock_rate` returns 0; and when
each of the ten mailbox calls of `sysinfo_init` fails (seven property queries,
then the three clock queries, each on the state the previous one left),
`sysinfo_init` returns true with every field of the structure 0, whatever the
structure and the local array held before. -/
theorem queries_fail_silently (info : sysinfo_t) (resp : Nat → Nat) (fuel clock_id : Nat)
    (mc mc' m m1 m2 m3 m4 m5 m6 m7 m8 m9 m10 : Machine)
    (hclock : mailbox_call MAILBOX_CH_PROP fuel
      (with_request (query_clock_rate_request clock_id) mc) = some (false, mc'))
    (h1 : mailbox_call MAILBOX_CH_PROP fuel
      (with_request (query_property_request TAG_GET_FIRMWARE 4 1) m) = some (false, m1))
    (h2 : mailbox_call MAILBOX_CH_PROP fuel
      (with_request (query_property_request TAG_GET_BOARD_MODEL 4 1) m1) = some (false, m2))
    (h3 : mailbox_call MAILBOX_CH_PROP fuel
      (with_request (query_property_request TAG_GET_BOARD_REV 4 1) m2) = some (false, m3))
    (h4 : mailbox_call MAILBOX_CH_PROP fuel
      (with_request (query_property_request TAG_GET_BOARD_SERIAL 8 2) m3) = some (false, m4))
    (h5 : mailbox_call MAILBOX_CH_PROP fuel
      (with_request (query_property_request TAG_GET_ARM_MEMORY 8 2) m4) = some (false, m5))
    (h6 : mailbox_call MAILBOX_CH_PROP fuel
      (with_request (query_property_request TAG_GET_VC_MEMORY 8 2) m5) = some (false, m6))
    (h7 : mailbox_call MAILBOX_CH_PROP fuel
      (with_request (query_property_request TAG_GET_MAC_ADDR 6 2) m6) = some (false, m7))
    (h8 : mailbox_call MAILBOX_CH_PROP fuel
      (with_request (query_clock_rate_request CLOCK_ID_ARM) m7) = some (false, m8))
    (h9 : mailbox_call MAILBOX_CH_PROP fuel
      (with_request (query_clock_rate_request CLOCK_ID_CORE) m8) = some (false, m9))
    (h10 : mailbox_call MAILBOX_CH_PROP fuel
      (with_request (query_clock_rate_request CLOCK_ID_SDRAM) m9) = some (false, m10)) :
    query_clock_rate clock_id fuel mc = some (0, mc') ∧
    sysinfo_init info resp fuel m =
      some (true,
        { board_model := 0, board_revision := 0, serial_number := 0, firmware_version := 0,
          arm_mem_base := 0, arm_mem_size := 0, vc_mem_base := 0, vc_mem_size := 0,
          arm_clock := 0, core_clock := 0, sdram_clock := 0,
          mac_address := [0, 0, 0, 0, 0, 0] },
        m10) := by
  refine ⟨query_clock_rate_fails clock_id fuel mc mc' hclock, ?_⟩
  unfold sysinfo_init
  simp only [query_property_fails _ _ _ _ _ _ _ h1, query_property_fails _ _ _ _ _ _ _ h2,
    query_property_fails _ _ _ _ _ _ _ h3, query_property_fails _ _ _ _ _ _ _ h4,
    query_property_fails _ _ _ _ _ _ _ h5, query_property_fails _ _ _ _ _ _ _ h6,
    query_property_fails _ _ _ _ _ _ _ h7, query_clock_rate_fails _ _ _ _ h8,
    query_clock_rate_fails _ _ _ _ h9, query_clock_rate_fails _ _ _ _ h10,
    Option.bind_eq_bind, Option.some_bind, Option.pure_def, clear_info, Bool.false_eq_true,
    if_false]

theorem queries_fail_silently_witness :
    (∃ mc', query_clock_rate 4 3 (example_dead_gpu 1 (fun _ => 0) []) = some (0, mc')) ∧
    ∃ m',
      sysinfo_init
          { board_model := 9, board_revision := 9, serial_number := 9, firmware_version := 9,
            arm_mem_base := 9, arm_mem_size := 9, vc_mem_base := 9, vc_mem_size := 9,
            arm_clock := 9, core_clock := 9, sdram_clock := 9,
            mac_address := [9, 9, 9, 9, 9, 9] }
          (fun _ => 9) 3 (example_dead_gpu 10 (fun _ => 9) []) =
        some (true,
          { board_model := 0, board_revision := 0, serial_number := 0, firmware_version := 0,
            arm_mem_base := 0, arm_mem_size := 0, vc_mem_base := 0, vc_mem_size := 0,
            arm_clock := 0, core_clock := 0, sdram_clock := 0,
            mac_address := [0, 0, 0, 0, 0, 0] },
          m') :=
  have h :=
    queries_fail_silently
      { board_model := 9, board_revision := 9, serial_number := 9, firmware_version := 9,
        arm_mem_base := 9, arm_mem_size := 9, vc_mem_base := 9, vc_mem_size := 9,
        arm_clock := 9, core_clock := 9, sdram_clock := 9,
        mac_address := [9, 9, 9, 9, 9, 9] }
      (fun _ => 9) 3 4
      (example_dead_gpu 1 (fun _ => 0) []) _ (example_dead_gpu 10 (fun _ => 9) [])
      _ _ _ _ _ _ _ _ _ _
      (dead_gpu_call 0 _ _ _) (dead_gpu_call 9 _ _ _) (dead_gpu_call 8 _ _ _)
      (dead_gpu_call 7 _ _ _) (dead_gpu_call 6 _ _ _) (dead_gpu_call 5 _ _ _)
      (dead_gpu_call 4 _ _ _) (dead_gpu_call 3 _ _ _) (dead_gpu_call 2 _ _ _)
      (dead_gpu_call 1 _ _ _) (dead_gpu_call 0 _ _ _)
  ⟨⟨_, h.1⟩, ⟨_, h.2⟩⟩

/-- C24: for a revision with bit 23 clear `sysinfo_get_model_name` returns
"Unknown Raspberry Pi"; for a revision with bit 23 set it returns what the
switch gives for the type field `(revision >> 4) & 0xFF`, so two such
revisions with the same type field get the same name; type 0x12 gives
"Raspberry Pi Zero 2 W", and a type that has no case gives "Unknown
Raspberry Pi". -/
theorem model_name_by_type (revision : Nat) :
    (revision &&& 0x800000 = 0 → sysinfo_get_model_name revision = "Unknown Raspberry Pi") ∧
    (revision &&& 0x800000 ≠ 0 →
      sysinfo_get_model_name revision = model_name_switch ((revision >>> 4) &&& 0xFF)) ∧
    (∀ other, revision &&& 0x800000 ≠ 0 → other &&& 0x800000 ≠ 0 →
      (revision >>> 4) &&& 0xFF = (other >>> 4) &&& 0xFF →
      sysinfo_get_model_name revision = sysinfo_get_model_name other) ∧
    model_name_switch 0x12 = "Raspberry Pi Zero 2 W" ∧
    (∀ type, type ∉ known_types → model_name_switch type = "Unknown Raspberry Pi") := by
  refine ⟨?_, ?_, ?_, rfl, ?_⟩
  · intro h
    unfold sysinfo_get_model_name decode_board_type
    rw [if_neg (by simpa using h)]
    rfl
  · intro h
    unfold sysinfo_get_model_name decode_board_type
    rw [if_pos h]
  · intro other h1 h2 h3
    unfold sysinfo_get_model_name decode_board_type
    rw [if_pos h1, if_pos h2, h3]
  · intro type ht
    simp only [known_types, List.mem_cons, List.mem_singleton, List.not_mem_nil, or_false,
      not_or] at ht
    unfold model_name_switch
    split <;> first | rfl | (exfalso; omega)

/-! ## Send and receive together -/

theorem write_word_eq (channel address : Nat) (hch : channel ≤ 8) (haddr : address < 2 ^ 32) :
    (address &&& 0xFFFFFFF0) ||| (channel &&& 0xF) = address / 16 * 16 + channel := by
  have hc : channel &&& 0xF = channel := by
    rw [land_low4]; omega
  rw [hc, land_high28 address haddr]
  have := Nat.mul_add_lt_is_or (i := 4) (b := channel) (by norm_num; omega) (address / 16)
  rw [Nat.mul_comm]
  exact this.symm

/-- C26: for a channel in 0..8 and a 16-byte-aligned 32-bit address,
`mailbox_write(channel, address)` stores the word `w` = address | channel;
when `w` is the first word of the reply stream, `mailbox_read(channel)`
returns `address` and consumes that word only; and `mailbox_read(c)` for any
other channel `c` in 0..8 consumes the word without returning it: it goes on
as `mailbox_read(c)` on the rest of the stream. -/
theorem write_then_read (channel address : Nat) (m : Machine) (r : Reply)
    (rest : List Reply) (fuel : Nat)
    (hch : channel ≤ 8) (haddr : address < 2 ^ 32) (halign : address % 16 = 0)
    (hm : m.replies = r :: rest)
    (hword : r.word = (address &&& 0xFFFFFFF0) ||| (channel &&& 0xF))
    (hf : r.idle + 1 < fuel) :
    (∀ (sender : Machine) (fuelw : Nat), sender.full < fuelw →
      ∃ sender', mailbox_write channel address fuelw sender = some sender' ∧
        sender'.written = sender.written ++ [r.word]) ∧
    (∃ m', mailbox_read channel fuel m = some (address, m') ∧ m'.replies = rest) ∧
    (∀ c, c ≤ 8 → c ≠ channel →
      mailbox_read c fuel m =
        mailbox_read c (fuel - 1)
          { m with
            full := m.full - (r.idle + 1)
            replies := rest
            mailbox_buffer := r.dma m.mailbox_buffer }) := by
  have hw : r.word = address / 16 * 16 + channel := by
    rw [hword, write_word_eq channel address hch haddr]
  have hlow : r.word % 16 = channel := by omega
  have hlt : r.word < 2 ^ 32 := by omega
  refine ⟨?_, ?_, ?_⟩
  · intro sender fuelw hfw
    exact ⟨_, mailbox_write_run channel address fuelw sender hfw, by rw [hword]⟩
  · have hrun := mailbox_read_run channel [] m r rest fuel hm (by simp) hlow
      (by rw [List.nil_append, polls_cons]; simp [polls]; omega)
    have hval : r.word / 16 * 16 = address := by omega
    rw [land_high28 r.word hlt, hval] at hrun
    exact ⟨after_read m [] r rest, hrun, rfl⟩
  · intro c _ hne
    obtain ⟨n, rfl⟩ : ∃ n, fuel = n + 1 := ⟨fuel - 1, by omega⟩
    rw [mailbox_read, spin_empty n m r rest hm (by omega)]
    simp only [read_data_available m r rest hm, land_low4, hlow]
    rw [if_neg (fun h => hne h.symm)]
    rfl

theorem write_then_read_witness :
    (∀ (sender : Machine) (fuelw : Nat), sender.full < fuelw →
      ∃ sender', mailbox_write 8 0x00003000 fuelw sender = some sender' ∧
        sender'.written = sender.written ++ [0x00003008]) ∧
    (∃ m', mailbox_read 8 2 (example_dead_gpu 1 (fun _ => 0) []) = some (0x00003000, m') ∧
      m'.replies = []) ∧
    (∀ c, c ≤ 8 → c ≠ 8 →
      mailbox_read c 2 (example_dead_gpu 1 (fun _ => 0) []) =
        mailbox_read c (2 - 1)
          { example_dead_gpu 1 (fun _ => 0) [] with
            full := (example_dead_gpu 1 (fun _ => 0) []).full - (0 + 1)
            replies := []
            mailbox_buffer :=
              (fun b : Buffer => b.store 1 0x80000001)
                (example_dead_gpu 1 (fun _ => 0) []).mailbox_buffer }) :=
  write_then_read 8 0x00003000 (example_dead_gpu 1 (fun _ => 0) []) example_failure [] 2
    (by decide) (by decide) (by decide) rfl (by decide) (by decide)

/-! ## The descriptor in memory -/

theorem load32_lt (mem : Memory) (a : Nat) : load32 mem a < 2 ^ 32 := by
  unfold load32
  omega

theorem load32_store (mem : Memory) (a addr v : Nat) (h : addr < a ∨ a + 4 ≤ addr) :
    load32 (mem.store addr v) a = load32 mem a := by
  unfold load32 Memory.store
  rw [if_neg (by omega), if_neg (by omega), if_neg (by omega), if_neg (by omega)]

theorem fb_info_store (r : Ram) (addr v : Nat)
    (h : addr < r.fb_info_addr ∨ r.fb_info_addr + 32 ≤ addr) :
    (r.store addr v).fb_info = r.fb_info := by
  unfold Ram.fb_info Ram.store load64
  dsimp only
  iterate 7 rw [load32_store _ _ _ _ (by omega)]

theorem load32_store32 (mem : Memory) (a v : Nat) : load32 (store32 mem a v) a = v % 2 ^ 32 := by
  unfold load32 store32 Memory.store
  rw [if_neg (by omega), if_neg (by omega), if_neg (by omega), if_pos rfl,
    if_neg (by omega), if_neg (by omega), if_pos rfl, if_neg (by omega), if_pos rfl, if_pos rfl]
  omega

theorem load32_store32_other (mem : Memory) (a b v : Nat) (h : b + 4 ≤ a ∨ a + 4 ≤ b) :
    load32 (store32 mem b v) a = load32 mem a := by
  unfold store32
  rw [load32_store _ _ _ _ (by omega), load32_store _ _ _ _ (by omega),
    load32_store _ _ _ _ (by omega), load32_store _ _ _ _ (by omega)]

/-- A descriptor value with 32-bit fields and a 64-bit pointer, stored at
`a`, is the value of `fb_info` in a state with `&fb_info = a`. -/
theorem fb_info_store_fb_info (fb : framebuffer_t) (a : Nat) (mem : Memory) (log : List Nat)
    (hw : fb.width < 2 ^ 32) (hh : fb.height < 2 ^ 32) (hp : fb.pitch < 2 ^ 32)
    (hd : fb.depth < 2 ^ 32) (hb : fb.buffer < 2 ^ 64) (hs : fb.size < 2 ^ 32) :
    Ram.fb_info { fb_info_addr := a, bytes := store_fb_info fb a mem, log := log } = fb := by
  unfold Ram.fb_info store_fb_info store64 load64
  simp only
  have e : ∀ (m : Memory) (b c v : Nat), (b + 4 ≤ c ∨ c + 4 ≤ b) →
      load32 (store32 m b v) c = load32 m c := fun m b c v h => load32_store32_other m c b v h
  cases fb
  simp only [framebuffer_t.mk.injEq] at *
  refine ⟨?_, ?_, ?_, ?_, ?_, ?_⟩
  · rw [e _ _ _ _ (by omega), e _ _ _ _ (by omega), e _ _ _ _ (by omega), e _ _ _ _ (by omega),
      e _ _ _ _ (by omega), e _ _ _ _ (by omega), load32_store32]
    omega
  · rw [e _ _ _ _ (by omega), e _ _ _ _ (by omega), e _ _ _ _ (by omega), e _ _ _ _ (by omega),
      e _ _ _ _ (by omega), load32_store32]
    omega
  · rw [e _ _ _ _ (by omega), e _ _ _ _ (by omega), e _ _ _ _ (by omega), e _ _ _ _ (by omega),
      load32_store32]
    omega
  · rw [e _ _ _ _ (by omega), e _ _ _ _ (by omega), e _ _ _ _ (by omega), load32_store32]
    omega
  · rw [e _ _ _ _ (by omega), e _ _ _ _ (by omega), load32_store32,
      e _ _ _ _ (by omega), load32_store32]
    omega
  · rw [load32_store32]
    omega

theorem allocated_well_formed (r : Ram) (h : allocated r.fb_info) : well_formed r.fb_info :=
  ⟨h.1, h.2.1, lt_of_le_of_lt h.2.2 (load32_lt _ _)⟩

/-- On a well-formed descriptor the bytes of a pixel inside the bounds are at
`buffer + o + k` with `o = y * pitch + x * 4`, among the `pitch * height`
bytes of the rows. -/
theorem pixel_byte_inside (fb : framebuffer_t) (hw : well_formed fb) (x y k : Nat)
    (hx : x < fb.width) (hy : y < fb.height) (hk : k < 4) :
    pixel_byte fb x y k = fb.buffer + (y * fb.pitch + x * 4 + k) ∧
    y * fb.pitch + x * 4 + k < fb.pitch * fb.height := by
  have hb := pixel_bound fb hw x y hx hy
  have hlt := hw.2.2
  have hd := hw.1
  unfold pixel_byte
  rw [hd]
  constructor
  · omega
  · omega

theorem out_of_reach_of_steady (r : Ram) (h : r.steady) : r.out_of_reach := by
  intro x y k hx hy hk
  rcases h with h | h | ⟨hw, ha⟩
  · omega
  · omega
  · have hp := pixel_byte_inside r.fb_info hw x y k hx hy hk
    unfold Ram.apart at ha
    omega

theorem steady_of_allocated (r : Ram) (h : allocated r.fb_info) (ha : r.apart r.fb_info.size) :
    r.steady := by
  refine Or.inr (Or.inr ⟨allocated_well_formed r h, ?_⟩)
  have hs := h.2.2
  unfold Ram.apart at ha ⊢
  omega

theorem draws_refl (r : Ram) : r.draws r :=
  ⟨rfl, rfl, [], by simp, by simp, fun _ _ => rfl⟩

theorem draws_trans (r t u : Ram) (h1 : r.draws t) (h2 : t.draws u) : r.draws u := by
  obtain ⟨a1, f1, new1, s1, b1, m1⟩ := h1
  obtain ⟨a2, f2, new2, s2, b2, m2⟩ := h2
  refine ⟨a2.trans a1, f2.trans f1, new1 ++ new2, by rw [s2, s1, List.append_assoc], ?_, ?_⟩
  · intro a ha
    rcases List.mem_append.1 ha with h | h
    · exact b1 a h
    · rw [← f1]; exact b2 a h
  · intro addr ha
    rw [List.mem_append, not_or] at ha
    rw [m2 addr ha.2, m1 addr ha.1]

theorem out_of_reach_of_draws (r t : Ram) (hr : r.out_of_reach) (h : r.draws t) :
    t.out_of_reach := by
  unfold Ram.out_of_reach at hr ⊢
  rw [h.1, h.2.1]
  exact hr

theorem ram_put_pixel_outside_bounds (x y : Nat) (c : color_t) (r : Ram)
    (h : r.fb_info.width ≤ x ∨ r.fb_info.height ≤ y) : Ram.fb_put_pixel x y c r = r := by
  unfold Ram.fb_put_pixel
  rw [if_pos h]

/-- While no pixel store lands on the descriptor, `fb_put_pixel` for a pixel
inside the bounds is four stores, to the bytes 0..3 of the pixel, and the
descriptor is the same after them. -/
theorem put_pixel_stores (x y : Nat) (c : color_t) (r : Ram) (h : r.out_of_reach)
    (hx : x < r.fb_info.width) (hy : y < r.fb_info.height) :
    Ram.fb_put_pixel x y c r =
      (((r.store (pixel_byte r.fb_info x y 0) c.b).store (pixel_byte r.fb_info x y 1) c.g).store
        (pixel_byte r.fb_info x y 2) c.r).store (pixel_byte r.fb_info x y 3) c.a ∧
    (Ram.fb_put_pixel x y c r).fb_info = r.fb_info := by
  have f1 := fb_info_store r (pixel_byte r.fb_info x y 0) c.b (h x y 0 hx hy (by omega))
  have f2 := fb_info_store (r.store (pixel_byte r.fb_info x y 0) c.b)
    (pixel_byte r.fb_info x y 1) c.g (h x y 1 hx hy (by omega))
  rw [f1] at f2
  have f3 := fb_info_store
    ((r.store (pixel_byte r.fb_info x y 0) c.b).store (pixel_byte r.fb_info x y 1) c.g)
    (pixel_byte r.fb_info x y 2) c.r (h x y 2 hx hy (by omega))
  rw [f2] at f3
  have f4 := fb_info_store
    (((r.store (pixel_byte r.fb_info x y 0) c.b).store (pixel_byte r.fb_info x y 1) c.g).store
      (pixel_byte r.fb_info x y 2) c.r)
    (pixel_byte r.fb_info x y 3) c.a (h x y 3 hx hy (by omega))
  rw [f3] at f4
  have key : Ram.fb_put_pixel x y c r =
      (((r.store (pixel_byte r.fb_info x y 0) c.b).store (pixel_byte r.fb_info x y 1) c.g).store
        (pixel_byte r.fb_info x y 2) c.r).store (pixel_byte r.fb_info x y 3) c.a := by
    unfold Ram.fb_put_pixel
    rw [if_neg (by omega)]
    unfold pixel_byte at f1 f2 f3 ⊢
    simp only [f1, f2, f3]
  exact ⟨key, by rw [key]; exact f4⟩

theorem put_pixel_draws (x y : Nat) (c : color_t) (r : Ram) (h : r.out_of_reach) :
    r.draws (Ram.fb_put_pixel x y c r) := by
  by_cases hb : x < r.fb_info.width ∧ y < r.fb_info.height
  · obtain ⟨key, hfb⟩ := put_pixel_stores x y c r h hb.1 hb.2
    refine ⟨by rw [key]; rfl, hfb,
      [pixel_byte r.fb_info x y 0, pixel_byte r.fb_info x y 1, pixel_byte r.fb_info x y 2,
       pixel_byte r.fb_info x y 3], ?_, ?_, ?_⟩
    · rw [key]
      simp [Ram.store]
    · intro a ha
      simp only [List.mem_cons, List.mem_singleton, List.not_mem_nil, or_false] at ha
      rcases ha with rfl | rfl | rfl | rfl
      · exact ⟨x, y, 0, hb.1, hb.2, by omega, rfl⟩
      · exact ⟨x, y, 1, hb.1, hb.2, by omega, rfl⟩
      · exact ⟨x, y, 2, hb.1, hb.2, by omega, rfl⟩
      · exact ⟨x, y, 3, hb.1, hb.2, by omega, rfl⟩
    · intro addr ha
      simp only [List.mem_cons, List.mem_singleton, List.not_mem_nil, or_false, not_or] at ha
      rw [key]
      simp only [Ram.store, Memory.store]
      rw [if_neg ha.2.2.2, if_neg ha.2.2.1, if_neg ha.2.1, if_neg ha.1]
  · rw [ram_put_pixel_outside_bounds x y c r (by omega)]
    exact draws_refl r

theorem foldl_draws {α : Type} (f : Ram → α → Ram)
    (hf : ∀ (t : Ram) (a : α), t.out_of_reach → t.draws (f t a)) (l : List α) :
    ∀ r : Ram, r.out_of_reach → r.draws (l.foldl f r) := by
  induction l with
  | nil => intro r _; exact draws_refl r
  | cons a l ih =>
    intro r hr
    rw [List.foldl_cons]
    have h1 := hf r a hr
    exact draws_trans _ _ _ h1 (ih _ (out_of_reach_of_draws _ _ hr h1))

theorem draw_char_draws (font8x8 : Nat → Nat → Nat) (x y : Nat) (c : Int)
    (fg bg : color_t) (r : Ram) (h : r.out_of_reach) :
    r.draws (Ram.fb_draw_char font8x8 x y c fg bg r) := by
  unfold Ram.fb_draw_char
  apply foldl_draws _ _ _ r h
  intro t row ht
  apply foldl_draws _ _ _ t ht
  intro u col hu
  split <;> exact put_pixel_draws _ _ _ u hu

theorem draw_string_loop_draws (font8x8 : Nat → Nat → Nat) (orig_x : Nat)
    (fg bg : color_t) (str : List Int) : ∀ (x y : Nat) (r : Ram), r.out_of_reach →
    r.draws (Ram.fb_draw_string_loop font8x8 orig_x fg bg x y str r) := by
  induction str with
  | nil => intro x y r _; exact draws_refl r
  | cons c str ih =>
    intro x y r hr
    rw [Ram.fb_draw_string_loop]
    by_cases h0 : c = 0
    · rw [if_pos h0]; exact draws_refl r
    · rw [if_neg h0]
      by_cases h10 : c = 10
      · rw [if_pos h10]; exact ih _ _ r hr
      · rw [if_neg h10]
        have h1 := draw_char_draws font8x8 x y c fg bg r hr
        exact draws_trans _ _ _ h1 (ih _ _ _ (out_of_reach_of_draws _ _ hr h1))

theorem fill_cols_returns (x w py : Nat) (color : color_t) (n : Nat) :
    ∀ (fuel px : Nat) (r : Ram), r.out_of_reach → n = r.fb_info.width - px → n < fuel →
      ∃ t, Ram.fb_fill_rect_cols x w py color fuel px r = some t ∧ r.draws t := by
  induction n with
  | zero =>
    intro fuel px r _ hn hf
    obtain ⟨f, rfl⟩ : ∃ f, fuel = f + 1 := ⟨fuel - 1, by omega⟩
    rw [Ram.fb_fill_rect_cols, if_neg (by omega)]
    exact ⟨r, rfl, draws_refl r⟩
  | succ n ih =>
    intro fuel px r hr hn hf
    obtain ⟨f, rfl⟩ : ∃ f, fuel = f + 1 := ⟨fuel - 1, by omega⟩
    rw [Ram.fb_fill_rect_cols]
    by_cases hc : px < (x + w) % 2 ^ 32 ∧ px < r.fb_info.width
    · rw [if_pos hc]
      have hlt : (x + w) % 2 ^ 32 < 2 ^ 32 := Nat.mod_lt _ (by norm_num)
      have hpx : (px + 1) % 2 ^ 32 = px + 1 := Nat.mod_eq_of_lt (by omega)
      have h1 := put_pixel_draws px py color r hr
      obtain ⟨t, ht, h2⟩ := ih f (px + 1) _ (out_of_reach_of_draws _ _ hr h1)
        (by rw [h1.2.1]; omega) (by omega)
      rw [hpx]
      exact ⟨t, ht, draws_trans _ _ _ h1 h2⟩
    · rw [if_neg hc]
      exact ⟨r, rfl, draws_refl r⟩

theorem fill_rows_returns (x y w h : Nat) (color : color_t) (n : Nat) :
    ∀ (fuel py : Nat) (r : Ram), r.out_of_reach → n = r.fb_info.height - py →
      n + r.fb_info.width < fuel →
      ∃ t, Ram.fb_fill_rect_rows x y w h color fuel py r = some t ∧ r.draws t := by
  induction n with
  | zero =>
    intro fuel py r _ hn hf
    obtain ⟨f, rfl⟩ : ∃ f, fuel = f + 1 := ⟨fuel - 1, by omega⟩
    rw [Ram.fb_fill_rect_rows, if_neg (by omega)]
    exact ⟨r, rfl, draws_refl r⟩
  | succ n ih =>
    intro fuel py r hr hn hf
    obtain ⟨f, rfl⟩ : ∃ f, fuel = f + 1 := ⟨fuel - 1, by omega⟩
    rw [Ram.fb_fill_rect_rows]
    by_cases hc : py < (y + h) % 2 ^ 32 ∧ py < r.fb_info.height
    · rw [if_pos hc]
      have hlt : (y + h) % 2 ^ 32 < 2 ^ 32 := Nat.mod_lt _ (by norm_num)
      have hpy : (py + 1) % 2 ^ 32 = py + 1 := Nat.mod_eq_of_lt (by omega)
      obtain ⟨r1, hr1, h1⟩ := fill_cols_returns x w py color _ f x r hr rfl (by omega)
      obtain ⟨t, ht, h2⟩ := ih f (py + 1) r1 (out_of_reach_of_draws _ _ hr h1)
        (by rw [h1.2.1]; omega) (by rw [h1.2.1]; omega)
      rw [hr1, hpy]
      exact ⟨t, ht, draws_trans _ _ _ h1 h2⟩
    · rw [if_neg hc]
      exact ⟨r, rfl, draws_refl r⟩

theorem fill_rect_returns (x y w h : Nat) (color : color_t) (fuel : Nat) (r : Ram)
    (hr : r.out_of_reach) (hf : r.fb_info.width + r.fb_info.height < fuel) :
    ∃ t, Ram.fb_fill_rect x y w h color fuel r = some t ∧ r.draws t :=
  fill_rows_returns x y w h color _ fuel y r hr rfl (by omega)

theorem writes_inside_of_draws (n : Nat) (r t : Ram) (hw : well_formed r.fb_info)
    (hn : r.fb_info.pitch * r.fb_info.height ≤ n) (h : r.draws t) :
    Ram.writes_inside n r t := by
  obtain ⟨a1, f1, new1, s1, b1, m1⟩ := h
  refine ⟨a1, f1, new1, s1, ?_, m1⟩
  intro a ha
  obtain ⟨x, y, k, hx, hy, hk, rfl⟩ := b1 a ha
  have hp := pixel_byte_inside r.fb_info hw x y k hx hy hk
  omega

/-! ## `Ram` and `Screen` agree while the descriptor is out of reach -/

theorem screen_ext (s t : Screen) (h1 : s.fb_info = t.fb_info) (h2 : s.memory = t.memory) :
    s = t := by
  cases s
  cases t
  simp only [Screen.mk.injEq]
  exact ⟨h1, h2⟩

theorem put_pixel_out_of_reach (x y : Nat) (c : color_t) (r : Ram) (h : r.out_of_reach) :
    (Ram.fb_put_pixel x y c r).out_of_reach :=
  out_of_reach_of_draws _ _ h (put_pixel_draws x y c r h)

theorem put_pixel_on_screen (x y : Nat) (c : color_t) (r : Ram) (h : r.out_of_reach) :
    (Ram.fb_put_pixel x y c r).screen = fb_put_pixel x y c r.screen := by
  have hsc : r.screen.fb_info = r.fb_info := rfl
  by_cases hb : x < r.fb_info.width ∧ y < r.fb_info.height
  · obtain ⟨key, hfb⟩ := put_pixel_stores x y c r h hb.1 hb.2
    apply screen_ext
    · rw [put_pixel_fb_info]
      exact hfb
    · show (Ram.fb_put_pixel x y c r).bytes = _
      rw [key]
      unfold fb_put_pixel
      rw [if_neg (by rw [hsc]; omega)]
      rfl
  · rw [ram_put_pixel_outside_bounds x y c r (by omega)]
    exact (put_pixel_outside_bounds x y c r.screen (by rw [hsc]; omega)).symm

theorem foldl_on_screen {α : Type} (F : Ram → α → Ram) (f : Screen → α → Screen)
    (hF : ∀ (t : Ram) (a : α),
      t.out_of_reach → (F t a).out_of_reach ∧ (F t a).screen = f t.screen a)
    (l : List α) :
    ∀ r : Ram, r.out_of_reach →
      (l.foldl F r).out_of_reach ∧ (l.foldl F r).screen = l.foldl f r.screen := by
  induction l with
  | nil => intro r hr; exact ⟨hr, rfl⟩
  | cons a l ih =>
    intro r hr
    rw [List.foldl_cons, List.foldl_cons, ← (hF r a hr).2]
    exact ih _ (hF r a hr).1

theorem draw_char_on_screen (font8x8 : Nat → Nat → Nat) (x y : Nat) (c : Int)
    (fg bg : color_t) (r : Ram) (h : r.out_of_reach) :
    (Ram.fb_draw_char font8x8 x y c fg bg r).out_of_reach ∧
    (Ram.fb_draw_char font8x8 x y c fg bg r).screen =
      fb_draw_char font8x8 x y c fg bg r.screen := by
  unfold Ram.fb_draw_char fb_draw_char
  apply foldl_on_screen _ _ _ _ r h
  intro t row ht
  apply foldl_on_screen _ _ _ _ t ht
  intro u col hu
  by_cases hbit : font8x8 (glyph_index c).toNat row &&& (0x80 >>> col) ≠ 0
  · simp only [if_pos hbit]
    exact ⟨put_pixel_out_of_reach _ _ _ u hu, put_pixel_on_screen _ _ _ u hu⟩
  · simp only [if_neg hbit]
    exact ⟨put_pixel_out_of_reach _ _ _ u hu, put_pixel_on_screen _ _ _ u hu⟩

theorem draw_string_loop_on_screen (font8x8 : Nat → Nat → Nat) (orig_x : Nat)
    (fg bg : color_t) (str : List Int) : ∀ (x y : Nat) (r : Ram), r.out_of_reach →
    (Ram.fb_draw_string_loop font8x8 orig_x fg bg x y str r).screen =
      fb_draw_string_loop font8x8 orig_x fg bg x y str r.screen := by
  induction str with
  | nil => intro x y r _; rfl
  | cons c str ih =>
    intro x y r hr
    rw [Ram.fb_draw_string_loop, fb_draw_string_loop]
    by_cases h0 : c = 0
    · rw [if_pos h0, if_pos h0]
    · rw [if_neg h0, if_neg h0]
      by_cases h10 : c = 10
      · rw [if_pos h10, if_pos h10]; exact ih _ _ r hr
      · rw [if_neg h10, if_neg h10, ← (draw_char_on_screen font8x8 x y c fg bg r hr).2]
        exact ih _ _ _ (draw_char_on_screen font8x8 x y c fg bg r hr).1

theorem fill_cols_on_screen (x w py : Nat) (color : color_t) (fuel : Nat) :
    ∀ (px : Nat) (r : Ram), r.out_of_reach →
      (∀ t, Ram.fb_fill_rect_cols x w py color fuel px r = some t → t.out_of_reach) ∧
      (Ram.fb_fill_rect_cols x w py color fuel px r).map Ram.screen =
        fb_fill_rect_cols x w py color fuel px r.screen := by
  induction fuel with
  | zero => intro px r _; exact ⟨fun t ht => by simp [Ram.fb_fill_rect_cols] at ht, rfl⟩
  | succ n ih =>
    intro px r hr
    rw [Ram.fb_fill_rect_cols, fb_fill_rect_cols]
    by_cases hc : px < (x + w) % 2 ^ 32 ∧ px < r.fb_info.width
    · rw [if_pos hc, if_pos (by exact hc), ← put_pixel_on_screen px py color r hr]
      exact ih _ _ (put_pixel_out_of_reach px py color r hr)
    · rw [if_neg hc, if_neg (by exact hc)]
      exact ⟨fun t ht => by cases ht; exact hr, rfl⟩

theorem fill_rows_on_screen (x y w h : Nat) (color : color_t) (fuel : Nat) :
    ∀ (py : Nat) (r : Ram), r.out_of_reach →
      (Ram.fb_fill_rect_rows x y w h color fuel py r).map Ram.screen =
        fb_fill_rect_rows x y w h color fuel py r.screen := by
  induction fuel with
  | zero => intro py r _; rfl
  | succ n ih =>
    intro py r hr
    rw [Ram.fb_fill_rect_rows, fb_fill_rect_rows]
    by_cases hc : py < (y + h) % 2 ^ 32 ∧ py < r.fb_info.height
    · rw [if_pos hc, if_pos (by exact hc)]
      obtain ⟨hst, hcols⟩ := fill_cols_on_screen x w py color n x r hr
      rw [← hcols]
      cases hcol : Ram.fb_fill_rect_cols x w py color n x r with
      | none => rfl
      | some r1 => exact ih _ r1 (hst r1 hcol)
    · rw [if_neg hc, if_neg (by exact hc)]
      rfl

/-- While no pixel store lands on the descriptor, each drawing function on
`Ram` does to the descriptor value and the bytes what the function on
`Screen` does. -/
theorem drawing_on_screen (r : Ram) (hr : r.out_of_reach) : agrees_with_screen r :=
  ⟨fun x y color => put_pixel_on_screen x y color r hr,
    fun x y w h color fuel => fill_rows_on_screen x y w h color fuel y r hr,
    fun color fuel => fill_rows_on_screen _ _ _ _ color fuel 0 r hr,
    fun font8x8 x y c fg bg => (draw_char_on_screen font8x8 x y c fg bg r hr).2,
    fun font8x8 x y str fg bg => draw_string_loop_on_screen font8x8 x fg bg str x y r hr⟩

/-! ## What can change the descriptor, and where pixels go -/

/-- C11, as stated, fails: in `aliased_ram`, where
`fb_info.buffer` is `&fb_info`, the descriptor has width 4, and after
`fb_put_pixel(0, 0, color)` with the color bytes (b, g, r, a) = (3, 2, 1, 4)
its width is 0x04010203: the four stores of the pixel went to the bytes of
`fb_info.width`. -/
theorem put_pixel_changes_aliased_descriptor :
    aliased_ram.fb_info.buffer = aliased_ram.fb_info_addr ∧
    aliased_ram.fb_info.width = 4 ∧
    (Ram.fb_put_pixel 0 0 example_color aliased_ram).fb_info.width = 0x04010203 ∧
    (Ram.fb_put_pixel 0 0 example_color aliased_ram).fb_info ≠ aliased_ram.fb_info := by
  decide

/-- C11, amended: an `fb_init` that returns failure leaves the descriptor as it
was. On a state in which no pixel store lands on the descriptor (no pixel inside
the bounds has one of its four bytes among the bytes of `fb_info`),
`fb_put_pixel`, `fb_draw_char` and `fb_draw_string` return a state with the
same descriptor whatever their arguments, and so do `fb_fill_rect` and
`fb_clear`, which return once the fuel covers `width + height` iterations;
each then does to the descriptor value and the bytes what it does on `Screen`.
No pixel store lands on the descriptor when `width` or `height` is 0, and
when the descriptor is well formed and its `pitch * height` row bytes do not
overlap `fb_info`. -/
theorem descriptor_changes_only_by_init (width height depth fuel : Nat) (m m' : Machine)
    (hfail : fb_init width height depth fuel m = some (false, m'))
    (r : Ram) (hr : r.out_of_reach) :
    m'.fb_info = m.fb_info ∧
    (∀ x y color, (Ram.fb_put_pixel x y color r).fb_info = r.fb_info) ∧
    (∀ x y w h color fuel, r.fb_info.width + r.fb_info.height < fuel →
      ∃ t, Ram.fb_fill_rect x y w h color fuel r = some t ∧ t.fb_info = r.fb_info) ∧
    (∀ color fuel, r.fb_info.width + r.fb_info.height < fuel →
      ∃ t, Ram.fb_clear color fuel r = some t ∧ t.fb_info = r.fb_info) ∧
    (∀ font8x8 x y c fg bg, (Ram.fb_draw_char font8x8 x y c fg bg r).fb_info = r.fb_info) ∧
    (∀ font8x8 x y str fg bg,
      (Ram.fb_draw_string font8x8 x y str fg bg r).fb_info = r.fb_info) ∧
    agrees_with_screen r ∧
    (∀ q : Ram, q.steady → q.out_of_reach) := by
  refine ⟨fb_init_failure_fb_info width height depth fuel m m' hfail,
    fun x y color => (put_pixel_draws x y color r hr).2.1, ?_, ?_,
    fun font8x8 x y c fg bg => (draw_char_draws font8x8 x y c fg bg r hr).2.1,
    fun font8x8 x y str fg bg => (draw_string_loop_draws font8x8 x fg bg str x y r hr).2.1,
    drawing_on_screen r hr, out_of_reach_of_steady⟩
  · intro x y w h color fuel hf
    obtain ⟨t, ht, hin⟩ := fill_rect_returns x y w h color fuel r hr hf
    exact ⟨t, ht, hin.2.1⟩
  · intro color fuel hf
    obtain ⟨t, ht, hin⟩ := fill_rect_returns 0 0 r.fb_info.width r.fb_info.height color fuel r
      hr hf
    exact ⟨t, ht, hin.2.1⟩

theorem descriptor_changes_only_by_init_witness :
    (after_call 8 (fb_request_machine 1280 720 32 example_ready_gpu) []
        { idle := 3
          word := 0x00003008
          dma := fun b => (((b.store 1 0x80000000).store 24 0).store 25 0).store 29 0 }
        []).fb_info = example_fb ∧
    (∀ x y color, (Ram.fb_put_pixel x y color example_ram).fb_info = example_ram.fb_info) ∧
    (∀ x y w h color fuel, example_ram.fb_info.width + example_ram.fb_info.height < fuel →
      ∃ t, Ram.fb_fill_rect x y w h color fuel example_ram = some t ∧
        t.fb_info = example_ram.fb_info) ∧
    (∀ color fuel, example_ram.fb_info.width + example_ram.fb_info.height < fuel →
      ∃ t, Ram.fb_clear color fuel example_ram = some t ∧ t.fb_info = example_ram.fb_info) ∧
    (∀ font8x8 x y c fg bg,
      (Ram.fb_draw_char font8x8 x y c fg bg example_ram).fb_info = example_ram.fb_info) ∧
    (∀ font8x8 x y str fg bg,
      (Ram.fb_draw_string font8x8 x y str fg bg example_ram).fb_info = example_ram.fb_info) ∧
    agrees_with_screen example_ram ∧
    (∀ q : Ram, q.steady → q.out_of_reach) :=
  descriptor_changes_only_by_init 1280 720 32 7 example_ready_gpu
    (after_call 8 (fb_request_machine 1280 720 32 example_ready_gpu) []
      { idle := 3
        word := 0x00003008
        dma := fun b => (((b.store 1 0x80000000).store 24 0).store 25 0).store 29 0 }
      [])
    (by
      rw [fb_init_run 1280 720 32 example_ready_gpu []
        { idle := 3
          word := 0x00003008
          dma := fun b => (((b.store 1 0x80000000).store 24 0).store 25 0).store 29 0 }
        [] 7 rfl (by simp) (by decide) (by decide)]
      exact if_neg (by decide))
    example_ram (out_of_reach_of_steady example_ram (by decide))

/-- C25, as stated, fails: the descriptor of `aliased_ram`
has depth 32, `pitch >= 4 * width` and `pitch * height <= size`, and
`fb_clear(COLOR_BLACK)` returns after a store at the offset 0xFF000000 from
`buffer`, which is not below `size`: the first four pixels overwrite `width`,
`height`, `pitch` and `depth`, and the next pixel is placed with the new
values. -/
theorem fb_clear_escapes_aliased_buffer :
    allocated aliased_ram.fb_info ∧
    ∃ t, Ram.fb_clear COLOR_BLACK 7 aliased_ram = some t ∧
      aliased_ram.fb_info.buffer + 0xFF000000 ∈ t.log ∧
      ¬ 0xFF000000 < aliased_ram.fb_info.size ∧
      t.fb_info.pitch = 0xFF000000 ∧
      ¬ Ram.writes_inside aliased_ram.fb_info.size aliased_ram t := by
  refine ⟨by decide, _, rfl, by decide, by decide, by decide, ?_⟩
  intro h
  exact absurd h.2.1 (by decide)

/-- C25, amended: on a descriptor with depth 32, `pitch >= 4 * width` and
`pitch * height <= size` whose `size` buffer bytes do not overlap the bytes of
`fb_info`: for `x < width` and `y < height` the offset `y * pitch + x * 4`
does not wrap in 32 bits, `offset + 3` is below `size`, and the stores of
`fb_put_pixel` are the four at `buffer + offset + k`, `k` in 0..3; and
`fb_put_pixel`, `fb_fill_rect`, `fb_clear`, `fb_draw_char` and
`fb_draw_string`, whatever their arguments, store only to the `size` bytes at
`fb_info.buffer`, change no other byte and leave the descriptor as it was
(`fb_fill_rect` and `fb_clear` return once the fuel covers `width + height`
iterations); each does to the descriptor value and the bytes what it does on
`Screen`. -/
theorem drawing_stays_inside (r : Ram) (hfit : allocated r.fb_info)
    (hapart : r.apart r.fb_info.size) :
    (∀ x y color, x < r.fb_info.width → y < r.fb_info.height →
      y * r.fb_info.pitch + x * 4 + 3 < 2 ^ 32 ∧
      pixel_offset r.fb_info x y = y * r.fb_info.pitch + x * 4 ∧
      pixel_offset r.fb_info x y + 3 < r.fb_info.size ∧
      (Ram.fb_put_pixel x y color r).log =
        r.log ++
          (List.range 4).map (fun k => r.fb_info.buffer + (pixel_offset r.fb_info x y + k))) ∧
    (∀ x y color, Ram.writes_inside r.fb_info.size r (Ram.fb_put_pixel x y color r)) ∧
    (∀ x y w h color fuel, r.fb_info.width + r.fb_info.height < fuel →
      ∃ t, Ram.fb_fill_rect x y w h color fuel r = some t ∧
        Ram.writes_inside r.fb_info.size r t) ∧
    (∀ color fuel, r.fb_info.width + r.fb_info.height < fuel →
      ∃ t, Ram.fb_clear color fuel r = some t ∧ Ram.writes_inside r.fb_info.size r t) ∧
    (∀ font8x8 x y c fg bg,
      Ram.writes_inside r.fb_info.size r (Ram.fb_draw_char font8x8 x y c fg bg r)) ∧
    (∀ font8x8 x y str fg bg,
      Ram.writes_inside r.fb_info.size r (Ram.fb_draw_string font8x8 x y str fg bg r)) ∧
    agrees_with_screen r := by
  have hw := allocated_well_formed r hfit
  have hr := out_of_reach_of_steady r (steady_of_allocated r hfit hapart)
  have hs := hfit.2.2
  refine ⟨?_,
    fun x y color => writes_inside_of_draws _ _ _ hw hs (put_pixel_draws x y color r hr),
    ?_, ?_,
    fun font8x8 x y c fg bg =>
      writes_inside_of_draws _ _ _ hw hs (draw_char_draws font8x8 x y c fg bg r hr),
    fun font8x8 x y str fg bg =>
      writes_inside_of_draws _ _ _ hw hs
        (draw_string_loop_draws font8x8 x fg bg str x y r hr),
    drawing_on_screen r hr⟩
  · intro x y color hx hy
    have hb := pixel_bound r.fb_info hw x y hx hy
    have h32 := hw.2.2
    have ho : pixel_offset r.fb_info x y = y * r.fb_info.pitch + x * 4 :=
      Nat.mod_eq_of_lt (by omega)
    refine ⟨by omega, ho, by omega, ?_⟩
    rw [(put_pixel_stores x y color r hr hx hy).1, ho,
      (pixel_byte_inside r.fb_info hw x y 0 hx hy (by omega)).1,
      (pixel_byte_inside r.fb_info hw x y 1 hx hy (by omega)).1,
      (pixel_byte_inside r.fb_info hw x y 2 hx hy (by omega)).1,
      (pixel_byte_inside r.fb_info hw x y 3 hx hy (by omega)).1]
    simp [Ram.store, List.range_succ]
  · intro x y w h color fuel hf
    obtain ⟨t, ht, hin⟩ := fill_rect_returns x y w h color fuel r hr hf
    exact ⟨t, ht, writes_inside_of_draws _ _ _ hw hs hin⟩
  · intro color fuel hf
    obtain ⟨t, ht, hin⟩ := fill_rect_returns 0 0 r.fb_info.width r.fb_info.height color fuel r
      hr hf
    exact ⟨t, ht, writes_inside_of_draws _ _ _ hw hs hin⟩

theorem drawing_stays_inside_witness :
    (∀ x y color, x < example_ram.fb_info.width → y < example_ram.fb_info.height →
      y * example_ram.fb_info.pitch + x * 4 + 3 < 2 ^ 32 ∧
      pixel_offset example_ram.fb_info x y = y * example_ram.fb_info.pitch + x * 4 ∧
      pixel_offset example_ram.fb_info x y + 3 < example_ram.fb_info.size ∧
      (Ram.fb_put_pixel x y color example_ram).log =
        example_ram.log ++
          (List.range 4).map
            (fun k => example_ram.fb_info.buffer + (pixel_offset example_ram.fb_info x y + k))) ∧
    (∀ x y color,
      Ram.writes_inside example_ram.fb_info.size example_ram
        (Ram.fb_put_pixel x y color example_ram)) ∧
    (∀ x y w h color fuel, example_ram.fb_info.width + example_ram.fb_info.height < fuel →
      ∃ t, Ram.fb_fill_rect x y w h color fuel example_ram = some t ∧
        Ram.writes_inside example_ram.fb_info.size example_ram t) ∧
    (∀ color fuel, example_ram.fb_info.width + example_ram.fb_info.height < fuel →
      ∃ t, Ram.fb_clear color fuel example_ram = some t ∧
        Ram.writes_inside example_ram.fb_info.size example_ram t) ∧
    (∀ font8x8 x y c fg bg,
      Ram.writes_inside example_ram.fb_info.size example_ram
        (Ram.fb_draw_char font8x8 x y c fg bg example_ram)) ∧
    (∀ font8x8 x y str fg bg,
      Ram.writes_inside example_ram.fb_info.size example_ram
        (Ram.fb_draw_string font8x8 x y str fg bg example_ram)) ∧
    agrees_with_screen example_ram :=
  drawing_stays_inside example_ram (by decide) (by decide)

end RPi
